import Mathlib

/-!
# drawsudoku: pagination and grid rendering of `createPDF`

A shallow embedding of `createPDF` of `internal/mix.go` (and of the helper
`smaller`), of `createPDF` of `main.go`, of the row ranges that
`fetchSudokuGames` selects in `internal/mix.go` and `internal/pdf_backup.go`,
and of `difficultyValue.Set` of `internal/generate.go`.  The PDF surface
(`gofpdf`) is replaced by the ordered list of the drawing calls made on it;
floating point numbers are exact rationals, and a second model of the geometry
(`F64`) rounds every operation to `float64` where the rounding matters; a Go
run-time panic (index out of range) is an explicit flow value.
-/

namespace Drawsudoku

/-! ## Data model -/

/-- One fetched row: `type Game struct { game string; solution string }`.
A Go string is indexed by byte; each list element stands for one byte. -/
structure Game where
  game : List Char
  solution : List Char
deriving DecidableEq, Repr

/-- Which of the two strings of a `Game` an index expression reads. -/
inductive Field where
  | game
  | solution
deriving DecidableEq, Repr

/-- Selector for `rec.game` and `rec.solution`. -/
def Game.board (g : Game) : Field → List Char
  | Field.game => g.game
  | Field.solution => g.solution

/-- The calls made on the drawing surface, in the order they are made.
`read` is not a drawing call: it records the evaluation of
`sudokus[K][idx].field[pos]`, so that the indices used can be observed. -/
inductive Event where
  /-- Call `pdf.AddPage()`. -/
  | addPage
  /-- Call `pdf.MoveTo(0, 0)` then `pdf.CellFormat(w, h, txt, ...)` on a title page. -/
  | title (w h : ℚ) (txt : String)
  /-- Call `pdf.MoveTo(x, y)` then `pdf.CellFormat(w, h, Sprintf(.. difficulty, number))`;
  in `main.go` the text is `Sprintf(" #%d ", number)` and `difficulty` is empty. -/
  | label (x y w h : ℚ) (difficulty : String) (number : Nat)
  /-- Call `pdf.SetLineWidth(width)` then `pdf.Line(x1, y1, x2, y2)`. -/
  | line (x1 y1 x2 y2 width : ℚ)
  /-- Call `pdf.MoveTo(x, y)` then `pdf.CellFormat(w, h, string(c), ...)`. -/
  | digit (x y w h : ℚ) (c : Char)
  /-- Call `pdf.MoveTo(x, y)` then `pdf.CellFormat(0, h, Sprintf("%d", pageNo))`;
  in `main.go` the text is `Sprintf("P%d", pageNo)`. -/
  | footer (x y h : ℚ) (pageNo : Nat)
  /-- Evaluation of `sudokus[K][idx].field[pos]`; in `main.go`, of `sudokus[idx][pos]`,
  recorded with the field `game`. -/
  | read (field : Field) (idx pos : Nat)
  /-- Call `pdf.Image(name, x, y, w, h, ...)`. -/
  | image (name : String) (x y w h : ℚ)
  /-- Call `pdf.MoveTo(x, y)`, then between `TransformBegin`, `TransformRotate(90, 0, pivotY)`
  and `TransformEnd` the call `pdf.CellFormat(w, h, txt, ...)`. -/
  | rotatedTitle (x y pivotY w h : ℚ) (txt : String)
deriving DecidableEq, Repr

/-- The mutable variables of `createPDF`: the cursor `sudokuIndex` and the
page counter behind `pdf.PageNo()`. -/
structure Regs where
  sudokuIndex : Nat
  pageNo : Nat
deriving DecidableEq, Repr

/-- How a statement ended: normally, by `break`, or by a run-time panic. -/
inductive Flow where
  | normal
  | brk
  | panic
deriving DecidableEq, Repr

/-- Result of running a statement: the calls it made, the variables after it,
and how it ended. -/
structure Res where
  events : List Event
  regs : Regs
  flow : Flow
deriving DecidableEq, Repr

/-- A statement maps the variables before it to its result. -/
abbrev Stmt := Regs → Res

/-! ## Control flow -/

/-- The empty statement. -/
def skip : Stmt := fun r => ⟨[], r, Flow.normal⟩

/-- One call on the drawing surface, its arguments computed from the variables. -/
def emit (e : Regs → Event) : Stmt := fun r => ⟨[e r], r, Flow.normal⟩

/-- Assignment to the variables. -/
def assign (f : Regs → Regs) : Stmt := fun r => ⟨[], f r, Flow.normal⟩

/-- Sequential composition `a; b`: `b` runs only when `a` ended normally. -/
def seq (a b : Stmt) : Stmt := fun r =>
  let x := a r
  match x.flow with
  | Flow.normal =>
    let y := b x.regs
    ⟨x.events ++ y.events, y.regs, y.flow⟩
  | _ => x

/-- A block of statements run in order. -/
def block : List Stmt → Stmt
  | [] => skip
  | s :: ss => seq s (block ss)

/-- Loop `for v := i; v < i + k; v++ { body v }`: a `break` in the body ends
the loop normally, a panic ends everything. -/
def forFrom (body : Nat → Stmt) : Nat → Nat → Stmt
  | _, 0 => skip
  | i, k + 1 => fun r =>
    let x := body i r
    match x.flow with
    | Flow.normal =>
      let y := forFrom body (i + 1) k x.regs
      ⟨x.events ++ y.events, y.regs, y.flow⟩
    | Flow.brk => ⟨x.events, x.regs, Flow.normal⟩
    | Flow.panic => x

/-- Loop `for v := 0; v < n; v++ { body v }`. -/
def forRange (n : Nat) (body : Nat → Stmt) : Stmt := forFrom body 0 n

/-- Statement `if cond { break }` followed by `rest`. -/
def breakIf (cond : Regs → Bool) (rest : Stmt) : Stmt := fun r =>
  if cond r then ⟨[], r, Flow.brk⟩ else rest r

/-! ## Geometry (`mix.go`, lines 88-93, 106, 122-131, 156-157) -/

/-- Function `smaller` of `mix.go`. -/
def smaller (a b : ℚ) : ℚ := if a < b then a else b

/-- Constant `margin := 6.` (millimetres). -/
def margin : ℚ := 6

/-- The values derived from the page size and the tile layout. -/
structure Geom where
  width : ℚ
  height : ℚ
  nx : Nat
  ny : Nat
  drawingWidth : ℚ
  drawingHeight : ℚ
  offsetY : ℚ
  L : ℚ
  fieldL : ℚ
  thinLineWidth : ℚ
  thickLineWidth : ℚ
deriving DecidableEq, Repr

/-- Side of a grid: `smaller(drawingWidth/float64(nx), drawingHeight/float64(ny)) * 0.85`. -/
def gridSide (drawingWidth drawingHeight : ℚ) (nx ny : Nat) : ℚ :=
  smaller (drawingWidth / (nx : ℚ)) (drawingHeight / (ny : ℚ)) * (85 / 100)

/-- Lines 122-131 (and again 224-233) of `createPDF`; `width` and `height` are
what `pdf.GetPageSize()` returned. -/
def geometry (width height : ℚ) (nx ny : Nat) : Geom :=
  let drawingWidth := width - 6 * margin
  let drawingHeight := height - 6 * margin
  let offsetY := (height - drawingHeight) / (5 / 2)
  let L := gridSide drawingWidth drawingHeight nx ny
  { width := width, height := height, nx := nx, ny := ny,
    drawingWidth := drawingWidth, drawingHeight := drawingHeight,
    offsetY := offsetY, L := L, fieldL := L / 9,
    thinLineWidth := L / 300, thickLineWidth := L / 120 }

/-- Origin abscissa of tile column `X` (line 156). -/
def originX (g : Geom) (X : Nat) : ℚ :=
  3 * margin + (X : ℚ) / (g.nx : ℚ) * g.drawingWidth + (g.drawingWidth / (g.nx : ℚ) - g.L) / 2

/-- Origin ordinate of tile row `Y` (line 157). -/
def originY (g : Geom) (Y : Nat) : ℚ :=
  g.offsetY + (Y : ℚ) / (g.ny : ℚ) * g.drawingHeight + (g.drawingHeight / (g.ny : ℚ) - g.L) / 2

/-! ## Rendering one grid (`mix.go`, lines 159-204 and 263-307) -/

/-- Width chosen in the line loops: thick when the index is a multiple of 3. -/
def lineWidth (g : Geom) (l : Nat) : ℚ :=
  if l % 3 = 0 then g.thickLineWidth else g.thinLineWidth

/-- Body of the loop over `ly` (lines 168-177). -/
def hLine (g : Geom) (x0 y0 : ℚ) (ly : Nat) : Event :=
  let w := lineWidth g ly
  Event.line (x0 - w / 2) (y0 + g.fieldL * (ly : ℚ)) (x0 + w / 2 + g.L) (y0 + g.fieldL * (ly : ℚ)) w

/-- Body of the loop over `lx` (lines 179-188). -/
def vLine (g : Geom) (x0 y0 : ℚ) (lx : Nat) : Event :=
  let w := lineWidth g lx
  Event.line (x0 + g.fieldL * (lx : ℚ)) (y0 - w / 2) (x0 + g.fieldL * (lx : ℚ)) (y0 + w / 2 + g.L) w

/-- The text cell of the symbol `c` of cell `(i, j)` (lines 195-200). -/
def digitAt (g : Geom) (x0 y0 : ℚ) (i j : Nat) (c : Char) : Event :=
  Event.digit (x0 + g.fieldL * (i : ℚ)) (y0 + g.fieldL * (j : ℚ) + g.fieldL / 20) g.fieldL g.fieldL c

/-- Body of the loop over `j` (lines 193-201): read
`sudokus[K][sudokuIndex].field[i*9+j]`, which panics when either index is out
of range, and draw the symbol unless it is `.`. -/
def drawCell (recs : List Game) (f : Field) (g : Geom) (x0 y0 : ℚ) (i j : Nat) : Stmt := fun r =>
  match recs[r.sudokuIndex]? with
  | none => ⟨[Event.read f r.sudokuIndex (i * 9 + j)], r, Flow.panic⟩
  | some rec =>
    match (rec.board f)[i * 9 + j]? with
    | none => ⟨[Event.read f r.sudokuIndex (i * 9 + j)], r, Flow.panic⟩
    | some n =>
      if n ≠ '.' then
        ⟨[Event.read f r.sudokuIndex (i * 9 + j), digitAt g x0 y0 i j n], r, Flow.normal⟩
      else
        ⟨[Event.read f r.sudokuIndex (i * 9 + j)], r, Flow.normal⟩

/-- Lines 167-203: the two line loops and the loop over the 9 x 9 cells. -/
def drawGrid (recs : List Game) (f : Field) (g : Geom) (x0 y0 : ℚ) : Stmt :=
  block [
    forRange 10 (fun ly => emit (fun _ => hLine g x0 y0 ly)),
    forRange 10 (fun lx => emit (fun _ => vLine g x0 y0 lx)),
    forRange 9 (fun i => forRange 9 (fun j => drawCell recs f g x0 y0 i j))]

/-- Statement `sudokuIndex++`. -/
def nextSudoku : Stmt := assign (fun r => { r with sudokuIndex := r.sudokuIndex + 1 })

/-- Body of the loop over `Y` in the puzzle section (lines 156-204). -/
def puzzleTile (recs : List Game) (difficulty : String) (g : Geom) (X Y : Nat) : Stmt :=
  let x0 := originX g X
  let y0 := originY g Y
  block [
    emit (fun r => Event.label x0 (y0 - 2 * margin) g.L (2 * margin) difficulty (r.sudokuIndex + 1)),
    drawGrid recs Field.game g x0 y0,
    nextSudoku]

/-- Statement `pdf.AddPage()`. -/
def addPage : Stmt := fun r => ⟨[Event.addPage], { r with pageNo := r.pageNo + 1 }, Flow.normal⟩

/-- The page number cell (lines 206-208 and 310-312). -/
def footer (g : Geom) : Stmt :=
  emit (fun r => Event.footer 0 (g.height - (7 / 2) * margin) (2 * margin) r.pageNo)

/-- Body of the loop over `W` in the puzzle section (lines 148-209). -/
def puzzlePage (recs : List Game) (difficulty : String) (g : Geom) (_W : Nat) : Stmt :=
  block [
    addPage,
    forRange g.nx (fun X => block [
      forRange g.ny (fun Y => puzzleTile recs difficulty g X Y),
      footer g])]

/-- Number of puzzle pages: `np := count / 2` (line 144). -/
def puzzlePageCount (count : Nat) : Nat := count / 2

/-- Number of solution pages (lines 214-217):
`np = count / 6; if (count % 6) != 0 { np += 1 }`. -/
def solutionPageCount (count : Nat) : Nat :=
  if count % 6 ≠ 0 then count / 6 + 1 else count / 6

/-- Puzzle pages of a band (lines 144-211). -/
def puzzlePages (recs : List Game) (difficulty : String) (g : Geom) : Stmt :=
  forRange (puzzlePageCount recs.length) (puzzlePage recs difficulty g)

/-- Go's `strings.Title` on a word of ASCII letters: the first letter in upper case. -/
def stringsTitle (s : String) : String := s.capitalize

/-- Body of the loop over `Y` in the solution section (lines 257-307). -/
def solutionTile (recs : List Game) (difficulty : String) (g : Geom) (X Y : Nat) : Stmt :=
  breakIf (fun r => decide (r.sudokuIndex ≥ recs.length))
    (let x0 := originX g X
     let y0 := originY g Y
     block [
      emit (fun r => Event.label x0 (y0 - 1 * margin) g.L (1 * margin)
        (stringsTitle difficulty) (r.sudokuIndex + 1)),
      drawGrid recs Field.solution g x0 y0,
      nextSudoku])

/-- Body of the loop over `W` in the solution section (lines 249-313). -/
def solutionPage (recs : List Game) (difficulty : String) (g : Geom) (_W : Nat) : Stmt :=
  block [
    addPage,
    forRange g.nx (fun X => block [
      forRange g.ny (fun Y => solutionTile recs difficulty g X Y),
      footer g])]

/-- Solution pages of a band (lines 247-315). -/
def solutionPages (recs : List Game) (difficulty : String) (g : Geom) : Stmt :=
  forRange (solutionPageCount recs.length) (solutionPage recs difficulty g)

/-- Statement `sudokuIndex = 0`. -/
def resetSudoku : Stmt := assign (fun r => { r with sudokuIndex := 0 })

/-- Puzzle section of a band (lines 117-211): layout `nx` x `ny`, cursor at 0,
the title page, then the puzzle pages. -/
def puzzleSection (recs : List Game) (difficulty : String) (volume : Nat)
    (width height : ℚ) (nx ny : Nat) : Stmt :=
  block [
    resetSudoku,
    addPage,
    emit (fun _ => Event.title width height (difficulty ++ " Sudoku - Puzzles")),
    emit (fun _ => Event.title width height ("Volume #" ++ toString volume)),
    puzzlePages recs difficulty (geometry width height nx ny)]

/-- Solution section of a band (lines 213-315): layout 2 x 3, cursor back at 0,
the title page, then the solution pages. -/
def solutionSection (recs : List Game) (difficulty : String) (width height : ℚ) : Stmt :=
  block [
    resetSudoku,
    addPage,
    emit (fun _ => Event.title width height (difficulty ++ " Sudoku - Solutions")),
    solutionPages recs difficulty (geometry width height 2 3)]

/-- Body of the loop over `K` (lines 114-315); `sudokus[K]` panics when the
outer slice is shorter than `K + 1`. -/
def band (sudokus : List (List Game)) (levels : Nat → String) (nx ny volume : Nat)
    (width height : ℚ) (K : Nat) : Stmt := fun r =>
  match sudokus[K]? with
  | none => ⟨[], r, Flow.panic⟩
  | some recs =>
    block [
      puzzleSection recs (stringsTitle (levels K)) volume width height nx ny,
      solutionSection recs (stringsTitle (levels K)) width height] r

/-- Function `createPDF` of `mix.go` up to the write of the file: four
preliminary pages, then the four bands. -/
def createPDF (sudokus : List (List Game)) (nx ny volume : Nat) (levels : Nat → String)
    (width height : ℚ) : Res :=
  block [
    addPage, addPage, addPage, addPage,
    forRange 4 (band sudokus levels nx ny volume width height)] ⟨0, 0⟩

/-- Array `levels` of `main` (line 26). -/
def levels : Nat → String
  | 0 => "simple"
  | 1 => "easy"
  | 2 => "intermediate"
  | _ => "expert"

/-! ## Reading a trace -/

/-- The calls one cell of a board gives rise to: the read of position `pos`,
then the text cell when the symbol exists and is not `.`. -/
def cellEvents (f : Field) (idx : Nat) (g : Geom) (x0 y0 : ℚ) (board : List Char)
    (pos : Nat) : List Event :=
  match board[pos]? with
  | none => [Event.read f idx pos]
  | some c =>
    if c ≠ '.' then [Event.read f idx pos, digitAt g x0 y0 (pos / 9) (pos % 9) c]
    else [Event.read f idx pos]

/-- Recogniser of line calls. -/
def Event.isLine : Event → Bool
  | Event.line _ _ _ _ _ => true
  | _ => false

/-- Recogniser of digit text cells. -/
def Event.isDigit : Event → Bool
  | Event.digit _ _ _ _ _ => true
  | _ => false

/-- Recogniser of per-grid labels. -/
def Event.isLabel : Event → Bool
  | Event.label _ _ _ _ _ _ => true
  | _ => false

/-- Recogniser of page number cells. -/
def Event.isFooter : Event → Bool
  | Event.footer _ _ _ _ => true
  | _ => false

/-- Recogniser of `AddPage` calls. -/
def Event.isAddPage : Event → Bool
  | Event.addPage => true
  | _ => false

/-- Recogniser of the index evaluations, which are not drawing calls. -/
def Event.isRead : Event → Bool
  | Event.read _ _ _ => true
  | _ => false

/-- A line call whose two end points have the same ordinate. -/
def Event.isHorizontal : Event → Bool
  | Event.line _ y1 _ y2 _ => decide (y1 = y2)
  | _ => false

/-- A line call whose two end points have the same abscissa. -/
def Event.isVertical : Event → Bool
  | Event.line x1 _ x2 _ _ => decide (x1 = x2)
  | _ => false

/-- Position of a digit text cell. -/
def Event.digitPos : Event → Option (ℚ × ℚ)
  | Event.digit x y _ _ _ => some (x, y)
  | _ => none

/-- The record index and position of an index evaluation. -/
def Event.readOf : Event → Option (Field × Nat × Nat)
  | Event.read f idx pos => some (f, idx, pos)
  | _ => none

/-- The number shown by a label. -/
def Event.labelNumber : Event → Option Nat
  | Event.label _ _ _ _ _ m => some m
  | _ => none

/-- The calls of one grid drawn from `board` at origin `(x0, y0)`: ten
horizontal lines, ten vertical lines, then the cells in index order, up to and
including the first index that is out of range (at most 81 cells). -/
def gridEvents (f : Field) (idx : Nat) (g : Geom) (x0 y0 : ℚ) (board : List Char) : List Event :=
  (List.range 10).map (hLine g x0 y0) ++ (List.range 10).map (vLine g x0 y0) ++
    (List.range (min (board.length + 1) 81)).flatMap (cellEvents f idx g x0 y0 board)

/-- The test `string(n) != "."` of the cell loop. -/
def nonBlank (c : Char) : Bool := decide (c ≠ '.')

/-- Position of the text cell of board index `pos`, when that index holds a
symbol other than `.`. -/
def digitPosAt (g : Geom) (x0 y0 : ℚ) (board : List Char) (pos : Nat) : Option (ℚ × ℚ) :=
  match board[pos]? with
  | none => none
  | some c =>
    if c ≠ '.' then
      some (x0 + g.fieldL * ((pos / 9 : Nat) : ℚ), y0 + g.fieldL * ((pos % 9 : Nat) : ℚ) + g.fieldL / 20)
    else none

/-- The calls of one tile of the puzzle section, at cursor `idx`, when
`board` is the `game` string of the record read: the label, then the grid. -/
def puzzleTileEvents (difficulty : String) (g : Geom) (X Y idx : Nat) (board : List Char) :
    List Event :=
  Event.label (originX g X) (originY g Y - 2 * margin) g.L (2 * margin) difficulty (idx + 1) ::
    gridEvents Field.game idx g (originX g X) (originY g Y) board

/-- The calls of one tile of the solution section, at cursor `idx`, when
`board` is the `solution` string of the record read. -/
def solutionTileEvents (difficulty : String) (g : Geom) (X Y idx : Nat) (board : List Char) :
    List Event :=
  Event.label (originX g X) (originY g Y - 1 * margin) g.L (1 * margin)
      (stringsTitle difficulty) (idx + 1) ::
    gridEvents Field.solution idx g (originX g X) (originY g Y) board

/-- Recogniser of the drawing calls proper: everything but the index evaluations. -/
def Event.isDraw (e : Event) : Bool := !e.isRead

/-- Recogniser of line calls and digit cells together. -/
def Event.isLineOrDigit (e : Event) : Bool := e.isLine || e.isDigit

/-- A sample record: a puzzle with 30 clues and its solution. -/
def sampleGame : Game :=
  { game := "53..7....6..195....98....6.8...6...34..8.3..17...2...6.6....28....419..5....8..79".toList,
    solution := "534678912672195348198342567859761423426853791713924856961537284287419635345286179".toList }

/-- The Letter page in millimetres, 215.9 x 279.4, laid out `nx` x `ny`. -/
def letterGeometry (nx ny : Nat) : Geom := geometry (2159 / 10) (2794 / 10) nx ny

/-- The string `sudokus[K][idx].field`, empty when there is no such record. -/
def boardAt (recs : List Game) (f : Field) (idx : Nat) : List Char :=
  match recs[idx]? with
  | some rec => rec.board f
  | none => []

/-- The page number cell drawn by `footer` when `pdf.PageNo()` is `pageNo`. -/
def footerEvent (g : Geom) (pageNo : Nat) : Event :=
  Event.footer 0 (g.height - (7 / 2) * margin) (2 * margin) pageNo

/-- The calls of one turn of the loop over `X`, started at cursor `idx` on
page `pageNo`: the tiles of the column that still have a record (at most
`ny`), then the page number cell.  `tileEv X Y idx` are the calls of one tile. -/
def columnEvents (tileEv : Nat → Nat → Nat → List Event) (g : Geom) (count X idx pageNo : Nat) :
    List Event :=
  (List.range (min g.ny (count - idx))).flatMap (fun Y => tileEv X Y (idx + Y)) ++
    [footerEvent g pageNo]

/-- The calls of one turn of the loop over `W`, started at cursor `idx` after
`pageNo` pages: `AddPage`, then the `nx` columns. -/
def pageEvents (tileEv : Nat → Nat → Nat → List Event) (g : Geom) (count idx pageNo : Nat) :
    List Event :=
  Event.addPage ::
    (List.range g.nx).flatMap
      (fun X => columnEvents tileEv g count X (min (idx + g.ny * X) count) (pageNo + 1))

/-- The calls of `np` turns of the loop over `W`, started at cursor 0 after
`pageNo` pages. -/
def pagesEvents (tileEv : Nat → Nat → Nat → List Event) (g : Geom) (count np pageNo : Nat) :
    List Event :=
  (List.range np).flatMap
    (fun W => pageEvents tileEv g count (min (g.nx * g.ny * W) count) (pageNo + W))

/-- The calls of the puzzle tile `(X, Y)` at cursor `idx`. -/
def puzzleTileEv (recs : List Game) (difficulty : String) (g : Geom) (X Y idx : Nat) : List Event :=
  puzzleTileEvents difficulty g X Y idx (boardAt recs Field.game idx)

/-- The calls of the solution tile `(X, Y)` at cursor `idx`. -/
def solutionTileEv (recs : List Game) (difficulty : String) (g : Geom) (X Y idx : Nat) :
    List Event :=
  solutionTileEvents difficulty g X Y idx (boardAt recs Field.solution idx)

/-- The numbers shown by the labels of a trace, in order. -/
def labelNumbers (es : List Event) : List Nat := es.filterMap Event.labelNumber

/-- The index evaluations of a trace, in order. -/
def readLog (es : List Event) : List (Field × Nat × Nat) := es.filterMap Event.readOf

/-- Split a trace at its `AddPage` calls: the calls before the first one, and
then the calls of each page. -/
def splitPages : List Event → List Event × List (List Event)
  | [] => ([], [])
  | e :: es =>
    if e.isAddPage then ([], (splitPages es).1 :: (splitPages es).2)
    else (e :: (splitPages es).1, (splitPages es).2)

/-- The calls of each page of a trace. -/
def pagesOf (es : List Event) : List (List Event) := (splitPages es).2

/-- The number of grids (labels) on each page of a trace. -/
def gridsPerPage (es : List Event) : List Nat := (pagesOf es).map (List.countP Event.isLabel)

/-- The calls of the puzzle section of a band, started after `pageNo` pages,
when no tile panics. -/
def puzzleSectionEvents (recs : List Game) (difficulty : String) (volume : Nat)
    (width height : ℚ) (nx ny pageNo : Nat) : List Event :=
  Event.addPage :: Event.title width height (difficulty ++ " Sudoku - Puzzles") ::
    Event.title width height ("Volume #" ++ toString volume) ::
    pagesEvents (puzzleTileEv recs difficulty (geometry width height nx ny))
      (geometry width height nx ny) recs.length (puzzlePageCount recs.length) (pageNo + 1)

/-- The calls of the solution section of a band, started after `pageNo` pages,
when no tile panics. -/
def solutionSectionEvents (recs : List Game) (difficulty : String)
    (width height : ℚ) (pageNo : Nat) : List Event :=
  Event.addPage :: Event.title width height (difficulty ++ " Sudoku - Solutions") ::
    pagesEvents (solutionTileEv recs difficulty (geometry width height 2 3))
      (geometry width height 2 3) recs.length (solutionPageCount recs.length) (pageNo + 1)

/-- An index evaluation uses a record index below `count`; the other calls are
not constrained. -/
def Event.readBelow (count : Nat) : Event → Bool
  | Event.read _ idx _ => decide (idx < count)
  | _ => true

/-- Every index evaluation of a trace uses a record index below `count`. -/
def readsBelow (count : Nat) (es : List Event) : Prop := ∀ e ∈ es, e.readBelow count = true

/-- State of the reading of a section's trace: the number of the label of the
grid being drawn, and the index evaluation made by the call just before, if
that call was one. -/
structure Audit where
  label : Option Nat
  last : Option (Nat × Nat)
deriving DecidableEq, Repr

/-- One step of the reading of a trace against the records `recs` and the
field `f`.  A label `#m` opens a grid.  An index evaluation must be of field
`f` and of the record `m - 1` of the open grid.  A digit cell must come right
after an index evaluation and show the symbol that this evaluation found in
`recs`.  Lines keep the grid open; page furniture closes it. -/
def auditStep (recs : List Game) (f : Field) (a : Audit) : Event → Option Audit
  | Event.label _ _ _ _ _ m => some ⟨some m, none⟩
  | Event.read f2 idx pos =>
    if f2 = f ∧ a.label = some (idx + 1) then some ⟨a.label, some (idx, pos)⟩ else none
  | Event.digit _ _ _ _ c =>
    match a.last with
    | some (idx, pos) =>
      if (boardAt recs f idx)[pos]? = some c then some ⟨a.label, none⟩ else none
    | none => none
  | Event.line _ _ _ _ _ => some ⟨a.label, none⟩
  | _ => some ⟨none, none⟩

/-- Reading of a whole trace; `none` as soon as a step is refused. -/
def audit (recs : List Game) (f : Field) : Audit → List Event → Option Audit
  | a, [] => some a
  | a, e :: es =>
    match auditStep recs f a e with
    | some a2 => audit recs f a2 es
    | none => none

/-- In the trace `es` every grid labelled `#m` is filled from the board `f` of
the record `recs[m-1]`, and from nothing else. -/
def faithful (recs : List Game) (f : Field) (es : List Event) : Bool :=
  (audit recs f ⟨none, none⟩ es).isSome

/-- A trace that the reading accepts from every state. -/
def Accepted (recs : List Game) (f : Field) (es : List Event) : Prop :=
  ∀ a : Audit, (audit recs f a es).isSome = true

/-- A trace that the reading accepts while the grid `#(idx + 1)` is open, and
that leaves it open. -/
def AcceptedIn (recs : List Game) (f : Field) (idx : Nat) (es : List Event) : Prop :=
  ∀ last, ∃ last2, audit recs f ⟨some (idx + 1), last⟩ es = some ⟨some (idx + 1), last2⟩

/-! ## Fetching the records (`mix.go`, lines 36-64; `pdf_backup.go`, lines 121-145) -/

namespace Mix

/-- Constant `multipier := 50` of `fetchSudokuGames`. -/
def multipier : Int := 50

/-- Array `basesize := [4]int{1, 1, 3, 6}` of `fetchSudokuGames`. -/
def basesize : Nat → Int
  | 0 => 1
  | 1 => 1
  | 2 => 3
  | _ => 6

/-- Value of `limit` for band `i`: `basesize[i] * multipier` (line 56). -/
def fetchLimit (i : Nat) : Int := basesize i * multipier

/-- Value of `offset` for band `i` (lines 55, 60-62): 0, and
`((volume - 1) * basesize[i] * multipier) + 1` when `volume > 1`. -/
def fetchOffset (volume : Int) (i : Nat) : Int :=
  if volume > 1 then ((volume - 1) * basesize i * multipier) + 1 else 0

/-- The query `LIMIT limit OFFSET offset` of line 64 returns the rows whose
0-based position `row` in the table satisfies `offset <= row < offset + limit`. -/
def selects (volume : Int) (i : Nat) (row : Int) : Prop :=
  fetchOffset volume i ≤ row ∧ row < fetchOffset volume i + fetchLimit i

instance (volume : Int) (i : Nat) (row : Int) : Decidable (selects volume i row) :=
  inferInstanceAs
    (Decidable (fetchOffset volume i ≤ row ∧ row < fetchOffset volume i + fetchLimit i))

end Mix

namespace PdfBackup

/-- Value of `offset` in `fetchSudokuGames` of `pdf_backup.go` (lines 138,
141-143): 0, and `(volume * 100) + 1` when `volume > 1`. -/
def fetchOffset (volume : Int) : Int :=
  if volume > 1 then (volume * 100) + 1 else 0

/-- Value of `limit` (line 139): the amount asked for. -/
def fetchLimit (amount : Int) : Int := amount

/-- The query `LIMIT limit OFFSET offset` of line 145 returns the rows whose
0-based position satisfies `offset <= row < offset + limit`. -/
def selects (amount volume : Int) (row : Int) : Prop :=
  fetchOffset volume ≤ row ∧ row < fetchOffset volume + fetchLimit amount

instance (amount volume : Int) (row : Int) : Decidable (selects amount volume row) :=
  inferInstanceAs
    (Decidable (fetchOffset volume ≤ row ∧ row < fetchOffset volume + fetchLimit amount))

end PdfBackup

/-! ## The difficulty flag of `generate.go` (lines 25-33) -/

namespace Generate

/-- Go's `strings.ToLower` on a string of ASCII characters. -/
def stringsToLower (s : String) : String := String.mk (s.data.map Char.toLower)

/-- Method `difficultyValue.Set` of `generate.go`: the value stored in
`*d.Difficulty` when it returns `nil`, or the text of the error returned. -/
def difficultyValue.Set (s : String) : Except String String :=
  let difficulty := stringsToLower s
  if difficulty = "intermediate" ∨ difficulty = "simple" ∨ difficulty = "easy" ∨
      difficulty = "expert" then
    Except.ok difficulty
  else Except.error "invalid difficulty value"

/-- The values that the usage text of the flag lists:
`"one of simple, easy, intermediate, expert, any"` (line 40). -/
def usageValues : List String := ["simple", "easy", "intermediate", "expert", "any"]

end Generate

/-- The text cell drawn for board index `pos`, when that index holds a symbol
other than `.`: cell `(pos / 9, pos % 9)`. -/
def digitEventAt (g : Geom) (x0 y0 : ℚ) (board : List Char) (pos : Nat) : Option Event :=
  match board[pos]? with
  | none => none
  | some c => if c ≠ '.' then some (digitAt g x0 y0 (pos / 9) (pos % 9) c) else none

/-- The width set for a line call. -/
def Event.lineWidthOf : Event → Option ℚ
  | Event.line _ _ _ _ w => some w
  | _ => none

/-- A line call drawn with the width `w`. -/
def Event.hasWidth (w : ℚ) (e : Event) : Bool := decide (e.lineWidthOf = some w)

/-- The number of page number cells on each page of a trace. -/
def footersPerPage (es : List Event) : List Nat := (pagesOf es).map (List.countP Event.isFooter)

/-- The text of a title call. -/
def Event.titleText : Event → Option String
  | Event.title _ _ txt => some txt
  | _ => none

/-- The texts of the title calls of a trace, in order. -/
def titles (es : List Event) : List String := es.filterMap Event.titleText

/-- The slice `sudokus[K]`, empty when there is no such band. -/
def bandAt (sudokus : List (List Game)) (K : Nat) : List Game :=
  match sudokus[K]? with
  | some recs => recs
  | none => []

/-- The pages of band `K`: two title pages, `count / 2` puzzle pages and the
solution pages. -/
def bandPages (sudokus : List (List Game)) (K : Nat) : Nat :=
  1 + puzzlePageCount (bandAt sudokus K).length + 1 + solutionPageCount (bandAt sudokus K).length

/-- The value of `pdf.PageNo()` when band `K` starts: the four preliminary
pages and the pages of the earlier bands. -/
def pagesBefore (sudokus : List (List Game)) : Nat → Nat
  | 0 => 4
  | K + 1 => pagesBefore sudokus K + bandPages sudokus K

/-- The value of `sudokuIndex` when band `K` starts: what the band before left. -/
def cursorBefore (sudokus : List (List Game)) : Nat → Nat
  | 0 => 0
  | K + 1 => (bandAt sudokus K).length

/-- The calls of the puzzle section of band `K` in a run without panic. -/
def bandPuzzleEvents (sudokus : List (List Game)) (levels : Nat → String) (nx ny volume : Nat)
    (width height : ℚ) (K : Nat) : List Event :=
  puzzleSectionEvents (bandAt sudokus K) (stringsTitle (levels K)) volume width height nx ny
    (pagesBefore sudokus K)

/-- The calls of the solution section of band `K` in a run without panic. -/
def bandSolutionEvents (sudokus : List (List Game)) (levels : Nat → String)
    (width height : ℚ) (K : Nat) : List Event :=
  solutionSectionEvents (bandAt sudokus K) (stringsTitle (levels K)) width height
    (pagesBefore sudokus K + 1 + puzzlePageCount (bandAt sudokus K).length)

/-- Recogniser of the index evaluations of the board `f` of a record. -/
def Event.readsField (f : Field) : Event → Bool
  | Event.read f1 _ _ => decide (f1 = f)
  | _ => false

/-- What one page shows: the texts of its titles, the number of symbols of
puzzle boards it reads and the number of symbols of solution boards it reads. -/
def pageSummary (page : List Event) : List String × Nat × Nat :=
  (titles page, page.countP (Event.readsField Field.game),
    page.countP (Event.readsField Field.solution))

/-- The summaries of the pages of a trace, in order. -/
def pageOutline (es : List Event) : List (List String × Nat × Nat) :=
  (pagesOf es).map pageSummary

/-- The outline of band `K` of a complete book: the puzzles title page, the
puzzle pages of `nx * ny` grids, the solutions title page and the solution
pages of at most 6 grids. -/
def bandOutline (sudokus : List (List Game)) (levels : Nat → String) (nx ny volume : Nat)
    (K : Nat) : List (List String × Nat × Nat) :=
  ([stringsTitle (levels K) ++ " Sudoku - Puzzles", "Volume #" ++ toString volume], 0, 0) ::
    List.replicate (puzzlePageCount (bandAt sudokus K).length) ([], nx * ny * 81, 0) ++
  ([stringsTitle (levels K) ++ " Sudoku - Solutions"], 0, 0) ::
    (List.range (solutionPageCount (bandAt sudokus K).length)).map
      (fun W => ([], 0, min 6 ((bandAt sudokus K).length - 6 * W) * 81))

/-- Four bands of two copies of the sample record each. -/
def sampleBands : List (List Game) :=
  [[sampleGame, sampleGame], [sampleGame, sampleGame], [sampleGame, sampleGame],
    [sampleGame, sampleGame]]

/-! ## The single-section program (`main.go`) -/

namespace Main

/-- Go's `int` on a 64-bit platform: the value of an arithmetic result after
two's complement wrap-around. -/
def wrapInt (z : Int) : Int := (z + 2 ^ 63) % 2 ^ 64 - 2 ^ 63

/-- Line 48 of `main`: `n := nx * ny * np`, the number of boards asked of the
generator. -/
def requested (nx ny np : Int) : Int := wrapInt (wrapInt (nx * ny) * np)

/-- Constant `margin := 5.` (millimetres, line 88). -/
def margin : ℚ := 5

/-- Constant `backgroundImage` (line 81). -/
def backgroundImage : String := "4.jpg"

/-- Constant `title` (line 82). -/
def title : String := "Killer Sudoku - Volume #5 - Easy"

/-- Lines 90-99 of `createPDF`; `width` and `height` are what
`pdf.GetPageSize()` returned.  Function `smaller` of `main.go` is the one of
`mix.go`. -/
def geometry (width height : ℚ) (nx ny : Nat) : Geom :=
  let drawingWidth := width - 5 * margin
  let drawingHeight := height - 4 * margin
  let offsetY := (height - drawingHeight) / (12 / 10)
  let L := smaller (drawingWidth / (nx : ℚ)) (drawingHeight / (ny : ℚ)) * (85 / 100)
  { width := width, height := height, nx := nx, ny := ny,
    drawingWidth := drawingWidth, drawingHeight := drawingHeight,
    offsetY := offsetY, L := L, fieldL := L / 9,
    thinLineWidth := L / 300, thickLineWidth := L / 120 }

/-- Origin abscissa of tile column `X` (line 128). -/
def originX (g : Geom) (X : Nat) : ℚ :=
  4 * margin + (X : ℚ) / (g.nx : ℚ) * g.drawingWidth + (g.drawingWidth / (g.nx : ℚ) - g.L) / 2

/-- Origin ordinate of tile row `Y` (line 129). -/
def originY (g : Geom) (Y : Nat) : ℚ :=
  g.offsetY + (Y : ℚ) / (g.ny : ℚ) * g.drawingHeight + (g.drawingHeight / (g.ny : ℚ) - g.L) / 2

/-- Body of the loop over `j` (lines 163-173): read `sudokus[sudokuIndex][i*9+j]`,
which panics when either index is out of range, and draw the symbol unless it
is `.`.  The boards are strings of ASCII symbols, so a byte is a character. -/
def drawCell (sudokus : List (List Char)) (g : Geom) (x0 y0 : ℚ) (i j : Nat) : Stmt := fun r =>
  match sudokus[r.sudokuIndex]? with
  | none => ⟨[Event.read Field.game r.sudokuIndex (i * 9 + j)], r, Flow.panic⟩
  | some board =>
    match board[i * 9 + j]? with
    | none => ⟨[Event.read Field.game r.sudokuIndex (i * 9 + j)], r, Flow.panic⟩
    | some n =>
      if n ≠ '.' then
        ⟨[Event.read Field.game r.sudokuIndex (i * 9 + j), digitAt g x0 y0 i j n], r,
          Flow.normal⟩
      else
        ⟨[Event.read Field.game r.sudokuIndex (i * 9 + j)], r, Flow.normal⟩

/-- Lines 139-174: the two line loops and the loop over the 9 x 9 cells. -/
def drawGrid (sudokus : List (List Char)) (g : Geom) (x0 y0 : ℚ) : Stmt :=
  block [
    forRange 10 (fun ly => emit (fun _ => hLine g x0 y0 ly)),
    forRange 10 (fun lx => emit (fun _ => vLine g x0 y0 lx)),
    forRange 9 (fun i => forRange 9 (fun j => drawCell sudokus g x0 y0 i j))]

/-- Body of the loop over `Y` (lines 128-175): the label `#number`, the grid,
`sudokuIndex++`. -/
def tile (sudokus : List (List Char)) (g : Geom) (X Y : Nat) : Stmt :=
  let x0 := originX g X
  let y0 := originY g Y
  block [
    emit (fun r => Event.label x0 (y0 - 3 * margin) g.L (3 * margin) "" (r.sudokuIndex + 1)),
    drawGrid sudokus g x0 y0,
    nextSudoku]

/-- The page number cell (lines 178-180). -/
def footer (g : Geom) : Stmt :=
  emit (fun r => Event.footer 0 (g.height - 4 * margin) (2 * margin) r.pageNo)

/-- The background image (lines 104 and 110). -/
def image (g : Geom) : Stmt :=
  emit (fun _ => Event.image backgroundImage 0 0 g.width g.height)

/-- The title turned by 90 degrees along the left edge (lines 118-123). -/
def rotatedTitle (g : Geom) : Stmt :=
  emit (fun _ => Event.rotatedTitle 0 (g.height + 3 * margin) g.height g.height (2 * margin) title)

/-- Body of the loop over `W` (lines 109-182). -/
def page (sudokus : List (List Char)) (g : Geom) (_W : Nat) : Stmt :=
  block [
    Drawsudoku.addPage,
    image g,
    rotatedTitle g,
    forRange g.nx (fun X => block [
      forRange g.ny (fun Y => tile sudokus g X Y),
      footer g])]

/-- Function `createPDF` of `main.go` up to the write of the file: one empty
page, two pages with the background image, then `np` pages of grids. -/
def createPDF (sudokus : List (List Char)) (nx ny np : Nat) (width height : ℚ) : Res :=
  block [
    Drawsudoku.addPage,
    forRange 2 (fun _ => block [Drawsudoku.addPage, image (geometry width height nx ny)]),
    forRange np (page sudokus (geometry width height nx ny))] ⟨0, 0⟩

/-- The record whose puzzle string is a board of `main.go`. -/
def asRecord (board : List Char) : Game := { game := board, solution := board }

/-- The board at index `idx`, empty when there is none. -/
def boardAt (sudokus : List (List Char)) (idx : Nat) : List Char :=
  match sudokus[idx]? with
  | some board => board
  | none => []

/-- The calls of the tile `(X, Y)` at cursor `idx`. -/
def tileEvents (sudokus : List (List Char)) (g : Geom) (X Y idx : Nat) : List Event :=
  Event.label (originX g X) (originY g Y - 3 * margin) g.L (3 * margin) "" (idx + 1) ::
    gridEvents Field.game idx g (originX g X) (originY g Y) (boardAt sudokus idx)

/-- The calls of one turn of the loop over `X`, started at cursor `idx` on
page `pageNo`: the `ny` tiles, then the page number cell. -/
def columnEvents (sudokus : List (List Char)) (g : Geom) (X idx pageNo : Nat) : List Event :=
  (List.range g.ny).flatMap (fun Y => tileEvents sudokus g X Y (idx + Y)) ++
    [Event.footer 0 (g.height - 4 * margin) (2 * margin) pageNo]

/-- The calls of one page after the `AddPage`: image, title and the `nx` columns. -/
def pageBody (sudokus : List (List Char)) (g : Geom) (idx pageNo : Nat) : List Event :=
  Event.image backgroundImage 0 0 g.width g.height ::
    Event.rotatedTitle 0 (g.height + 3 * margin) g.height g.height (2 * margin) title ::
    (List.range g.nx).flatMap (fun X => columnEvents sudokus g X (idx + X * g.ny) (pageNo + 1))

/-- The calls of a run of `createPDF` in which no read panics. -/
def bookEvents (sudokus : List (List Char)) (nx ny np : Nat) (width height : ℚ) : List Event :=
  [Event.addPage, Event.addPage,
    Event.image backgroundImage 0 0 width height, Event.addPage,
    Event.image backgroundImage 0 0 width height] ++
  (List.range np).flatMap (fun W =>
    Event.addPage :: pageBody sudokus (geometry width height nx ny) (W * (nx * ny)) (3 + W))

end Main

/-! ## Float64 arithmetic (`float64` of Go, IEEE 754 binary64) -/

namespace F64

/-- The power `2 ^ e` for an integer exponent. -/
def pow2 (e : Int) : ℚ :=
  if 0 ≤ e then ((2 ^ e.toNat : Nat) : ℚ) else 1 / ((2 ^ (-e).toNat : Nat) : ℚ)

/-- The number of halvings that bring `n` below 2, at most `fuel` of them. -/
def halvings : Nat → Nat → Nat
  | 0, _ => 0
  | fuel + 1, n => if n < 2 then 0 else halvings fuel (n / 2) + 1

/-- The binary logarithm of a positive natural number, rounded down. -/
def log2 (n : Nat) : Nat := halvings n n

/-- The binary exponent of a positive number `a`: the `e` with `2^e <= a < 2^(e+1)`. -/
def exponent (a : ℚ) : Int :=
  let e0 : Int := (log2 a.num.natAbs : Int) - (log2 a.den : Int)
  if a < pow2 e0 then e0 - 1 else e0

/-- Rounding of a real result to the nearest `float64`, ties to the even
mantissa, for results in the normal range (53 significant bits). -/
def round (x : ℚ) : ℚ :=
  if x = 0 then 0
  else
    let a : ℚ := if x < 0 then -x else x
    let q : ℚ := pow2 (exponent a - 52)
    let m : ℚ := a / q
    let f : Int := Rat.floor m
    let r : Int :=
      if m - (f : ℚ) < 1 / 2 then f
      else if 1 / 2 < m - (f : ℚ) then f + 1
      else if f % 2 = 0 then f else f + 1
    (if x < 0 then -1 else 1) * (r : ℚ) * q

/-- Go's `a + b` on `float64` values. -/
def add (a b : ℚ) : ℚ := round (a + b)

/-- Go's `a - b` on `float64` values. -/
def sub (a b : ℚ) : ℚ := round (a - b)

/-- Go's `a * b` on `float64` values. -/
def mul (a b : ℚ) : ℚ := round (a * b)

/-- Go's `a / b` on `float64` values, `b` not zero. -/
def div (a b : ℚ) : ℚ := round (a / b)

end F64

namespace F64

/-- Function `smaller` of `mix.go` on `float64` values. -/
def smaller (a b : ℚ) : ℚ := if a < b then a else b

/-- Constant `margin := 6.`. -/
def margin : ℚ := 6

/-- Lines 122-131 of `createPDF` with every operation rounded to `float64`;
the constant `0.85` is the `float64` nearest to 85/100. -/
def geometry (width height : ℚ) (nx ny : Nat) : Geom :=
  let drawingWidth := sub width (mul 6 margin)
  let drawingHeight := sub height (mul 6 margin)
  let offsetY := div (sub height drawingHeight) (5 / 2)
  let L := mul (smaller (div drawingWidth (nx : ℚ)) (div drawingHeight (ny : ℚ))) (round (85 / 100))
  { width := width, height := height, nx := nx, ny := ny,
    drawingWidth := drawingWidth, drawingHeight := drawingHeight,
    offsetY := offsetY, L := L, fieldL := div L 9,
    thinLineWidth := div L 300, thickLineWidth := div L 120 }

/-- Line 156 with every operation rounded to `float64`:
`3*margin + float64(X)/float64(nx)*drawingWidth + (drawingWidth/float64(nx)-L)/2`. -/
def originX (g : Geom) (X : Nat) : ℚ :=
  add (add (mul 3 margin) (mul (div (X : ℚ) (g.nx : ℚ)) g.drawingWidth))
    (div (sub (div g.drawingWidth (g.nx : ℚ)) g.L) 2)

/-- Line 157 with every operation rounded to `float64`:
`offsetY + float64(Y)/float64(ny)*drawingHeight + (drawingHeight/float64(ny)-L)/2`. -/
def originY (g : Geom) (Y : Nat) : ℚ :=
  add (add g.offsetY (mul (div (Y : ℚ) (g.ny : ℚ)) g.drawingHeight))
    (div (sub (div g.drawingHeight (g.ny : ℚ)) g.L) 2)

/-- Body of the loop over `ly` (lines 168-177) with every operation rounded to
`float64`: `pdf.Line(x0-w/2, y0+fieldL*float64(ly), x0+w/2+L, y0+fieldL*float64(ly))`. -/
def hLine (g : Geom) (x0 y0 : ℚ) (ly : Nat) : Event :=
  let w := lineWidth g ly
  Event.line (sub x0 (div w 2)) (add y0 (mul g.fieldL (ly : ℚ))) (add (add x0 (div w 2)) g.L)
    (add y0 (mul g.fieldL (ly : ℚ))) w

/-- Body of the loop over `lx` (lines 179-188) with every operation rounded to
`float64`: `pdf.Line(x0+fieldL*float64(lx), y0-w/2, x0+fieldL*float64(lx), y0+w/2+L)`. -/
def vLine (g : Geom) (x0 y0 : ℚ) (lx : Nat) : Event :=
  let w := lineWidth g lx
  Event.line (add x0 (mul g.fieldL (lx : ℚ))) (sub y0 (div w 2)) (add x0 (mul g.fieldL (lx : ℚ)))
    (add (add y0 (div w 2)) g.L) w

/-- The `float64` nearest to 215.9, the width of the Letter page in millimetres. -/
def letterWidth : ℚ := 7596305933978829 / 35184372088832

/-- The `float64` nearest to 279.4, the height of the Letter page in millimetres. -/
def letterHeight : ℚ := 2457628390404915 / 8796093022208

/-- The `float64` value of `792 / k` for the scale `k`, the `float64` nearest to
72/25.4: the next `float64` above `letterHeight`. -/
def letterHeightScaled : ℚ := 4915256780809831 / 17592186044416

end F64

/-! ## The grids of a trace -/

/-- Recogniser of the calls that make up a grid: lines, index evaluations and
digit cells. -/
def Event.inGrid (e : Event) : Bool := e.isLine || e.isRead || e.isDigit

/-- The grids of a trace: every label `#m` opens a grid, which is made of the
lines, index evaluations and digit cells that follow the label, up to the next
call of another kind. -/
def gridsOf : List Event → List (Nat × List Event)
  | [] => []
  | Event.label _ _ _ _ _ m :: es => (m, es.takeWhile Event.inGrid) :: gridsOf es
  | _ :: es => gridsOf es

/-- A piece of the trace of a section: one call of page furniture (a page
break, a title, a page number), or the calls of the tile `(X, Y)` drawn at
cursor `idx`. -/
inductive Piece where
  | furniture (e : Event)
  | tile (X Y idx : Nat)

/-- The calls of a piece, `tileEv X Y idx` being the calls of a tile. -/
def Piece.events (tileEv : Nat → Nat → Nat → List Event) : Piece → List Event
  | Piece.furniture e => [e]
  | Piece.tile X Y idx => tileEv X Y idx

/-- A furniture piece is neither a label nor part of a grid. -/
def Piece.wellFormed : Piece → Bool
  | Piece.furniture e => !(e.isLabel || e.inGrid)
  | Piece.tile _ _ _ => true

/-- A trace that is a sequence of furniture calls and whole tiles. -/
def Tiled (tileEv : Nat → Nat → Nat → List Event) (es : List Event) : Prop :=
  ∃ ps : List Piece, (∀ p ∈ ps, p.wellFormed = true) ∧ es = ps.flatMap (Piece.events tileEv)

/-! ## Geometry lemmas -/

theorem smaller_le_left (a b : ℚ) : smaller a b ≤ a := by
  unfold smaller
  split_ifs with h
  · exact le_refl a
  · exact not_lt.mp h

theorem smaller_le_right (a b : ℚ) : smaller a b ≤ b := by
  unfold smaller
  split_ifs with h
  · exact le_of_lt h
  · exact le_refl b

theorem smaller_eq_min (a b : ℚ) : smaller a b = min a b := by
  unfold smaller
  split_ifs with h
  · exact (min_eq_left (le_of_lt h)).symm
  · exact (min_eq_right (not_lt.mp h)).symm

theorem smaller_pos {a b : ℚ} (ha : 0 < a) (hb : 0 < b) : 0 < smaller a b := by
  unfold smaller
  split_ifs
  · exact ha
  · exact hb

theorem tile_share_pos {d : ℚ} {n : Nat} (hd : 0 < d) (hn : 1 ≤ n) : 0 < d / (n : ℚ) := by
  have hn0 : (0 : ℚ) < (n : ℚ) := by exact_mod_cast hn
  exact div_pos hd hn0

theorem gridSide_pos {dw dh : ℚ} {nx ny : Nat} (hw : 0 < dw) (hh : 0 < dh)
    (hx : 1 ≤ nx) (hy : 1 ≤ ny) : 0 < gridSide dw dh nx ny := by
  unfold gridSide
  have h := smaller_pos (tile_share_pos hw hx) (tile_share_pos hh hy)
  linarith

theorem gridSide_lt_share_x {dw dh : ℚ} {nx ny : Nat} (hw : 0 < dw) (hx : 1 ≤ nx) :
    gridSide dw dh nx ny < dw / (nx : ℚ) := by
  unfold gridSide
  have h1 := smaller_le_left (dw / (nx : ℚ)) (dh / (ny : ℚ))
  have h2 := tile_share_pos hw hx
  linarith

theorem gridSide_lt_share_y {dw dh : ℚ} {nx ny : Nat} (hh : 0 < dh) (hy : 1 ≤ ny) :
    gridSide dw dh nx ny < dh / (ny : ℚ) := by
  unfold gridSide
  have h1 := smaller_le_right (dw / (nx : ℚ)) (dh / (ny : ℚ))
  have h2 := tile_share_pos hh hy
  linarith

/-! ## Control-flow lemmas -/

@[simp] theorem skip_apply (r : Regs) : skip r = ⟨[], r, Flow.normal⟩ := rfl

@[simp] theorem emit_apply (e : Regs → Event) (r : Regs) :
    emit e r = ⟨[e r], r, Flow.normal⟩ := rfl

@[simp] theorem assign_apply (f : Regs → Regs) (r : Regs) :
    assign f r = ⟨[], f r, Flow.normal⟩ := rfl

@[simp] theorem addPage_apply (r : Regs) :
    addPage r = ⟨[Event.addPage], ⟨r.sudokuIndex, r.pageNo + 1⟩, Flow.normal⟩ := rfl

@[simp] theorem block_nil : block [] = skip := rfl

@[simp] theorem block_cons (s : Stmt) (ss : List Stmt) : block (s :: ss) = seq s (block ss) := rfl

theorem seq_of_normal {a b : Stmt} {r r1 : Regs} {ev : List Event}
    (h : a r = ⟨ev, r1, Flow.normal⟩) :
    seq a b r = ⟨ev ++ (b r1).events, (b r1).regs, (b r1).flow⟩ := by
  simp [seq, h]

theorem seq_of_panic {a b : Stmt} {r r1 : Regs} {ev : List Event}
    (h : a r = ⟨ev, r1, Flow.panic⟩) : seq a b r = ⟨ev, r1, Flow.panic⟩ := by
  simp [seq, h]

theorem seq_of_brk {a b : Stmt} {r r1 : Regs} {ev : List Event}
    (h : a r = ⟨ev, r1, Flow.brk⟩) : seq a b r = ⟨ev, r1, Flow.brk⟩ := by
  simp [seq, h]

@[simp] theorem forFrom_zero (body : Nat → Stmt) (i : Nat) (r : Regs) :
    forFrom body i 0 r = ⟨[], r, Flow.normal⟩ := rfl

theorem forFrom_succ_normal {body : Nat → Stmt} {i k : Nat} {r r1 : Regs} {ev : List Event}
    (h : body i r = ⟨ev, r1, Flow.normal⟩) :
    forFrom body i (k + 1) r =
      ⟨ev ++ (forFrom body (i + 1) k r1).events, (forFrom body (i + 1) k r1).regs,
        (forFrom body (i + 1) k r1).flow⟩ := by
  simp [forFrom, h]

theorem forFrom_succ_panic {body : Nat → Stmt} {i k : Nat} {r r1 : Regs} {ev : List Event}
    (h : body i r = ⟨ev, r1, Flow.panic⟩) :
    forFrom body i (k + 1) r = ⟨ev, r1, Flow.panic⟩ := by
  simp [forFrom, h]

theorem forFrom_succ_brk {body : Nat → Stmt} {i k : Nat} {r r1 : Regs} {ev : List Event}
    (h : body i r = ⟨ev, r1, Flow.brk⟩) :
    forFrom body i (k + 1) r = ⟨ev, r1, Flow.normal⟩ := by
  simp [forFrom, h]

theorem flatMap_range_succ_left {α : Type} (E : Nat → List α) (k : Nat) :
    (List.range (k + 1)).flatMap E = E 0 ++ (List.range k).flatMap (fun t => E (t + 1)) := by
  rw [List.range_succ_eq_map, List.flatMap_cons, List.flatMap_map]

/-- A loop whose body always ends normally and moves the variables by a fixed
amount per turn: its calls are the concatenation of the calls of the turns. -/
theorem forFrom_uniform (body : Nat → Stmt) (d p : Nat) :
    ∀ (k i : Nat) (r : Regs) (E : Nat → List Event),
      (∀ t, t < k → body (i + t) ⟨r.sudokuIndex + d * t, r.pageNo + p * t⟩ =
        ⟨E t, ⟨r.sudokuIndex + d * (t + 1), r.pageNo + p * (t + 1)⟩, Flow.normal⟩) →
      forFrom body i k r =
        ⟨(List.range k).flatMap E, ⟨r.sudokuIndex + d * k, r.pageNo + p * k⟩, Flow.normal⟩ := by
  intro k
  induction k with
  | zero => intro i r E _; simp
  | succ k ih =>
    intro i r E h
    have h0 := h 0 (Nat.succ_pos k)
    simp only [Nat.mul_zero, Nat.add_zero, Nat.zero_add, Nat.mul_one] at h0
    rw [forFrom_succ_normal h0]
    have ih1 := ih (i + 1) ⟨r.sudokuIndex + d, r.pageNo + p⟩ (fun t => E (t + 1)) (by
      intro t ht
      have ht1 := h (t + 1) (Nat.succ_lt_succ ht)
      have e1 : i + (t + 1) = i + 1 + t := by omega
      have e2 : r.sudokuIndex + d * (t + 1) = r.sudokuIndex + d + d * t := by ring
      have e3 : r.pageNo + p * (t + 1) = r.pageNo + p + p * t := by ring
      have e4 : r.sudokuIndex + d * (t + 1 + 1) = r.sudokuIndex + d + d * (t + 1) := by ring
      have e5 : r.pageNo + p * (t + 1 + 1) = r.pageNo + p + p * (t + 1) := by ring
      rw [e1, e2, e3, e4, e5] at ht1
      exact ht1)
    rw [ih1, flatMap_range_succ_left]
    have e6 : r.sudokuIndex + d + d * k = r.sudokuIndex + d * (k + 1) := by ring
    have e7 : r.pageNo + p + p * k = r.pageNo + p * (k + 1) := by ring
    simp only [e6, e7]

/-- A loop that leaves the variables alone and whose turn `t` ends normally
exactly when `t < m`: it runs to the end when `k <= m` and otherwise panics in
turn `m`. -/
theorem forFrom_upto (body : Nat → Stmt) (r : Regs) :
    ∀ (k i m : Nat) (E : Nat → List Event),
      (∀ t, t < k → body (i + t) r = ⟨E t, r, if t < m then Flow.normal else Flow.panic⟩) →
      forFrom body i k r =
        if k ≤ m then ⟨(List.range k).flatMap E, r, Flow.normal⟩
        else ⟨(List.range (m + 1)).flatMap E, r, Flow.panic⟩ := by
  intro k
  induction k with
  | zero => intro i m E _; simp
  | succ k ih =>
    intro i m E h
    have h0 := h 0 (Nat.succ_pos k)
    simp only [Nat.add_zero] at h0
    cases m with
    | zero =>
      simp only [Nat.lt_irrefl, if_false] at h0
      rw [forFrom_succ_panic h0]
      simp [List.range_succ]
    | succ m =>
      simp only [Nat.succ_pos, if_true] at h0
      rw [forFrom_succ_normal h0]
      have ih1 := ih (i + 1) m (fun t => E (t + 1)) (by
        intro t ht
        have ht1 := h (t + 1) (Nat.succ_lt_succ ht)
        have e1 : i + (t + 1) = i + 1 + t := by omega
        rw [e1] at ht1
        simpa using ht1)
      rw [ih1]
      by_cases hk : k ≤ m
      · simp [hk, flatMap_range_succ_left E k]
      · simp [hk, flatMap_range_succ_left E (m + 1)]

/-- Two nested index ranges enumerate one range. -/
theorem flatMap_range_mul {α : Type} (F : Nat → List α) (b : Nat) :
    ∀ a : Nat, (List.range a).flatMap (fun i => (List.range b).flatMap (fun j => F (i * b + j))) =
      (List.range (a * b)).flatMap F := by
  intro a
  induction a with
  | zero => simp
  | succ a ih =>
    rw [List.range_succ, List.flatMap_append, ih, Nat.succ_mul, List.range_add,
      List.flatMap_append, List.flatMap_map]
    simp

/-! ## One grid -/

theorem forFrom_emit (e : Nat → Event) (k i : Nat) (r : Regs) :
    forFrom (fun l => emit (fun _ => e l)) i k r =
      ⟨(List.range k).map (fun t => e (i + t)), r, Flow.normal⟩ := by
  have h := forFrom_uniform (fun l => emit (fun _ => e l)) 0 0 k i r (fun t => [e (i + t)])
    (by intro t _; simp)
  rw [h, List.map_eq_flatMap]
  simp

theorem forRange_emit (e : Nat → Event) (k : Nat) (r : Regs) :
    forRange k (fun l => emit (fun _ => e l)) r = ⟨(List.range k).map e, r, Flow.normal⟩ := by
  unfold forRange
  rw [forFrom_emit]
  simp

theorem drawCell_eq {recs : List Game} {r : Regs} {rec : Game}
    (hrec : recs[r.sudokuIndex]? = some rec) (f : Field) (g : Geom) (x0 y0 : ℚ)
    (i j : Nat) (hj : j < 9) :
    drawCell recs f g x0 y0 i j r =
      ⟨cellEvents f r.sudokuIndex g x0 y0 (rec.board f) (i * 9 + j), r,
        if i * 9 + j < (rec.board f).length then Flow.normal else Flow.panic⟩ := by
  have e1 : (i * 9 + j) / 9 = i := by omega
  have e2 : (i * 9 + j) % 9 = j := by omega
  unfold drawCell cellEvents
  rw [hrec]
  simp only [e1, e2]
  cases hb : (rec.board f)[i * 9 + j]? with
  | none =>
    have hlt : ¬ i * 9 + j < (rec.board f).length := by
      rw [List.getElem?_eq_none_iff] at hb
      omega
    simp [hlt]
  | some c =>
    have hlt : i * 9 + j < (rec.board f).length := by
      obtain ⟨h, _⟩ := List.getElem?_eq_some_iff.mp hb
      exact h
    simp only [hlt, if_true]
    split_ifs <;> rfl

theorem drawCell_no_record {recs : List Game} {r : Regs}
    (hrec : recs[r.sudokuIndex]? = none) (f : Field) (g : Geom) (x0 y0 : ℚ) (i j : Nat) :
    drawCell recs f g x0 y0 i j r =
      ⟨[Event.read f r.sudokuIndex (i * 9 + j)], r, Flow.panic⟩ := by
  unfold drawCell
  rw [hrec]

/-- The loop over the 9 x 9 cells: all 81 cells when the board has at least 81
symbols, otherwise the cells up to the first missing index, where it panics. -/
theorem drawCells_eq {recs : List Game} {r : Regs} {rec : Game}
    (hrec : recs[r.sudokuIndex]? = some rec) (f : Field) (g : Geom) (x0 y0 : ℚ) :
    forRange 9 (fun i => forRange 9 (fun j => drawCell recs f g x0 y0 i j)) r =
      ⟨(List.range (min ((rec.board f).length + 1) 81)).flatMap
          (cellEvents f r.sudokuIndex g x0 y0 (rec.board f)), r,
        if 81 ≤ (rec.board f).length then Flow.normal else Flow.panic⟩ := by
  have row : ∀ i, forRange 9 (fun j => drawCell recs f g x0 y0 i j) r =
      if 9 ≤ (rec.board f).length - i * 9 then
        ⟨(List.range 9).flatMap
          (fun t => cellEvents f r.sudokuIndex g x0 y0 (rec.board f) (i * 9 + t)), r, Flow.normal⟩
      else
        ⟨(List.range ((rec.board f).length - i * 9 + 1)).flatMap
          (fun t => cellEvents f r.sudokuIndex g x0 y0 (rec.board f) (i * 9 + t)), r, Flow.panic⟩ := by
    intro i
    unfold forRange
    apply forFrom_upto
    intro t ht
    rw [Nat.zero_add, drawCell_eq hrec f g x0 y0 i t ht]
    have e : (i * 9 + t < (rec.board f).length) ↔ (t < (rec.board f).length - i * 9) := by omega
    simp only [e]
  have outer := forFrom_upto (fun i => forRange 9 (fun j => drawCell recs f g x0 y0 i j)) r 9 0
    ((rec.board f).length / 9)
    (fun i => (List.range (min 9 ((rec.board f).length - i * 9 + 1))).flatMap
      (fun t => cellEvents f r.sudokuIndex g x0 y0 (rec.board f) (i * 9 + t)))
    (by
      intro i _
      show forRange 9 (fun j => drawCell recs f g x0 y0 (0 + i) j) r = _
      rw [Nat.zero_add, row i]
      by_cases h9 : 9 ≤ (rec.board f).length - i * 9
      · have hi : i < (rec.board f).length / 9 := by omega
        have hm : min 9 ((rec.board f).length - i * 9 + 1) = 9 := by omega
        simp only [h9, hi, if_true, hm]
      · have hi : ¬ i < (rec.board f).length / 9 := by omega
        have hm : min 9 ((rec.board f).length - i * 9 + 1) = (rec.board f).length - i * 9 + 1 := by
          omega
        simp only [h9, hi, if_false, hm])
  refine Eq.trans outer ?_
  by_cases h81 : 81 ≤ (rec.board f).length
  · have h1 : 9 ≤ (rec.board f).length / 9 := by omega
    have hm : min ((rec.board f).length + 1) 81 = 9 * 9 := by omega
    simp only [h1, h81, if_true, hm]
    rw [← flatMap_range_mul (cellEvents f r.sudokuIndex g x0 y0 (rec.board f)) 9 9]
    congr 1
    apply List.flatMap_congr
    intro i hi
    have hi9 : i < 9 := List.mem_range.mp hi
    have hm2 : min 9 ((rec.board f).length - i * 9 + 1) = 9 := by omega
    rw [hm2]
  · have h1 : ¬ 9 ≤ (rec.board f).length / 9 := by omega
    have hm : min ((rec.board f).length + 1) 81 = (rec.board f).length + 1 := by omega
    simp only [h1, h81, if_false, hm]
    congr 1
    have hR : (List.range ((rec.board f).length + 1)).flatMap
          (cellEvents f r.sudokuIndex g x0 y0 (rec.board f)) =
        (List.range ((rec.board f).length / 9 * 9)).flatMap
          (cellEvents f r.sudokuIndex g x0 y0 (rec.board f)) ++
        (List.range ((rec.board f).length % 9 + 1)).flatMap
          (fun t => cellEvents f r.sudokuIndex g x0 y0 (rec.board f)
            ((rec.board f).length / 9 * 9 + t)) := by
      have hsplit : (rec.board f).length + 1 =
          ((rec.board f).length / 9) * 9 + ((rec.board f).length % 9 + 1) := by omega
      rw [hsplit, List.range_add, List.flatMap_append, List.flatMap_map]
    rw [hR, List.range_succ, List.flatMap_append, List.flatMap_singleton,
      ← flatMap_range_mul (cellEvents f r.sudokuIndex g x0 y0 (rec.board f)) 9
        ((rec.board f).length / 9)]
    congr 1
    · apply List.flatMap_congr
      intro i hi
      have hi9 : i < (rec.board f).length / 9 := List.mem_range.mp hi
      have hm2 : min 9 ((rec.board f).length - i * 9 + 1) = 9 := by omega
      rw [hm2]
    · have hm2 : min 9 ((rec.board f).length - (rec.board f).length / 9 * 9 + 1) =
          (rec.board f).length % 9 + 1 := by omega
      rw [hm2]

theorem drawCells_no_record {recs : List Game} {r : Regs}
    (hrec : recs[r.sudokuIndex]? = none) (f : Field) (g : Geom) (x0 y0 : ℚ) :
    forRange 9 (fun i => forRange 9 (fun j => drawCell recs f g x0 y0 i j)) r =
      ⟨[Event.read f r.sudokuIndex 0], r, Flow.panic⟩ := by
  have inner : forRange 9 (fun j => drawCell recs f g x0 y0 0 j) r =
      ⟨[Event.read f r.sudokuIndex 0], r, Flow.panic⟩ := by
    exact forFrom_succ_panic (drawCell_no_record hrec f g x0 y0 0 0)
  exact forFrom_succ_panic inner

/-- The two line loops and the cell loop of one grid. -/
theorem drawGrid_eq {recs : List Game} {r : Regs} {rec : Game}
    (hrec : recs[r.sudokuIndex]? = some rec) (f : Field) (g : Geom) (x0 y0 : ℚ) :
    drawGrid recs f g x0 y0 r =
      ⟨gridEvents f r.sudokuIndex g x0 y0 (rec.board f), r,
        if 81 ≤ (rec.board f).length then Flow.normal else Flow.panic⟩ := by
  unfold drawGrid gridEvents
  simp only [block_cons, block_nil]
  rw [seq_of_normal (forRange_emit (hLine g x0 y0) 10 r),
    seq_of_normal (forRange_emit (vLine g x0 y0) 10 r)]
  by_cases h81 : 81 ≤ (rec.board f).length
  · have hc := drawCells_eq hrec f g x0 y0
    simp only [h81, if_true] at hc ⊢
    rw [seq_of_normal hc]
    simp
  · have hc := drawCells_eq hrec f g x0 y0
    simp only [h81, if_false] at hc ⊢
    rw [seq_of_panic hc]
    simp

theorem drawGrid_no_record {recs : List Game} {r : Regs}
    (hrec : recs[r.sudokuIndex]? = none) (f : Field) (g : Geom) (x0 y0 : ℚ) :
    drawGrid recs f g x0 y0 r =
      ⟨(List.range 10).map (hLine g x0 y0) ++ (List.range 10).map (vLine g x0 y0) ++
        [Event.read f r.sudokuIndex 0], r, Flow.panic⟩ := by
  unfold drawGrid
  simp only [block_cons, block_nil]
  rw [seq_of_normal (forRange_emit (hLine g x0 y0) 10 r),
    seq_of_normal (forRange_emit (vLine g x0 y0) 10 r),
    seq_of_panic (drawCells_no_record hrec f g x0 y0)]
  simp

/-! ## Counting the calls of one grid -/

theorem cellEvents_kinds (f : Field) (idx : Nat) (g : Geom) (x0 y0 : ℚ) (board : List Char)
    (pos : Nat) : ∀ e ∈ cellEvents f idx g x0 y0 board pos, e.isRead = true ∨ e.isDigit = true := by
  intro e he
  unfold cellEvents at he
  cases hb : board[pos]? with
  | none =>
    rw [hb] at he
    simp only [List.mem_singleton] at he
    subst he
    exact Or.inl rfl
  | some c =>
    rw [hb] at he
    simp only at he
    split_ifs at he
    · simp only [List.mem_cons, List.mem_singleton, List.not_mem_nil, or_false] at he
      rcases he with he | he
      · subst he; exact Or.inl rfl
      · subst he; exact Or.inr rfl
    · simp only [List.mem_singleton] at he
      subst he
      exact Or.inl rfl

/-- A recogniser that rejects index evaluations and digit cells counts nothing
in the cell loop. -/
theorem countP_cells_zero (p : Event → Bool)
    (hr : ∀ e, e.isRead = true → p e = false) (hd : ∀ e, e.isDigit = true → p e = false)
    (f : Field) (idx : Nat) (g : Geom) (x0 y0 : ℚ) (board : List Char) (n : Nat) :
    ((List.range n).flatMap (cellEvents f idx g x0 y0 board)).countP p = 0 := by
  rw [List.countP_eq_zero]
  intro e he
  rw [List.mem_flatMap] at he
  obtain ⟨pos, _, hpos⟩ := he
  rcases cellEvents_kinds f idx g x0 y0 board pos e hpos with h | h
  · simp [hr e h]
  · simp [hd e h]

theorem countP_digit_cellEvents (f : Field) (idx : Nat) (g : Geom) (x0 y0 : ℚ)
    (board : List Char) (pos : Nat) :
    (cellEvents f idx g x0 y0 board pos).countP Event.isDigit =
      (board[pos]?.toList).countP nonBlank := by
  unfold cellEvents
  cases hb : board[pos]? with
  | none => simp [Event.isDigit]
  | some c =>
    by_cases hc : c = '.'
    · simp [hc, Event.isDigit, nonBlank]
    · simp [hc, Event.isDigit, nonBlank, digitAt, List.countP_cons]

/-- The cell loop over the first `n` indices draws one digit cell per symbol
other than `.` among the first `n` symbols of the board. -/
theorem countP_digit_cells (f : Field) (idx : Nat) (g : Geom) (x0 y0 : ℚ) (board : List Char) :
    ∀ n : Nat, ((List.range n).flatMap (cellEvents f idx g x0 y0 board)).countP Event.isDigit =
      (board.take n).countP nonBlank := by
  intro n
  induction n with
  | zero => simp
  | succ n ih =>
    rw [List.range_succ, List.flatMap_append, List.countP_append, ih, List.flatMap_singleton,
      countP_digit_cellEvents, List.take_succ, List.countP_append]

theorem countP_read_cellEvents (f : Field) (idx : Nat) (g : Geom) (x0 y0 : ℚ)
    (board : List Char) (pos : Nat) :
    (cellEvents f idx g x0 y0 board pos).countP Event.isRead = 1 := by
  unfold cellEvents
  cases hb : board[pos]? with
  | none => simp [Event.isRead]
  | some c =>
    by_cases hc : c = '.'
    · simp [hc, Event.isRead]
    · simp [hc, Event.isRead, digitAt, List.countP_cons]

theorem isLine_hLine (g : Geom) (x0 y0 : ℚ) (l : Nat) : (hLine g x0 y0 l).isLine = true := rfl

theorem isLine_vLine (g : Geom) (x0 y0 : ℚ) (l : Nat) : (vLine g x0 y0 l).isLine = true := rfl

theorem isDigit_hLine (g : Geom) (x0 y0 : ℚ) (l : Nat) : (hLine g x0 y0 l).isDigit = false := rfl

theorem isDigit_vLine (g : Geom) (x0 y0 : ℚ) (l : Nat) : (vLine g x0 y0 l).isDigit = false := rfl

/-- One grid has exactly 20 line calls. -/
theorem countP_line_gridEvents (f : Field) (idx : Nat) (g : Geom) (x0 y0 : ℚ) (board : List Char) :
    (gridEvents f idx g x0 y0 board).countP Event.isLine = 20 := by
  unfold gridEvents
  rw [List.countP_append, List.countP_append,
    countP_cells_zero Event.isLine (by intro e he; cases e <;> simp_all [Event.isRead, Event.isLine])
      (by intro e he; cases e <;> simp_all [Event.isDigit, Event.isLine]),
    List.countP_map, List.countP_map]
  have h1 : (Event.isLine ∘ hLine g x0 y0) = fun _ => true := by
    funext l; exact isLine_hLine g x0 y0 l
  have h2 : (Event.isLine ∘ vLine g x0 y0) = fun _ => true := by
    funext l; exact isLine_vLine g x0 y0 l
  rw [h1, h2]
  simp

/-- One grid has one digit cell per symbol other than `.` among the symbols
it reads. -/
theorem countP_digit_gridEvents (f : Field) (idx : Nat) (g : Geom) (x0 y0 : ℚ)
    (board : List Char) :
    (gridEvents f idx g x0 y0 board).countP Event.isDigit =
      (board.take (min (board.length + 1) 81)).countP nonBlank := by
  unfold gridEvents
  rw [List.countP_append, List.countP_append, countP_digit_cells, List.countP_map, List.countP_map]
  have h1 : (Event.isDigit ∘ hLine g x0 y0) = fun _ => false := by
    funext l; exact isDigit_hLine g x0 y0 l
  have h2 : (Event.isDigit ∘ vLine g x0 y0) = fun _ => false := by
    funext l; exact isDigit_vLine g x0 y0 l
  rw [h1, h2]
  simp

/-! ## Geometry of the calls of one grid -/

theorem lineWidth_add_ne_zero (width height : ℚ) (nx ny : Nat)
    (hL : (geometry width height nx ny).L ≠ 0) (l : Nat) :
    lineWidth (geometry width height nx ny) l + (geometry width height nx ny).L ≠ 0 := by
  unfold lineWidth
  intro h
  apply hL
  split_ifs at h
  · have h2 : (geometry width height nx ny).L / 120 + (geometry width height nx ny).L = 0 := h
    linarith
  · have h2 : (geometry width height nx ny).L / 300 + (geometry width height nx ny).L = 0 := h
    linarith

theorem isHorizontal_hLine (g : Geom) (x0 y0 : ℚ) (l : Nat) :
    (hLine g x0 y0 l).isHorizontal = true := by
  simp [hLine, Event.isHorizontal]

theorem isVertical_vLine (g : Geom) (x0 y0 : ℚ) (l : Nat) :
    (vLine g x0 y0 l).isVertical = true := by
  simp [vLine, Event.isVertical]

theorem isHorizontal_vLine (g : Geom) (x0 y0 : ℚ) (l : Nat) (h : lineWidth g l + g.L ≠ 0) :
    (vLine g x0 y0 l).isHorizontal = false := by
  simp only [vLine, Event.isHorizontal, decide_eq_false_iff_not]
  intro e
  apply h
  linarith

theorem isVertical_hLine (g : Geom) (x0 y0 : ℚ) (l : Nat) (h : lineWidth g l + g.L ≠ 0) :
    (hLine g x0 y0 l).isVertical = false := by
  simp only [hLine, Event.isVertical, decide_eq_false_iff_not]
  intro e
  apply h
  linarith

/-- Ten of the lines of a grid are horizontal, when no line is degenerate. -/
theorem countP_horizontal_gridEvents (f : Field) (idx : Nat) (g : Geom) (x0 y0 : ℚ)
    (board : List Char) (h : ∀ l, lineWidth g l + g.L ≠ 0) :
    (gridEvents f idx g x0 y0 board).countP Event.isHorizontal = 10 := by
  unfold gridEvents
  rw [List.countP_append, List.countP_append,
    countP_cells_zero Event.isHorizontal
      (by intro e he; cases e <;> simp_all [Event.isRead, Event.isHorizontal])
      (by intro e he; cases e <;> simp_all [Event.isDigit, Event.isHorizontal]),
    List.countP_map, List.countP_map]
  have h1 : (Event.isHorizontal ∘ hLine g x0 y0) = fun _ => true := by
    funext l; exact isHorizontal_hLine g x0 y0 l
  have h2 : (Event.isHorizontal ∘ vLine g x0 y0) = fun _ => false := by
    funext l; exact isHorizontal_vLine g x0 y0 l (h l)
  rw [h1, h2]
  simp

/-- Ten of the lines of a grid are vertical, when no line is degenerate. -/
theorem countP_vertical_gridEvents (f : Field) (idx : Nat) (g : Geom) (x0 y0 : ℚ)
    (board : List Char) (h : ∀ l, lineWidth g l + g.L ≠ 0) :
    (gridEvents f idx g x0 y0 board).countP Event.isVertical = 10 := by
  unfold gridEvents
  rw [List.countP_append, List.countP_append,
    countP_cells_zero Event.isVertical
      (by intro e he; cases e <;> simp_all [Event.isRead, Event.isVertical])
      (by intro e he; cases e <;> simp_all [Event.isDigit, Event.isVertical]),
    List.countP_map, List.countP_map]
  have h1 : (Event.isVertical ∘ hLine g x0 y0) = fun _ => false := by
    funext l; exact isVertical_hLine g x0 y0 l (h l)
  have h2 : (Event.isVertical ∘ vLine g x0 y0) = fun _ => true := by
    funext l; exact isVertical_vLine g x0 y0 l
  rw [h1, h2]
  simp

theorem filterMap_digitPos_cellEvents (f : Field) (idx : Nat) (g : Geom) (x0 y0 : ℚ)
    (board : List Char) (pos : Nat) :
    (cellEvents f idx g x0 y0 board pos).filterMap Event.digitPos =
      (digitPosAt g x0 y0 board pos).toList := by
  unfold cellEvents digitPosAt
  cases hb : board[pos]? with
  | none => simp [Event.digitPos]
  | some c =>
    by_cases hc : c = '.'
    · simp [hc, Event.digitPos]
    · simp [hc, Event.digitPos, digitAt]

theorem filterMap_digitPos_cells (f : Field) (idx : Nat) (g : Geom) (x0 y0 : ℚ)
    (board : List Char) :
    ∀ n : Nat, ((List.range n).flatMap (cellEvents f idx g x0 y0 board)).filterMap Event.digitPos =
      (List.range n).filterMap (digitPosAt g x0 y0 board) := by
  intro n
  induction n with
  | zero => simp
  | succ n ih =>
    rw [List.range_succ, List.flatMap_append, List.filterMap_append, ih, List.flatMap_singleton,
      filterMap_digitPos_cellEvents, List.filterMap_append]
    congr 1

theorem digitPosAt_inj (g : Geom) (x0 y0 : ℚ) (board : List Char) (hf : g.fieldL ≠ 0)
    (a a2 : Nat) (b : ℚ × ℚ) (ha : b ∈ digitPosAt g x0 y0 board a)
    (ha2 : b ∈ digitPosAt g x0 y0 board a2) : a = a2 := by
  unfold digitPosAt at ha ha2
  cases hb : board[a]? with
  | none => rw [hb] at ha; simp at ha
  | some c =>
    cases hb2 : board[a2]? with
    | none => rw [hb2] at ha2; simp at ha2
    | some c2 =>
      rw [hb] at ha
      rw [hb2] at ha2
      simp only at ha ha2
      by_cases hc : c = '.'
      · simp [hc] at ha
      by_cases hc2 : c2 = '.'
      · simp [hc2] at ha2
      simp only [hc, hc2, ne_eq, not_false_eq_true, if_true, Option.mem_def,
        Option.some.injEq] at ha ha2
      rw [← ha2] at ha
      have hx := congrArg Prod.fst ha
      have hy := congrArg Prod.snd ha
      simp only at hx hy
      have hx1 : g.fieldL * ((a / 9 : Nat) : ℚ) = g.fieldL * ((a2 / 9 : Nat) : ℚ) := by linarith
      have hy1 : g.fieldL * ((a % 9 : Nat) : ℚ) = g.fieldL * ((a2 % 9 : Nat) : ℚ) := by linarith
      have hx2 : ((a / 9 : Nat) : ℚ) = ((a2 / 9 : Nat) : ℚ) := mul_left_cancel₀ hf hx1
      have hy2 : ((a % 9 : Nat) : ℚ) = ((a2 % 9 : Nat) : ℚ) := mul_left_cancel₀ hf hy1
      have hx3 : a / 9 = a2 / 9 := by exact_mod_cast hx2
      have hy3 : a % 9 = a2 % 9 := by exact_mod_cast hy2
      omega

/-- The digit cells of one grid are at pairwise distinct positions, when the
cell side is not zero. -/
theorem nodup_digitPos_gridEvents (f : Field) (idx : Nat) (g : Geom) (x0 y0 : ℚ)
    (board : List Char) (hf : g.fieldL ≠ 0) :
    ((gridEvents f idx g x0 y0 board).filterMap Event.digitPos).Nodup := by
  unfold gridEvents
  rw [List.filterMap_append, List.filterMap_append, filterMap_digitPos_cells,
    List.filterMap_map, List.filterMap_map]
  have h1 : (Event.digitPos ∘ hLine g x0 y0) = fun _ => none := by
    funext l; rfl
  have h2 : (Event.digitPos ∘ vLine g x0 y0) = fun _ => none := by
    funext l; rfl
  rw [h1, h2]
  have h3 : ∀ l : List Nat, l.filterMap (fun _ => (none : Option (ℚ × ℚ))) = [] := by
    intro l
    induction l with
    | nil => rfl
    | cons a l ih => simp
  rw [h3]
  simp only [List.nil_append]
  exact List.Nodup.filterMap (digitPosAt_inj g x0 y0 board hf) (List.nodup_range _)

theorem fieldL_ne_zero (width height : ℚ) (nx ny : Nat)
    (hL : (geometry width height nx ny).L ≠ 0) : (geometry width height nx ny).fieldL ≠ 0 := by
  intro h
  apply hL
  have h2 : (geometry width height nx ny).L / 9 = 0 := h
  linarith

/-! ## One tile -/

/-- A tile of the puzzle section whose record exists: the label and the grid;
the cursor moves on exactly when the board has at least 81 symbols. -/
theorem puzzleTile_eq {recs : List Game} {r : Regs} {rec : Game}
    (hrec : recs[r.sudokuIndex]? = some rec) (difficulty : String) (g : Geom) (X Y : Nat) :
    puzzleTile recs difficulty g X Y r =
      if 81 ≤ rec.game.length then
        ⟨puzzleTileEvents difficulty g X Y r.sudokuIndex rec.game,
          ⟨r.sudokuIndex + 1, r.pageNo⟩, Flow.normal⟩
      else ⟨puzzleTileEvents difficulty g X Y r.sudokuIndex rec.game, r, Flow.panic⟩ := by
  unfold puzzleTile puzzleTileEvents
  simp only [block_cons, block_nil]
  rw [seq_of_normal (emit_apply _ r)]
  have hg := drawGrid_eq hrec Field.game g (originX g X) (originY g Y)
  by_cases h81 : 81 ≤ rec.game.length
  · have h81b : 81 ≤ (rec.board Field.game).length := h81
    simp only [h81b, if_true] at hg
    rw [seq_of_normal hg]
    simp [h81, nextSudoku, seq, Game.board]
  · have h81b : ¬ 81 ≤ (rec.board Field.game).length := h81
    simp only [h81b, if_false] at hg
    rw [seq_of_panic hg]
    simp [h81, Game.board]

/-- A tile of the puzzle section whose record does not exist: the label and
the 20 lines are drawn, then the first read panics. -/
theorem puzzleTile_no_record {recs : List Game} {r : Regs}
    (hrec : recs[r.sudokuIndex]? = none) (difficulty : String) (g : Geom) (X Y : Nat) :
    puzzleTile recs difficulty g X Y r =
      ⟨Event.label (originX g X) (originY g Y - 2 * margin) g.L (2 * margin) difficulty
          (r.sudokuIndex + 1) ::
        ((List.range 10).map (hLine g (originX g X) (originY g Y)) ++
          (List.range 10).map (vLine g (originX g X) (originY g Y)) ++
          [Event.read Field.game r.sudokuIndex 0]), r, Flow.panic⟩ := by
  unfold puzzleTile
  simp only [block_cons, block_nil]
  rw [seq_of_normal (emit_apply _ r),
    seq_of_panic (drawGrid_no_record hrec Field.game g (originX g X) (originY g Y))]
  simp

/-- A tile of the solution section whose record exists. -/
theorem solutionTile_eq {recs : List Game} {r : Regs} {rec : Game}
    (hrec : recs[r.sudokuIndex]? = some rec) (difficulty : String) (g : Geom) (X Y : Nat) :
    solutionTile recs difficulty g X Y r =
      if 81 ≤ rec.solution.length then
        ⟨solutionTileEvents difficulty g X Y r.sudokuIndex rec.solution,
          ⟨r.sudokuIndex + 1, r.pageNo⟩, Flow.normal⟩
      else ⟨solutionTileEvents difficulty g X Y r.sudokuIndex rec.solution, r, Flow.panic⟩ := by
  have hlt : r.sudokuIndex < recs.length := by
    obtain ⟨h, _⟩ := List.getElem?_eq_some_iff.mp hrec
    exact h
  unfold solutionTile solutionTileEvents breakIf
  have hnot : (decide (r.sudokuIndex ≥ recs.length)) = false := by
    simp only [ge_iff_le, decide_eq_false_iff_not, not_le]
    exact hlt
  simp only [hnot, block_cons, block_nil]
  rw [if_neg (by simp), seq_of_normal (emit_apply _ r)]
  have hg := drawGrid_eq hrec Field.solution g (originX g X) (originY g Y)
  by_cases h81 : 81 ≤ rec.solution.length
  · have h81b : 81 ≤ (rec.board Field.solution).length := h81
    simp only [h81b, if_true] at hg
    rw [seq_of_normal hg]
    simp [h81, nextSudoku, seq, Game.board]
  · have h81b : ¬ 81 ≤ (rec.board Field.solution).length := h81
    simp only [h81b, if_false] at hg
    rw [seq_of_panic hg]
    simp [h81, Game.board]

/-- A tile of the solution section once the cursor has reached the number of
records: the guard breaks out of the loop and nothing is drawn. -/
theorem solutionTile_done {recs : List Game} {r : Regs} (h : recs.length ≤ r.sudokuIndex)
    (difficulty : String) (g : Geom) (X Y : Nat) :
    solutionTile recs difficulty g X Y r = ⟨[], r, Flow.brk⟩ := by
  unfold solutionTile breakIf
  have hyes : (decide (r.sudokuIndex ≥ recs.length)) = true := by
    simp only [ge_iff_le, decide_eq_true_eq]
    exact h
  simp only [hyes, if_true]

/-- A recogniser that accepts lines and digit cells and rejects index
evaluations counts 20 plus the number of symbols other than `.` in a grid. -/
theorem countP_gridEvents_of (p : Event → Bool)
    (hl : ∀ e, e.isLine = true → p e = true) (hd : ∀ e, e.isDigit = true → p e = true)
    (hr : ∀ e, e.isRead = true → p e = false)
    (f : Field) (idx : Nat) (g : Geom) (x0 y0 : ℚ) (board : List Char) :
    (gridEvents f idx g x0 y0 board).countP p =
      20 + (board.take (min (board.length + 1) 81)).countP nonBlank := by
  have hcells : ((List.range (min (board.length + 1) 81)).flatMap
      (cellEvents f idx g x0 y0 board)).countP p =
      ((List.range (min (board.length + 1) 81)).flatMap
      (cellEvents f idx g x0 y0 board)).countP Event.isDigit := by
    apply List.countP_congr
    intro e he
    rw [List.mem_flatMap] at he
    obtain ⟨pos, _, hpos⟩ := he
    rcases cellEvents_kinds f idx g x0 y0 board pos e hpos with h | h
    · have h2 : e.isDigit = false := by cases e <;> simp_all [Event.isRead, Event.isDigit]
      simp [hr e h, h2]
    · simp [hd e h, h]
  unfold gridEvents
  rw [List.countP_append, List.countP_append, hcells, countP_digit_cells, List.countP_map,
    List.countP_map]
  have h1 : (p ∘ hLine g x0 y0) = fun _ => true := by
    funext l; exact hl _ (isLine_hLine g x0 y0 l)
  have h2 : (p ∘ vLine g x0 y0) = fun _ => true := by
    funext l; exact hl _ (isLine_vLine g x0 y0 l)
  rw [h1, h2]
  simp

theorem countP_draw_gridEvents (f : Field) (idx : Nat) (g : Geom) (x0 y0 : ℚ) (board : List Char) :
    (gridEvents f idx g x0 y0 board).countP Event.isDraw =
      20 + (board.take (min (board.length + 1) 81)).countP nonBlank :=
  countP_gridEvents_of Event.isDraw
    (by intro e he; cases e <;> simp_all [Event.isDraw, Event.isRead, Event.isLine])
    (by intro e he; cases e <;> simp_all [Event.isDraw, Event.isRead, Event.isDigit])
    (by intro e he; cases e <;> simp_all [Event.isDraw, Event.isRead]) f idx g x0 y0 board

theorem countP_lineOrDigit_gridEvents (f : Field) (idx : Nat) (g : Geom) (x0 y0 : ℚ)
    (board : List Char) :
    (gridEvents f idx g x0 y0 board).countP Event.isLineOrDigit =
      20 + (board.take (min (board.length + 1) 81)).countP nonBlank :=
  countP_gridEvents_of Event.isLineOrDigit
    (by intro e he; cases e <;> simp_all [Event.isLineOrDigit, Event.isLine])
    (by intro e he; cases e <;> simp_all [Event.isLineOrDigit, Event.isDigit])
    (by intro e he; cases e <;> simp_all [Event.isLineOrDigit, Event.isRead, Event.isLine,
      Event.isDigit]) f idx g x0 y0 board

theorem take_board_81 {board : List Char} (h : board.length = 81) :
    board.take (min (board.length + 1) 81) = board := by
  rw [h]
  exact List.take_of_length_le (by omega)

/-- The calls of a grid whose board has fewer than 81 symbols: the lines, the
cells before the first missing index, then the failing read. -/
theorem gridEvents_short (f : Field) (idx : Nat) (g : Geom) (x0 y0 : ℚ) (board : List Char)
    (h : board.length < 81) :
    gridEvents f idx g x0 y0 board =
      (List.range 10).map (hLine g x0 y0) ++ (List.range 10).map (vLine g x0 y0) ++
        ((List.range board.length).flatMap (cellEvents f idx g x0 y0 board) ++
          [Event.read f idx board.length]) := by
  unfold gridEvents
  have hm : min (board.length + 1) 81 = board.length + 1 := by omega
  have hc : cellEvents f idx g x0 y0 board board.length = [Event.read f idx board.length] := by
    unfold cellEvents
    rw [List.getElem?_eq_none (Nat.le_refl _)]
  have hr : (List.range (board.length + 1)).flatMap (cellEvents f idx g x0 y0 board) =
      (List.range board.length).flatMap (cellEvents f idx g x0 y0 board) ++
        [Event.read f idx board.length] := by
    rw [List.range_succ, List.flatMap_append, List.flatMap_singleton, hc]
  rw [hm, hr]

/-- The calls of a grid whose board has at least 81 symbols: the lines and
the first 81 cells. -/
theorem gridEvents_full (f : Field) (idx : Nat) (g : Geom) (x0 y0 : ℚ) (board : List Char)
    (h : 81 ≤ board.length) :
    gridEvents f idx g x0 y0 board =
      (List.range 10).map (hLine g x0 y0) ++ (List.range 10).map (vLine g x0 y0) ++
        (List.range 81).flatMap (cellEvents f idx g x0 y0 board) := by
  unfold gridEvents
  have hm : min (board.length + 1) 81 = 81 := by omega
  rw [hm]

/-! ## Loops along a known trajectory of the variables -/

/-- A loop whose turn `t` takes the variables from `R t` to `R (t + 1)` and
ends normally. -/
theorem forFrom_traj (body : Nat → Stmt) :
    ∀ (k i : Nat) (R : Nat → Regs) (E : Nat → List Event),
      (∀ t, t < k → body (i + t) (R t) = ⟨E t, R (t + 1), Flow.normal⟩) →
      forFrom body i k (R 0) = ⟨(List.range k).flatMap E, R k, Flow.normal⟩ := by
  intro k
  induction k with
  | zero => intro i R E _; simp
  | succ k ih =>
    intro i R E h
    have h0 := h 0 (Nat.succ_pos k)
    rw [Nat.add_zero] at h0
    rw [forFrom_succ_normal h0]
    have ih1 := ih (i + 1) (fun t => R (t + 1)) (fun t => E (t + 1)) (by
      intro t ht
      have ht1 := h (t + 1) (Nat.succ_lt_succ ht)
      have e1 : i + (t + 1) = i + 1 + t := by omega
      rw [e1] at ht1
      exact ht1)
    simp only [Nat.zero_add] at ih1
    rw [ih1, flatMap_range_succ_left]

/-- A loop whose turns `t < m` follow the trajectory `R` and whose turn `m`,
if reached, breaks without drawing. -/
theorem forFrom_traj_break (body : Nat → Stmt) :
    ∀ (k i m : Nat) (R : Nat → Regs) (E : Nat → List Event),
      (∀ t, t < k → t < m → body (i + t) (R t) = ⟨E t, R (t + 1), Flow.normal⟩) →
      (m < k → body (i + m) (R m) = ⟨[], R m, Flow.brk⟩) →
      forFrom body i k (R 0) = ⟨(List.range (min k m)).flatMap E, R (min k m), Flow.normal⟩ := by
  intro k
  induction k with
  | zero => intro i m R E _ _; simp
  | succ k ih =>
    intro i m R E h hb
    cases m with
    | zero =>
      have h0 := hb (Nat.succ_pos k)
      rw [Nat.add_zero] at h0
      rw [forFrom_succ_brk h0]
      simp
    | succ m =>
      have h0 := h 0 (Nat.succ_pos k) (Nat.succ_pos m)
      rw [Nat.add_zero] at h0
      rw [forFrom_succ_normal h0]
      have ih1 := ih (i + 1) m (fun t => R (t + 1)) (fun t => E (t + 1)) (by
        intro t ht htm
        have ht1 := h (t + 1) (Nat.succ_lt_succ ht) (Nat.succ_lt_succ htm)
        have e1 : i + (t + 1) = i + 1 + t := by omega
        rw [e1] at ht1
        exact ht1) (by
        intro hmk
        have hb1 := hb (Nat.succ_lt_succ hmk)
        have e1 : i + (m + 1) = i + 1 + m := by omega
        rw [e1] at hb1
        exact hb1)
      simp only [Nat.zero_add] at ih1
      rw [ih1]
      have e2 : min (k + 1) (m + 1) = min k m + 1 := by omega
      rw [e2, flatMap_range_succ_left]

/-! ## Columns, pages and sections without panic -/

@[simp] theorem resetSudoku_apply (r : Regs) :
    resetSudoku r = ⟨[], ⟨0, r.pageNo⟩, Flow.normal⟩ := rfl

@[simp] theorem footer_apply (g : Geom) (r : Regs) :
    footer g r = ⟨[footerEvent g r.pageNo], r, Flow.normal⟩ := rfl

/-- A column whose tiles draw while a record is left and break afterwards. -/
theorem column_guarded (tile : Nat → Nat → Stmt) (tileEv : Nat → Nat → Nat → List Event)
    (g : Geom) (count : Nat)
    (ht : ∀ X Y idx pn, idx < count →
      tile X Y ⟨idx, pn⟩ = ⟨tileEv X Y idx, ⟨idx + 1, pn⟩, Flow.normal⟩)
    (hb : ∀ X Y idx pn, count ≤ idx → tile X Y ⟨idx, pn⟩ = ⟨[], ⟨idx, pn⟩, Flow.brk⟩)
    (X idx pn : Nat) (hidx : idx ≤ count) :
    block [forRange g.ny (fun Y => tile X Y), footer g] ⟨idx, pn⟩ =
      ⟨columnEvents tileEv g count X idx pn, ⟨min (idx + g.ny) count, pn⟩, Flow.normal⟩ := by
  have hloop := forFrom_traj_break (fun Y => tile X Y) g.ny 0 (count - idx)
    (fun t => ⟨idx + t, pn⟩) (fun t => tileEv X t (idx + t))
    (by
      intro t _ htm
      rw [Nat.zero_add]
      exact ht X t (idx + t) pn (by omega))
    (by
      intro _
      rw [Nat.zero_add]
      exact hb X (count - idx) (idx + (count - idx)) pn (by omega))
  simp only [block_cons, block_nil]
  have hloop2 : forRange g.ny (fun Y => tile X Y) ⟨idx, pn⟩ =
      ⟨(List.range (min g.ny (count - idx))).flatMap (fun t => tileEv X t (idx + t)),
        ⟨idx + min g.ny (count - idx), pn⟩, Flow.normal⟩ := hloop
  rw [seq_of_normal hloop2]
  have e : idx + min g.ny (count - idx) = min (idx + g.ny) count := by omega
  simp [columnEvents, seq, e]

/-- A column of tiles that all have a record. -/
theorem column_full (tile : Nat → Nat → Stmt) (tileEv : Nat → Nat → Nat → List Event)
    (g : Geom) (count : Nat)
    (ht : ∀ X Y idx pn, idx < count →
      tile X Y ⟨idx, pn⟩ = ⟨tileEv X Y idx, ⟨idx + 1, pn⟩, Flow.normal⟩)
    (X idx pn : Nat) (hidx : idx + g.ny ≤ count) :
    block [forRange g.ny (fun Y => tile X Y), footer g] ⟨idx, pn⟩ =
      ⟨columnEvents tileEv g count X idx pn, ⟨min (idx + g.ny) count, pn⟩, Flow.normal⟩ := by
  have hloop := forFrom_traj (fun Y => tile X Y) g.ny 0
    (fun t => ⟨idx + t, pn⟩) (fun t => tileEv X t (idx + t))
    (by
      intro t htk
      rw [Nat.zero_add]
      exact ht X t (idx + t) pn (by omega))
  simp only [block_cons, block_nil]
  have hloop2 : forRange g.ny (fun Y => tile X Y) ⟨idx, pn⟩ =
      ⟨(List.range g.ny).flatMap (fun t => tileEv X t (idx + t)),
        ⟨idx + g.ny, pn⟩, Flow.normal⟩ := hloop
  rw [seq_of_normal hloop2]
  have e : min (idx + g.ny) count = idx + g.ny := by omega
  have e2 : min g.ny (count - idx) = g.ny := by omega
  simp [columnEvents, seq, e, e2]

/-- A page whose columns behave as `columnEvents` says. -/
theorem page_of_columns (col : Nat → Stmt) (tileEv : Nat → Nat → Nat → List Event)
    (g : Geom) (count idx pn : Nat) (hidx : idx ≤ count)
    (hcol : ∀ X, X < g.nx → col X ⟨min (idx + g.ny * X) count, pn + 1⟩ =
      ⟨columnEvents tileEv g count X (min (idx + g.ny * X) count) (pn + 1),
        ⟨min (idx + g.ny * (X + 1)) count, pn + 1⟩, Flow.normal⟩) :
    block [addPage, forRange g.nx col] ⟨idx, pn⟩ =
      ⟨pageEvents tileEv g count idx pn, ⟨min (idx + g.ny * g.nx) count, pn + 1⟩,
        Flow.normal⟩ := by
  have hloop := forFrom_traj col g.nx 0
    (fun X => ⟨min (idx + g.ny * X) count, pn + 1⟩)
    (fun X => columnEvents tileEv g count X (min (idx + g.ny * X) count) (pn + 1))
    (by
      intro X hX
      rw [Nat.zero_add]
      exact hcol X hX)
  have e0 : min (idx + g.ny * 0) count = idx := by
    rw [Nat.mul_zero, Nat.add_zero]
    exact Nat.min_eq_left hidx
  simp only [e0] at hloop
  have hloop2 : forRange g.nx col ⟨idx, pn + 1⟩ =
      ⟨(List.range g.nx).flatMap
          (fun X => columnEvents tileEv g count X (min (idx + g.ny * X) count) (pn + 1)),
        ⟨min (idx + g.ny * g.nx) count, pn + 1⟩, Flow.normal⟩ := hloop
  simp only [block_cons, block_nil]
  rw [seq_of_normal (addPage_apply ⟨idx, pn⟩), seq_of_normal hloop2]
  simp [pageEvents]

/-- A run of pages that behave as `pageEvents` says. -/
theorem pages_of_pages (page : Nat → Stmt) (tileEv : Nat → Nat → Nat → List Event)
    (g : Geom) (count np pn : Nat)
    (hpage : ∀ W, W < np → page W ⟨min (g.nx * g.ny * W) count, pn + W⟩ =
      ⟨pageEvents tileEv g count (min (g.nx * g.ny * W) count) (pn + W),
        ⟨min (g.nx * g.ny * (W + 1)) count, pn + (W + 1)⟩, Flow.normal⟩) :
    forRange np page ⟨0, pn⟩ =
      ⟨pagesEvents tileEv g count np pn, ⟨min (g.nx * g.ny * np) count, pn + np⟩,
        Flow.normal⟩ := by
  have hloop := forFrom_traj page np 0
    (fun W => ⟨min (g.nx * g.ny * W) count, pn + W⟩)
    (fun W => pageEvents tileEv g count (min (g.nx * g.ny * W) count) (pn + W))
    (by
      intro W hW
      rw [Nat.zero_add]
      exact hpage W hW)
  simp only [Nat.mul_zero, Nat.zero_min, Nat.add_zero] at hloop
  exact hloop

theorem boardAt_of_getElem? {recs : List Game} {idx : Nat} {rec : Game}
    (h : recs[idx]? = some rec) (f : Field) : boardAt recs f idx = rec.board f := by
  unfold boardAt
  rw [h]

theorem puzzleTile_ok {recs : List Game} (hok : ∀ rec ∈ recs, 81 ≤ rec.game.length)
    (difficulty : String) (g : Geom) (X Y idx pn : Nat) (hidx : idx < recs.length) :
    puzzleTile recs difficulty g X Y ⟨idx, pn⟩ =
      ⟨puzzleTileEv recs difficulty g X Y idx, ⟨idx + 1, pn⟩, Flow.normal⟩ := by
  have hrec : recs[(⟨idx, pn⟩ : Regs).sudokuIndex]? = some recs[idx] :=
    List.getElem?_eq_getElem hidx
  rw [puzzleTile_eq hrec, if_pos (hok _ (List.getElem_mem hidx))]
  unfold puzzleTileEv
  rw [boardAt_of_getElem? (List.getElem?_eq_getElem hidx)]
  rfl

theorem solutionTile_ok {recs : List Game} (hok : ∀ rec ∈ recs, 81 ≤ rec.solution.length)
    (difficulty : String) (g : Geom) (X Y idx pn : Nat) (hidx : idx < recs.length) :
    solutionTile recs difficulty g X Y ⟨idx, pn⟩ =
      ⟨solutionTileEv recs difficulty g X Y idx, ⟨idx + 1, pn⟩, Flow.normal⟩ := by
  have hrec : recs[(⟨idx, pn⟩ : Regs).sudokuIndex]? = some recs[idx] :=
    List.getElem?_eq_getElem hidx
  rw [solutionTile_eq hrec, if_pos (hok _ (List.getElem_mem hidx))]
  unfold solutionTileEv
  rw [boardAt_of_getElem? (List.getElem?_eq_getElem hidx)]
  rfl

/-- One page of the solution section, from any cursor not beyond the records. -/
theorem solutionPage_ok {recs : List Game} (hok : ∀ rec ∈ recs, 81 ≤ rec.solution.length)
    (difficulty : String) (g : Geom) (W idx pn : Nat) (hidx : idx ≤ recs.length) :
    solutionPage recs difficulty g W ⟨idx, pn⟩ =
      ⟨pageEvents (solutionTileEv recs difficulty g) g recs.length idx pn,
        ⟨min (idx + g.ny * g.nx) recs.length, pn + 1⟩, Flow.normal⟩ := by
  unfold solutionPage
  apply page_of_columns _ _ g recs.length idx pn hidx
  intro X _
  have hc := column_guarded (fun X Y => solutionTile recs difficulty g X Y)
    (solutionTileEv recs difficulty g) g recs.length
    (fun X Y idx pn h => solutionTile_ok hok difficulty g X Y idx pn h)
    (fun X Y idx pn h => solutionTile_done (r := ⟨idx, pn⟩) h difficulty g X Y)
    X (min (idx + g.ny * X) recs.length) (pn + 1) (Nat.min_le_right _ _)
  have e : min (min (idx + g.ny * X) recs.length + g.ny) recs.length =
      min (idx + g.ny * (X + 1)) recs.length := by
    rw [Nat.mul_succ]
    omega
  rw [e] at hc
  exact hc

/-- The pages of the solution section. -/
theorem solutionPages_ok {recs : List Game} (hok : ∀ rec ∈ recs, 81 ≤ rec.solution.length)
    (difficulty : String) (g : Geom) (pn : Nat) :
    solutionPages recs difficulty g ⟨0, pn⟩ =
      ⟨pagesEvents (solutionTileEv recs difficulty g) g recs.length
          (solutionPageCount recs.length) pn,
        ⟨min (g.nx * g.ny * solutionPageCount recs.length) recs.length,
          pn + solutionPageCount recs.length⟩, Flow.normal⟩ := by
  unfold solutionPages
  apply pages_of_pages
  intro W _
  have hp := solutionPage_ok hok difficulty g W (min (g.nx * g.ny * W) recs.length) (pn + W)
    (Nat.min_le_right _ _)
  have e : min (min (g.nx * g.ny * W) recs.length + g.ny * g.nx) recs.length =
      min (g.nx * g.ny * (W + 1)) recs.length := by
    rw [Nat.mul_succ, Nat.mul_comm g.ny g.nx]
    omega
  rw [e] at hp
  exact hp

/-- One page of the puzzle section when all its tiles have a record. -/
theorem puzzlePage_ok {recs : List Game} (hok : ∀ rec ∈ recs, 81 ≤ rec.game.length)
    (difficulty : String) (g : Geom) (W idx pn : Nat) (hidx : idx + g.nx * g.ny ≤ recs.length) :
    puzzlePage recs difficulty g W ⟨idx, pn⟩ =
      ⟨pageEvents (puzzleTileEv recs difficulty g) g recs.length idx pn,
        ⟨min (idx + g.ny * g.nx) recs.length, pn + 1⟩, Flow.normal⟩ := by
  unfold puzzlePage
  apply page_of_columns _ _ g recs.length idx pn (by omega)
  intro X hX
  have hle : g.ny * (X + 1) ≤ g.nx * g.ny := by
    rw [Nat.mul_comm g.nx g.ny]
    exact Nat.mul_le_mul_left g.ny hX
  have hsucc : g.ny * (X + 1) = g.ny * X + g.ny := Nat.mul_succ g.ny X
  have hc := column_full (fun X Y => puzzleTile recs difficulty g X Y)
    (puzzleTileEv recs difficulty g) g recs.length
    (fun X Y idx pn h => puzzleTile_ok hok difficulty g X Y idx pn h)
    X (min (idx + g.ny * X) recs.length) (pn + 1) (by omega)
  have e : min (min (idx + g.ny * X) recs.length + g.ny) recs.length =
      min (idx + g.ny * (X + 1)) recs.length := by
    omega
  rw [e] at hc
  exact hc

/-- The pages of the puzzle section when `count / 2` full pages have records. -/
theorem puzzlePages_ok {recs : List Game} (hok : ∀ rec ∈ recs, 81 ≤ rec.game.length)
    (difficulty : String) (g : Geom) (pn : Nat)
    (hfit : g.nx * g.ny * puzzlePageCount recs.length ≤ recs.length) :
    puzzlePages recs difficulty g ⟨0, pn⟩ =
      ⟨pagesEvents (puzzleTileEv recs difficulty g) g recs.length
          (puzzlePageCount recs.length) pn,
        ⟨g.nx * g.ny * puzzlePageCount recs.length, pn + puzzlePageCount recs.length⟩,
        Flow.normal⟩ := by
  unfold puzzlePages
  have h := pages_of_pages (puzzlePage recs difficulty g) (puzzleTileEv recs difficulty g) g
    recs.length (puzzlePageCount recs.length) pn (by
      intro W hW
      have hle : g.nx * g.ny * (W + 1) ≤ g.nx * g.ny * puzzlePageCount recs.length :=
        Nat.mul_le_mul_left _ hW
      have hsucc : g.nx * g.ny * (W + 1) = g.nx * g.ny * W + g.nx * g.ny := Nat.mul_succ _ W
      have hp := puzzlePage_ok hok difficulty g W (min (g.nx * g.ny * W) recs.length) (pn + W)
        (by omega)
      have e : min (min (g.nx * g.ny * W) recs.length + g.ny * g.nx) recs.length =
          min (g.nx * g.ny * (W + 1)) recs.length := by
        rw [Nat.mul_comm g.ny g.nx]
        omega
      rw [e] at hp
      exact hp)
  rw [h, Nat.min_eq_left hfit]

/-- The puzzle section of a band whose `count / 2` pages all have records
with boards of at least 81 symbols. -/
theorem puzzleSection_ok {recs : List Game} (hok : ∀ rec ∈ recs, 81 ≤ rec.game.length)
    (difficulty : String) (volume : Nat) (width height : ℚ) (nx ny : Nat) (r : Regs)
    (hfit : nx * ny * puzzlePageCount recs.length ≤ recs.length) :
    puzzleSection recs difficulty volume width height nx ny r =
      ⟨puzzleSectionEvents recs difficulty volume width height nx ny r.pageNo,
        ⟨nx * ny * puzzlePageCount recs.length, r.pageNo + 1 + puzzlePageCount recs.length⟩,
        Flow.normal⟩ := by
  have hp := puzzlePages_ok hok difficulty (geometry width height nx ny) (r.pageNo + 1) hfit
  unfold puzzleSection puzzleSectionEvents
  simp only [block_cons, block_nil]
  rw [seq_of_normal (resetSudoku_apply r), seq_of_normal (addPage_apply _),
    seq_of_normal (emit_apply _ _), seq_of_normal (emit_apply _ _)]
  rw [seq_of_normal hp]
  simp [geometry]

theorem solutionPageCount_covers (count : Nat) : count ≤ 6 * solutionPageCount count := by
  unfold solutionPageCount
  split_ifs <;> omega

/-- The solution section of a band whose solution boards have at least 81
symbols. -/
theorem solutionSection_ok {recs : List Game} (hok : ∀ rec ∈ recs, 81 ≤ rec.solution.length)
    (difficulty : String) (width height : ℚ) (r : Regs) :
    solutionSection recs difficulty width height r =
      ⟨solutionSectionEvents recs difficulty width height r.pageNo,
        ⟨recs.length, r.pageNo + 1 + solutionPageCount recs.length⟩, Flow.normal⟩ := by
  have hp := solutionPages_ok hok difficulty (geometry width height 2 3) (r.pageNo + 1)
  have hcov := solutionPageCount_covers recs.length
  have e : min ((geometry width height 2 3).nx * (geometry width height 2 3).ny *
      solutionPageCount recs.length) recs.length = recs.length := by
    show min (2 * 3 * solutionPageCount recs.length) recs.length = recs.length
    omega
  rw [e] at hp
  unfold solutionSection solutionSectionEvents
  simp only [block_cons, block_nil]
  rw [seq_of_normal (resetSudoku_apply r), seq_of_normal (addPage_apply _),
    seq_of_normal (emit_apply _ _)]
  rw [seq_of_normal hp]
  simp

/-! ## Projections of the page traces -/

theorem flatMap_range_shift {β : Type} (P : Nat → List β) (s n : Nat) :
    (List.range n).flatMap (fun t => P (s + t)) = (List.range' s n).flatMap P := by
  rw [List.range'_eq_map_range, List.flatMap_map]

/-- Consecutive index intervals concatenate to one interval. -/
theorem flatMap_telescope {β : Type} (P : Nat → List β) (a : Nat → Nat)
    (mono : ∀ t, a t ≤ a (t + 1)) :
    ∀ k : Nat, a 0 ≤ a k ∧
      (List.range k).flatMap (fun t => (List.range' (a t) (a (t + 1) - a t)).flatMap P) =
        (List.range' (a 0) (a k - a 0)).flatMap P := by
  intro k
  induction k with
  | zero => simp
  | succ k ih =>
    obtain ⟨hle, ih⟩ := ih
    have hm := mono k
    refine ⟨by omega, ?_⟩
    rw [List.range_succ, List.flatMap_append, ih, List.flatMap_singleton, ← List.flatMap_append]
    have e1 : a k = a 0 + (a k - a 0) := by omega
    have e2 : a (k + 1) - a 0 = (a (k + 1) - a k) + (a k - a 0) := by omega
    rw [e2, ← List.range'_append_1, ← e1]

/-- Projection of a column: registers and page furniture aside, a column is
the interval of cursor values of its tiles. -/
theorem filterMap_columnEvents {β : Type} (φ : Event → Option β) (P : Nat → List β)
    (tileEv : Nat → Nat → Nat → List Event) (g : Geom) (count : Nat)
    (hF : ∀ pn, φ (footerEvent g pn) = none)
    (hT : ∀ X Y idx, idx < count → (tileEv X Y idx).filterMap φ = P idx)
    (X idx pn : Nat) :
    (columnEvents tileEv g count X idx pn).filterMap φ =
      (List.range' idx (min (idx + g.ny) count - idx)).flatMap P := by
  unfold columnEvents
  rw [List.filterMap_append, List.filterMap_flatMap]
  have e : min (idx + g.ny) count - idx = min g.ny (count - idx) := by omega
  rw [e, ← flatMap_range_shift]
  simp only [List.filterMap_cons, hF, List.filterMap_nil, List.append_nil]
  apply List.flatMap_congr
  intro Y hY
  have hY2 : Y < min g.ny (count - idx) := List.mem_range.mp hY
  exact hT X Y (idx + Y) (by omega)

/-- Projection of a page. -/
theorem filterMap_pageEvents {β : Type} (φ : Event → Option β) (P : Nat → List β)
    (tileEv : Nat → Nat → Nat → List Event) (g : Geom) (count : Nat)
    (hA : φ Event.addPage = none) (hF : ∀ pn, φ (footerEvent g pn) = none)
    (hT : ∀ X Y idx, idx < count → (tileEv X Y idx).filterMap φ = P idx)
    (idx pn : Nat) (hidx : idx ≤ count) :
    (pageEvents tileEv g count idx pn).filterMap φ =
      (List.range' idx (min (idx + g.ny * g.nx) count - idx)).flatMap P := by
  unfold pageEvents
  rw [List.filterMap_cons, hA, List.filterMap_flatMap]
  have hcol : ∀ X, (columnEvents tileEv g count X (min (idx + g.ny * X) count) (pn + 1)).filterMap φ =
      (List.range' (min (idx + g.ny * X) count)
        (min (idx + g.ny * (X + 1)) count - min (idx + g.ny * X) count)).flatMap P := by
    intro X
    rw [filterMap_columnEvents φ P tileEv g count hF hT]
    have e : min (min (idx + g.ny * X) count + g.ny) count = min (idx + g.ny * (X + 1)) count := by
      rw [Nat.mul_succ]
      omega
    rw [e]
  simp only [hcol]
  have ht := (flatMap_telescope P (fun X => min (idx + g.ny * X) count) (by
    intro t
    show min (idx + g.ny * t) count ≤ min (idx + g.ny * (t + 1)) count
    rw [Nat.mul_succ]
    omega) g.nx).2
  simp only [Nat.mul_zero, Nat.add_zero, Nat.min_eq_left hidx] at ht
  exact ht

/-- Projection of a run of pages: the tiles of cursor values `0` up to
`min (nx * ny * np) count`, in order. -/
theorem filterMap_pagesEvents {β : Type} (φ : Event → Option β) (P : Nat → List β)
    (tileEv : Nat → Nat → Nat → List Event) (g : Geom) (count : Nat)
    (hA : φ Event.addPage = none) (hF : ∀ pn, φ (footerEvent g pn) = none)
    (hT : ∀ X Y idx, idx < count → (tileEv X Y idx).filterMap φ = P idx)
    (np pn : Nat) :
    (pagesEvents tileEv g count np pn).filterMap φ =
      (List.range (min (g.nx * g.ny * np) count)).flatMap P := by
  unfold pagesEvents
  rw [List.filterMap_flatMap]
  have hpage : ∀ W, (pageEvents tileEv g count (min (g.nx * g.ny * W) count) (pn + W)).filterMap φ =
      (List.range' (min (g.nx * g.ny * W) count)
        (min (g.nx * g.ny * (W + 1)) count - min (g.nx * g.ny * W) count)).flatMap P := by
    intro W
    rw [filterMap_pageEvents φ P tileEv g count hA hF hT _ _ (Nat.min_le_right _ _)]
    have e : min (min (g.nx * g.ny * W) count + g.ny * g.nx) count =
        min (g.nx * g.ny * (W + 1)) count := by
      rw [Nat.mul_succ, Nat.mul_comm g.ny g.nx]
      omega
    rw [e]
  simp only [hpage]
  have ht := (flatMap_telescope P (fun W => min (g.nx * g.ny * W) count) (by
    intro t
    show min (g.nx * g.ny * t) count ≤ min (g.nx * g.ny * (t + 1)) count
    rw [Nat.mul_succ]
    omega) np).2
  simp only [Nat.mul_zero, Nat.zero_min, Nat.sub_zero] at ht
  rw [ht, List.range_eq_range']

/-! ## Projections of the tile traces -/

theorem gridEvents_kinds (f : Field) (idx : Nat) (g : Geom) (x0 y0 : ℚ) (board : List Char) :
    ∀ e ∈ gridEvents f idx g x0 y0 board,
      e.isLine = true ∨ e.isRead = true ∨ e.isDigit = true := by
  intro e he
  unfold gridEvents at he
  rw [List.mem_append, List.mem_append, List.mem_map, List.mem_map, List.mem_flatMap] at he
  rcases he with (⟨l, _, hl⟩ | ⟨l, _, hl⟩) | ⟨pos, _, hpos⟩
  · subst hl; exact Or.inl rfl
  · subst hl; exact Or.inl rfl
  · exact Or.inr (cellEvents_kinds f idx g x0 y0 board pos e hpos)

/-- A projection that ignores lines, index evaluations and digit cells sees
nothing in a grid. -/
theorem filterMap_gridEvents_none {β : Type} (φ : Event → Option β)
    (hl : ∀ e, e.isLine = true → φ e = none) (hr : ∀ e, e.isRead = true → φ e = none)
    (hd : ∀ e, e.isDigit = true → φ e = none)
    (f : Field) (idx : Nat) (g : Geom) (x0 y0 : ℚ) (board : List Char) :
    (gridEvents f idx g x0 y0 board).filterMap φ = [] := by
  rw [List.filterMap_eq_nil_iff]
  intro e he
  rcases gridEvents_kinds f idx g x0 y0 board e he with h | h | h
  · exact hl e h
  · exact hr e h
  · exact hd e h

theorem labelNumbers_gridEvents (f : Field) (idx : Nat) (g : Geom) (x0 y0 : ℚ)
    (board : List Char) : (gridEvents f idx g x0 y0 board).filterMap Event.labelNumber = [] :=
  filterMap_gridEvents_none Event.labelNumber
    (by intro e he; cases e <;> simp_all [Event.isLine, Event.labelNumber])
    (by intro e he; cases e <;> simp_all [Event.isRead, Event.labelNumber])
    (by intro e he; cases e <;> simp_all [Event.isDigit, Event.labelNumber]) f idx g x0 y0 board

theorem labelNumbers_puzzleTileEv (recs : List Game) (difficulty : String) (g : Geom)
    (X Y idx : Nat) :
    (puzzleTileEv recs difficulty g X Y idx).filterMap Event.labelNumber = [idx + 1] := by
  unfold puzzleTileEv puzzleTileEvents
  rw [List.filterMap_cons, labelNumbers_gridEvents]
  rfl

theorem labelNumbers_solutionTileEv (recs : List Game) (difficulty : String) (g : Geom)
    (X Y idx : Nat) :
    (solutionTileEv recs difficulty g X Y idx).filterMap Event.labelNumber = [idx + 1] := by
  unfold solutionTileEv solutionTileEvents
  rw [List.filterMap_cons, labelNumbers_gridEvents]
  rfl

theorem readOf_cellEvents (f : Field) (idx : Nat) (g : Geom) (x0 y0 : ℚ) (board : List Char)
    (pos : Nat) : (cellEvents f idx g x0 y0 board pos).filterMap Event.readOf = [(f, idx, pos)] := by
  unfold cellEvents
  cases hb : board[pos]? with
  | none => simp [Event.readOf]
  | some c =>
    by_cases hc : c = '.'
    · simp [hc, Event.readOf]
    · simp [hc, Event.readOf, digitAt]

/-- The index evaluations of a grid: the positions in increasing order. -/
theorem readLog_gridEvents (f : Field) (idx : Nat) (g : Geom) (x0 y0 : ℚ) (board : List Char) :
    (gridEvents f idx g x0 y0 board).filterMap Event.readOf =
      (List.range (min (board.length + 1) 81)).map (fun pos => (f, idx, pos)) := by
  unfold gridEvents
  rw [List.filterMap_append, List.filterMap_append, List.filterMap_map, List.filterMap_map,
    List.filterMap_flatMap]
  have h1 : (Event.readOf ∘ hLine g x0 y0) = fun _ => none := by
    funext l; rfl
  have h2 : (Event.readOf ∘ vLine g x0 y0) = fun _ => none := by
    funext l; rfl
  have h3 : ∀ l : List Nat, l.filterMap (fun _ => (none : Option (Field × Nat × Nat))) = [] := by
    intro l
    induction l with
    | nil => rfl
    | cons a l ih => simp
  rw [h1, h2, h3]
  simp only [List.nil_append, readOf_cellEvents]
  rw [List.map_eq_flatMap]

theorem readLog_solutionTileEv {recs : List Game}
    (hok : ∀ rec ∈ recs, 81 ≤ rec.solution.length) (difficulty : String) (g : Geom)
    (X Y idx : Nat) (hidx : idx < recs.length) :
    (solutionTileEv recs difficulty g X Y idx).filterMap Event.readOf =
      (List.range 81).map (fun pos => (Field.solution, idx, pos)) := by
  unfold solutionTileEv solutionTileEvents
  rw [List.filterMap_cons, readLog_gridEvents,
    boardAt_of_getElem? (List.getElem?_eq_getElem hidx)]
  have h81 : 81 ≤ (recs[idx].board Field.solution).length := hok _ (List.getElem_mem hidx)
  have hm : min ((recs[idx].board Field.solution).length + 1) 81 = 81 := by omega
  rw [hm]
  rfl

theorem readLog_puzzleTileEv {recs : List Game}
    (hok : ∀ rec ∈ recs, 81 ≤ rec.game.length) (difficulty : String) (g : Geom)
    (X Y idx : Nat) (hidx : idx < recs.length) :
    (puzzleTileEv recs difficulty g X Y idx).filterMap Event.readOf =
      (List.range 81).map (fun pos => (Field.game, idx, pos)) := by
  unfold puzzleTileEv puzzleTileEvents
  rw [List.filterMap_cons, readLog_gridEvents,
    boardAt_of_getElem? (List.getElem?_eq_getElem hidx)]
  have h81 : 81 ≤ (recs[idx].board Field.game).length := hok _ (List.getElem_mem hidx)
  have hm : min ((recs[idx].board Field.game).length + 1) 81 = 81 := by omega
  rw [hm]
  rfl

/-- Counting with a recogniser is the length of the matching projection. -/
theorem countP_eq_length_filterMap (p : Event → Bool) (l : List Event) :
    l.countP p = (l.filterMap (fun e => if p e then some () else none)).length := by
  induction l with
  | nil => rfl
  | cons a l ih =>
    rw [List.countP_cons, List.filterMap_cons, ih]
    by_cases h : p a = true
    · simp [h]
    · simp [h]

/-! ## Pages of a trace -/

theorem splitPages_append_of_no_addPage (a b : List Event)
    (h : ∀ e ∈ a, e.isAddPage = false) :
    splitPages (a ++ b) = (a ++ (splitPages b).1, (splitPages b).2) := by
  induction a with
  | nil => rfl
  | cons x a ih =>
    have hx : x.isAddPage = false := h x (List.mem_cons_self x a)
    have ih2 := ih (fun e he => h e (List.mem_cons_of_mem x he))
    rw [List.cons_append, splitPages, hx, ih2]
    simp

theorem splitPages_flatMap_pages {α : Type} (body : α → List Event)
    (h : ∀ w, ∀ e ∈ body w, e.isAddPage = false) :
    ∀ ws : List α, splitPages (ws.flatMap (fun w => Event.addPage :: body w)) =
      ([], ws.map body) := by
  intro ws
  induction ws with
  | nil => rfl
  | cons w ws ih =>
    rw [List.flatMap_cons, List.cons_append, splitPages,
      splitPages_append_of_no_addPage _ _ (h w), ih]
    simp [Event.isAddPage]

theorem tileEvents_no_addPage_puzzle (recs : List Game) (difficulty : String) (g : Geom)
    (X Y idx : Nat) : ∀ e ∈ puzzleTileEv recs difficulty g X Y idx, e.isAddPage = false := by
  intro e he
  unfold puzzleTileEv puzzleTileEvents at he
  rcases List.mem_cons.mp he with h | h
  · subst h; rfl
  · rcases gridEvents_kinds _ _ _ _ _ _ e h with h1 | h1 | h1 <;>
      cases e <;> simp_all [Event.isLine, Event.isRead, Event.isDigit, Event.isAddPage]

theorem tileEvents_no_addPage_solution (recs : List Game) (difficulty : String) (g : Geom)
    (X Y idx : Nat) : ∀ e ∈ solutionTileEv recs difficulty g X Y idx, e.isAddPage = false := by
  intro e he
  unfold solutionTileEv solutionTileEvents at he
  rcases List.mem_cons.mp he with h | h
  · subst h; rfl
  · rcases gridEvents_kinds _ _ _ _ _ _ e h with h1 | h1 | h1 <;>
      cases e <;> simp_all [Event.isLine, Event.isRead, Event.isDigit, Event.isAddPage]

/-- The calls of a page after its `AddPage`. -/
theorem pageEvents_tail_no_addPage (tileEv : Nat → Nat → Nat → List Event) (g : Geom)
    (count idx pn : Nat) (hT : ∀ X Y i, ∀ e ∈ tileEv X Y i, e.isAddPage = false) :
    ∀ e ∈ (pageEvents tileEv g count idx pn).tail, e.isAddPage = false := by
  intro e he
  unfold pageEvents at he
  rw [List.tail_cons, List.mem_flatMap] at he
  obtain ⟨X, _, hX⟩ := he
  unfold columnEvents at hX
  rw [List.mem_append, List.mem_flatMap] at hX
  rcases hX with ⟨Y, _, hY⟩ | hf
  · exact hT _ _ _ e hY
  · rw [List.mem_singleton] at hf
    subst hf
    rfl

/-- The pages of a run of pages. -/
theorem splitPages_pagesEvents (tileEv : Nat → Nat → Nat → List Event) (g : Geom)
    (count np pn : Nat) (hT : ∀ X Y i, ∀ e ∈ tileEv X Y i, e.isAddPage = false) :
    splitPages (pagesEvents tileEv g count np pn) =
      ([], (List.range np).map
        (fun W => (pageEvents tileEv g count (min (g.nx * g.ny * W) count) (pn + W)).tail)) := by
  have h := splitPages_flatMap_pages
    (fun W => (pageEvents tileEv g count (min (g.nx * g.ny * W) count) (pn + W)).tail)
    (fun W => pageEvents_tail_no_addPage tileEv g count _ _ hT) (List.range np)
  exact h

/-- The number of labels on a page: the cursor values it covers. -/
theorem countP_label_pageEvents_tail (tileEv : Nat → Nat → Nat → List Event) (g : Geom)
    (count idx pn : Nat) (hidx : idx ≤ count)
    (hL : ∀ X Y i, i < count → (tileEv X Y i).filterMap Event.labelNumber = [i + 1]) :
    (pageEvents tileEv g count idx pn).tail.countP Event.isLabel =
      min (idx + g.ny * g.nx) count - idx := by
  have h1 : (pageEvents tileEv g count idx pn).tail.countP Event.isLabel =
      (pageEvents tileEv g count idx pn).countP Event.isLabel := by
    unfold pageEvents
    rw [List.tail_cons, List.countP_cons]
    simp [Event.isLabel]
  have h2 : ∀ l : List Event, l.countP Event.isLabel = (l.filterMap Event.labelNumber).length := by
    intro l
    induction l with
    | nil => rfl
    | cons a l ih =>
      rw [List.countP_cons, List.filterMap_cons, ih]
      cases a <;> simp [Event.isLabel, Event.labelNumber]
  rw [h1, h2, filterMap_pageEvents Event.labelNumber (fun i => [i + 1]) tileEv g count rfl
    (fun _ => rfl) hL idx pn hidx]
  rw [← List.map_eq_flatMap]
  simp

/-- How many grids each page of a run of pages holds. -/
theorem gridsPerPage_pagesEvents (tileEv : Nat → Nat → Nat → List Event) (g : Geom)
    (count np pn : Nat) (hT : ∀ X Y i, ∀ e ∈ tileEv X Y i, e.isAddPage = false)
    (hL : ∀ X Y i, i < count → (tileEv X Y i).filterMap Event.labelNumber = [i + 1])
    (pre : List Event) (hpre : ∀ e ∈ pre, e.isAddPage = false) :
    gridsPerPage (Event.addPage :: (pre ++ pagesEvents tileEv g count np pn)) =
      pre.countP Event.isLabel ::
        (List.range np).map (fun W =>
          min (g.nx * g.ny * (W + 1)) count - min (g.nx * g.ny * W) count) := by
  unfold gridsPerPage pagesOf
  rw [splitPages, splitPages_append_of_no_addPage _ _ hpre, splitPages_pagesEvents _ _ _ _ _ hT]
  simp only [Event.isAddPage, if_true, List.append_nil, List.map_cons, List.map_map]
  congr 1
  apply List.map_congr_left
  intro W _
  show (pageEvents tileEv g count (min (g.nx * g.ny * W) count) (pn + W)).tail.countP
    Event.isLabel = _
  rw [countP_label_pageEvents_tail tileEv g count _ _ (Nat.min_le_right _ _) hL]
  have e : min (min (g.nx * g.ny * W) count + g.ny * g.nx) count =
      min (g.nx * g.ny * (W + 1)) count := by
    rw [Nat.mul_succ, Nat.mul_comm g.ny g.nx]
    omega
  rw [e]

theorem countP_addPage_eq_length_pagesOf (l : List Event) :
    l.countP Event.isAddPage = (pagesOf l).length := by
  unfold pagesOf
  induction l with
  | nil => rfl
  | cons a l ih =>
    rw [List.countP_cons, splitPages, ih]
    by_cases h : a.isAddPage = true
    · simp [h]
    · simp [h]

theorem countP_addPage_pagesEvents (tileEv : Nat → Nat → Nat → List Event) (g : Geom)
    (count np pn : Nat) (hT : ∀ X Y i, ∀ e ∈ tileEv X Y i, e.isAddPage = false) :
    (pagesEvents tileEv g count np pn).countP Event.isAddPage = np := by
  rw [countP_addPage_eq_length_pagesOf]
  unfold pagesOf
  rw [splitPages_pagesEvents _ _ _ _ _ hT]
  simp

theorem length_flatMap_const {β : Type} (P : Nat → List β) (c : Nat) :
    ∀ n : Nat, (∀ i, i < n → (P i).length = c) → ((List.range n).flatMap P).length = n * c := by
  intro n
  induction n with
  | zero => intro _; simp
  | succ n ih =>
    intro h
    rw [List.range_succ, List.flatMap_append, List.length_append, List.flatMap_singleton,
      ih (fun i hi => h i (Nat.lt_succ_of_lt hi)), h n (Nat.lt_succ_self n), Nat.succ_mul]

/-- The lines and digit cells of a run of pages whose tiles each have `c` of them. -/
theorem countP_pagesEvents_const (p : Event → Bool) (c : Nat)
    (tileEv : Nat → Nat → Nat → List Event) (g : Geom) (count np pn : Nat)
    (hA : p Event.addPage = false) (hF : ∀ k, p (footerEvent g k) = false)
    (hT : ∀ X Y idx, idx < count → (tileEv X Y idx).countP p = c) :
    (pagesEvents tileEv g count np pn).countP p = min (g.nx * g.ny * np) count * c := by
  rw [countP_eq_length_filterMap,
    filterMap_pagesEvents (fun e => if p e then some () else none)
      (fun idx => if idx < count then
        (tileEv 0 0 idx).filterMap (fun e => if p e then some () else none) else [])
      tileEv g count (by simp [hA]) (by intro k; simp [hF k]) (by
        intro X Y idx hidx
        beta_reduce
        rw [if_pos hidx]
        have h1 : ∀ l1 l2 : List Unit, l1.length = l2.length → l1 = l2 := by
          intro l1
          induction l1 with
          | nil =>
            intro l2 h
            cases l2 with
            | nil => rfl
            | cons b l2 => simp at h
          | cons a l1 ih =>
            intro l2 h
            cases l2 with
            | nil => simp at h
            | cons b l2 =>
              have h3 : l1.length = l2.length := by simpa using h
              rw [ih l2 h3]
        apply h1
        rw [← countP_eq_length_filterMap, ← countP_eq_length_filterMap, hT X Y idx hidx,
          hT 0 0 idx hidx])]
  apply length_flatMap_const
  intro i hi
  have hi2 : i < count := by omega
  rw [if_pos hi2, ← countP_eq_length_filterMap, hT 0 0 i hi2]

/-! ## Solved boards and bands of copies of the sample record -/

theorem countP_nonBlank_solved {board : List Char} (h : ∀ c ∈ board, c ≠ '.') :
    board.countP nonBlank = board.length := by
  rw [List.countP_eq_length]
  intro c hc
  simp [nonBlank, h c hc]

/-- A solution tile drawn from a board of 81 symbols, none of them `.`, has
101 lines and digit cells. -/
theorem countP_lineOrDigit_solutionTileEv {recs : List Game}
    (hs : ∀ rec ∈ recs, rec.solution.length = 81 ∧ ∀ c ∈ rec.solution, c ≠ '.')
    (difficulty : String) (g : Geom) (X Y idx : Nat) (hidx : idx < recs.length) :
    (solutionTileEv recs difficulty g X Y idx).countP Event.isLineOrDigit = 101 := by
  obtain ⟨h81, hsolved⟩ := hs _ (List.getElem_mem hidx)
  unfold solutionTileEv solutionTileEvents
  rw [List.countP_cons, countP_lineOrDigit_gridEvents,
    boardAt_of_getElem? (List.getElem?_eq_getElem hidx)]
  have hb : recs[idx].board Field.solution = recs[idx].solution := rfl
  rw [hb, take_board_81 h81, countP_nonBlank_solved hsolved, h81]
  rfl

theorem sample_boards_ok (n : Nat) :
    (∀ rec ∈ List.replicate n sampleGame, 81 ≤ rec.game.length) ∧
    (∀ rec ∈ List.replicate n sampleGame, 81 ≤ rec.solution.length) := by
  constructor
  · intro rec h
    rw [List.eq_of_mem_replicate h]
    decide
  · intro rec h
    rw [List.eq_of_mem_replicate h]
    decide

/-! ## Invariants of loops that may panic -/

theorem seq_events_cases (a b : Stmt) (r : Regs) :
    ((a r).flow = Flow.normal ∧
      seq a b r = ⟨(a r).events ++ (b (a r).regs).events, (b (a r).regs).regs,
        (b (a r).regs).flow⟩) ∨
    ((a r).flow ≠ Flow.normal ∧ seq a b r = a r) := by
  unfold seq
  cases h : (a r).flow
  · left; simp [h]
  · right; simp [h]
  · right; simp [h]

/-- Rule for `a; b`: a property of traces closed under concatenation, and a
property of the variables that holds wherever the run stops. -/
theorem seq_rule (T : List Event → Prop) (happ : ∀ x y, T x → T y → T (x ++ y))
    (J : Regs → Prop) (a b : Stmt) (r : Regs) (ha : T (a r).events)
    (hstop : (a r).flow ≠ Flow.normal → J (a r).regs)
    (hb : (a r).flow = Flow.normal → T (b (a r).regs).events ∧ J (b (a r).regs).regs) :
    T (seq a b r).events ∧ J (seq a b r).regs := by
  rcases seq_events_cases a b r with ⟨hn, he⟩ | ⟨hn, he⟩
  · rw [he]
    exact ⟨happ _ _ ha (hb hn).1, (hb hn).2⟩
  · rw [he]
    exact ⟨ha, hstop hn⟩

/-- Rule for a loop: the trace property holds of every turn, and the property
of the variables, which may depend on the turn, is kept by every turn however
it ends. -/
theorem forFrom_rule (T : List Event → Prop) (hnil : T [])
    (happ : ∀ x y, T x → T y → T (x ++ y)) (I : Nat → Regs → Prop)
    (hstay : ∀ i r, I i r → I (i + 1) r) (body : Nat → Stmt) (n : Nat)
    (hbody : ∀ i r, i < n → I i r → T (body i r).events ∧ I (i + 1) (body i r).regs) :
    ∀ k i r, i + k ≤ n → I i r →
      T (forFrom body i k r).events ∧ I (i + k) (forFrom body i k r).regs := by
  have hstay2 : ∀ j i r, I i r → I (i + j) r := by
    intro j
    induction j with
    | zero => intro i r h; exact h
    | succ j ih => intro i r h; exact hstay _ _ (ih i r h)
  intro k
  induction k with
  | zero => intro i r _ h; exact ⟨hnil, h⟩
  | succ k ih =>
    intro i r hik hI
    obtain ⟨hT, hI1⟩ := hbody i r (by omega) hI
    have e : i + (k + 1) = i + 1 + k := by omega
    cases hf : (body i r).flow with
    | normal =>
      have hx : body i r = ⟨(body i r).events, (body i r).regs, Flow.normal⟩ := by
        rw [← hf]
      rw [forFrom_succ_normal hx]
      obtain ⟨hT2, hI2⟩ := ih (i + 1) (body i r).regs (by omega) hI1
      rw [e]
      exact ⟨happ _ _ hT hT2, hI2⟩
    | brk =>
      have hx : body i r = ⟨(body i r).events, (body i r).regs, Flow.brk⟩ := by
        rw [← hf]
      rw [forFrom_succ_brk hx, e]
      exact ⟨hT, hstay2 k _ _ hI1⟩
    | panic =>
      have hx : body i r = ⟨(body i r).events, (body i r).regs, Flow.panic⟩ := by
        rw [← hf]
      rw [forFrom_succ_panic hx, e]
      exact ⟨hT, hstay2 k _ _ hI1⟩

theorem readsBelow_nil (count : Nat) : readsBelow count [] := by
  intro e he
  cases he

theorem readsBelow_append (count : Nat) (x y : List Event) (hx : readsBelow count x)
    (hy : readsBelow count y) : readsBelow count (x ++ y) := by
  intro e he
  rcases List.mem_append.mp he with h | h
  · exact hx e h
  · exact hy e h

theorem readsBelow_gridEvents (count : Nat) (f : Field) (idx : Nat) (g : Geom) (x0 y0 : ℚ)
    (board : List Char) (hidx : idx < count) :
    readsBelow count (gridEvents f idx g x0 y0 board) := by
  intro e he
  unfold gridEvents at he
  rw [List.mem_append, List.mem_append, List.mem_map, List.mem_map, List.mem_flatMap] at he
  rcases he with (⟨l, _, hl⟩ | ⟨l, _, hl⟩) | ⟨pos, _, hpos⟩
  · subst hl; rfl
  · subst hl; rfl
  · unfold cellEvents at hpos
    cases hb : board[pos]? with
    | none =>
      rw [hb] at hpos
      simp only [List.mem_singleton] at hpos
      subst hpos
      simp [Event.readBelow, hidx]
    | some c =>
      rw [hb] at hpos
      simp only at hpos
      split_ifs at hpos
      · simp only [List.mem_cons, List.mem_singleton, List.not_mem_nil, or_false] at hpos
        rcases hpos with h | h
        · subst h; simp [Event.readBelow, hidx]
        · subst h; rfl
      · simp only [List.mem_singleton] at hpos
        subst hpos
        simp [Event.readBelow, hidx]

/-- A puzzle tile entered with the cursor below the number of records reads
only that record and moves the cursor by at most one. -/
theorem puzzleTile_reads (recs : List Game) (difficulty : String) (g : Geom) (X Y : Nat)
    (r : Regs) (hidx : r.sudokuIndex < recs.length) :
    readsBelow recs.length (puzzleTile recs difficulty g X Y r).events ∧
      (puzzleTile recs difficulty g X Y r).regs.sudokuIndex ≤ r.sudokuIndex + 1 := by
  have hrec : recs[r.sudokuIndex]? = some recs[r.sudokuIndex] := List.getElem?_eq_getElem hidx
  have hev : readsBelow recs.length
      (puzzleTileEvents difficulty g X Y r.sudokuIndex recs[r.sudokuIndex].game) := by
    intro e he
    unfold puzzleTileEvents at he
    rcases List.mem_cons.mp he with h | h
    · subst h; rfl
    · exact readsBelow_gridEvents _ _ _ _ _ _ _ hidx e h
  rw [puzzleTile_eq hrec]
  split_ifs
  · exact ⟨hev, Nat.le_refl _⟩
  · exact ⟨hev, Nat.le_succ _⟩

/-- A solution tile reads only below the number of records and keeps the
cursor at or below it. -/
theorem solutionTile_reads (recs : List Game) (difficulty : String) (g : Geom) (X Y : Nat)
    (r : Regs) (hle : r.sudokuIndex ≤ recs.length) :
    readsBelow recs.length (solutionTile recs difficulty g X Y r).events ∧
      (solutionTile recs difficulty g X Y r).regs.sudokuIndex ≤ recs.length := by
  by_cases hidx : r.sudokuIndex < recs.length
  · have hrec : recs[r.sudokuIndex]? = some recs[r.sudokuIndex] := List.getElem?_eq_getElem hidx
    have hev : readsBelow recs.length
        (solutionTileEvents difficulty g X Y r.sudokuIndex recs[r.sudokuIndex].solution) := by
      intro e he
      unfold solutionTileEvents at he
      rcases List.mem_cons.mp he with h | h
      · subst h; rfl
      · exact readsBelow_gridEvents _ _ _ _ _ _ _ hidx e h
    rw [solutionTile_eq hrec]
    split_ifs
    · exact ⟨hev, hidx⟩
    · exact ⟨hev, hle⟩
  · rw [solutionTile_done (not_lt.mp hidx)]
    exact ⟨readsBelow_nil _, hle⟩

theorem seq_skip_right (a : Stmt) (r : Regs) : seq a skip r = a r := by
  rcases seq_events_cases a skip r with ⟨hn, he⟩ | ⟨_, he⟩
  · rw [he]
    simp only [skip_apply, List.append_nil]
    rw [← hn]
  · exact he

/-- The puzzle section is its three title calls followed by the puzzle pages
run from cursor 0. -/
theorem puzzleSection_unfold (recs : List Game) (difficulty : String) (volume : Nat)
    (width height : ℚ) (nx ny : Nat) (r : Regs) :
    puzzleSection recs difficulty volume width height nx ny r =
      ⟨[Event.addPage, Event.title width height (difficulty ++ " Sudoku - Puzzles"),
          Event.title width height ("Volume #" ++ toString volume)] ++
          (puzzlePages recs difficulty (geometry width height nx ny) ⟨0, r.pageNo + 1⟩).events,
        (puzzlePages recs difficulty (geometry width height nx ny) ⟨0, r.pageNo + 1⟩).regs,
        (puzzlePages recs difficulty (geometry width height nx ny) ⟨0, r.pageNo + 1⟩).flow⟩ := by
  unfold puzzleSection
  simp only [block_cons, block_nil]
  rw [seq_of_normal (resetSudoku_apply r), seq_of_normal (addPage_apply _),
    seq_of_normal (emit_apply _ _), seq_of_normal (emit_apply _ _), seq_skip_right]
  simp

/-- The solution section is its two title calls followed by the solution pages
run from cursor 0. -/
theorem solutionSection_unfold (recs : List Game) (difficulty : String)
    (width height : ℚ) (r : Regs) :
    solutionSection recs difficulty width height r =
      ⟨[Event.addPage, Event.title width height (difficulty ++ " Sudoku - Solutions")] ++
          (solutionPages recs difficulty (geometry width height 2 3) ⟨0, r.pageNo + 1⟩).events,
        (solutionPages recs difficulty (geometry width height 2 3) ⟨0, r.pageNo + 1⟩).regs,
        (solutionPages recs difficulty (geometry width height 2 3) ⟨0, r.pageNo + 1⟩).flow⟩ := by
  unfold solutionSection
  simp only [block_cons, block_nil]
  rw [seq_of_normal (resetSudoku_apply r), seq_of_normal (addPage_apply _),
    seq_of_normal (emit_apply _ _), seq_skip_right]
  simp

/-- A statement followed by the page number cell. -/
theorem then_footer_rule (T : List Event → Prop) (happ : ∀ x y, T x → T y → T (x ++ y))
    (g : Geom) (hfoot : ∀ pn, T [footerEvent g pn]) (J : Regs → Prop) (a : Stmt) (r : Regs)
    (ha : T (a r).events) (hJ : J (a r).regs) :
    T (block [a, footer g] r).events ∧ J (block [a, footer g] r).regs := by
  simp only [block_cons, block_nil]
  apply seq_rule T happ J a _ r ha (fun _ => hJ)
  intro _
  rw [seq_skip_right, footer_apply]
  exact ⟨hfoot _, hJ⟩

/-- A statement preceded by `AddPage`. -/
theorem after_addPage_rule (T : List Event → Prop) (happ : ∀ x y, T x → T y → T (x ++ y))
    (hadd : T [Event.addPage]) (J : Regs → Prop) (a : Stmt) (r : Regs)
    (ha : T (a ⟨r.sudokuIndex, r.pageNo + 1⟩).events ∧ J (a ⟨r.sudokuIndex, r.pageNo + 1⟩).regs) :
    T (block [addPage, a] r).events ∧ J (block [addPage, a] r).regs := by
  simp only [block_cons, block_nil]
  rw [seq_of_normal (addPage_apply r), seq_skip_right]
  exact ⟨happ _ _ hadd ha.1, ha.2⟩

theorem readsBelow_footer (count : Nat) (g : Geom) (pn : Nat) :
    readsBelow count [footerEvent g pn] := by
  intro e he
  rw [List.mem_singleton] at he
  subst he
  rfl

theorem readsBelow_addPage (count : Nat) : readsBelow count [Event.addPage] := by
  intro e he
  rw [List.mem_singleton] at he
  subst he
  rfl

theorem tile_bound_lt {np nx ny W X Y count : Nat} (hW : W < np) (hX : X < nx) (hY : Y < ny)
    (hfit : np * (nx * ny) ≤ count) : W * (nx * ny) + X * ny + Y < count := by
  have h1 : (X + 1) * ny ≤ nx * ny := Nat.mul_le_mul_right ny hX
  have h2 : (W + 1) * (nx * ny) ≤ np * (nx * ny) := Nat.mul_le_mul_right _ hW
  rw [Nat.succ_mul] at h1 h2
  omega

/-- The puzzle pages read only records below `count` when the `count / 2`
pages of `nx * ny` tiles fit in the `count` records. -/
theorem puzzlePages_reads (recs : List Game) (difficulty : String) (g : Geom) (pn : Nat)
    (hfit : puzzlePageCount recs.length * (g.nx * g.ny) ≤ recs.length) :
    readsBelow recs.length (puzzlePages recs difficulty g ⟨0, pn⟩).events ∧
      (puzzlePages recs difficulty g ⟨0, pn⟩).regs.sudokuIndex ≤
        puzzlePageCount recs.length * (g.nx * g.ny) := by
  have happ := readsBelow_append recs.length
  have hrows : ∀ W X, W < puzzlePageCount recs.length → X < g.nx → ∀ r : Regs,
      r.sudokuIndex ≤ W * (g.nx * g.ny) + X * g.ny →
      readsBelow recs.length (forRange g.ny (fun Y => puzzleTile recs difficulty g X Y) r).events ∧
        (forRange g.ny (fun Y => puzzleTile recs difficulty g X Y) r).regs.sudokuIndex ≤
          W * (g.nx * g.ny) + X * g.ny + (0 + g.ny) := by
    intro W X hW hX r hr
    exact forFrom_rule (readsBelow recs.length) (readsBelow_nil _) happ
      (fun Y r => r.sudokuIndex ≤ W * (g.nx * g.ny) + X * g.ny + Y)
      (fun Y r h => Nat.le_succ_of_le h)
      (fun Y => puzzleTile recs difficulty g X Y) g.ny
      (by
        intro Y r2 hY h2
        have hlt : r2.sudokuIndex < recs.length :=
          Nat.lt_of_le_of_lt h2 (tile_bound_lt hW hX hY hfit)
        obtain ⟨ht, hreg⟩ := puzzleTile_reads recs difficulty g X Y r2 hlt
        refine ⟨ht, ?_⟩
        show (puzzleTile recs difficulty g X Y r2).regs.sudokuIndex ≤
          W * (g.nx * g.ny) + X * g.ny + (Y + 1)
        omega)
      g.ny 0 r (by omega) hr
  have hcols : ∀ W, W < puzzlePageCount recs.length → ∀ r : Regs,
      r.sudokuIndex ≤ W * (g.nx * g.ny) →
      readsBelow recs.length (forRange g.nx (fun X => block [
          forRange g.ny (fun Y => puzzleTile recs difficulty g X Y), footer g]) r).events ∧
        (forRange g.nx (fun X => block [
          forRange g.ny (fun Y => puzzleTile recs difficulty g X Y), footer g]) r).regs.sudokuIndex ≤
          W * (g.nx * g.ny) + (0 + g.nx) * g.ny := by
    intro W hW r hr
    exact forFrom_rule (readsBelow recs.length) (readsBelow_nil _) happ
      (fun X r => r.sudokuIndex ≤ W * (g.nx * g.ny) + X * g.ny)
      (fun X r h => by
        show r.sudokuIndex ≤ W * (g.nx * g.ny) + (X + 1) * g.ny
        rw [Nat.succ_mul]
        omega)
      (fun X => block [forRange g.ny (fun Y => puzzleTile recs difficulty g X Y), footer g]) g.nx
      (by
        intro X r2 hX h2
        obtain ⟨ht, hreg⟩ := hrows W X hW hX r2 h2
        apply then_footer_rule (readsBelow recs.length) happ g (readsBelow_footer _ g)
          (fun r3 => r3.sudokuIndex ≤ W * (g.nx * g.ny) + (X + 1) * g.ny) _ r2 ht
        show (forRange g.ny (fun Y => puzzleTile recs difficulty g X Y) r2).regs.sudokuIndex ≤
          W * (g.nx * g.ny) + (X + 1) * g.ny
        rw [Nat.succ_mul]
        omega)
      g.nx 0 r (by omega) (by simpa using hr)
  have hpages := forFrom_rule (readsBelow recs.length) (readsBelow_nil _) happ
    (fun W r => r.sudokuIndex ≤ W * (g.nx * g.ny))
    (fun W r h => by
      show r.sudokuIndex ≤ (W + 1) * (g.nx * g.ny)
      rw [Nat.succ_mul]
      omega)
    (puzzlePage recs difficulty g) (puzzlePageCount recs.length)
    (by
      intro W r2 hW h2
      unfold puzzlePage
      apply after_addPage_rule (readsBelow recs.length) happ (readsBelow_addPage _)
        (fun r3 => r3.sudokuIndex ≤ (W + 1) * (g.nx * g.ny))
      obtain ⟨ht, hreg⟩ := hcols W hW ⟨r2.sudokuIndex, r2.pageNo + 1⟩ h2
      refine ⟨ht, ?_⟩
      rw [Nat.succ_mul]
      simpa [Nat.mul_comm] using hreg)
    (puzzlePageCount recs.length) 0 ⟨0, pn⟩ (by omega) (Nat.zero_le _)
  unfold puzzlePages forRange
  simpa using hpages

/-- The solution pages read only records below `count` and leave the cursor at
or below `count`, for every band. -/
theorem solutionPages_reads (recs : List Game) (difficulty : String) (g : Geom) (pn : Nat) :
    readsBelow recs.length (solutionPages recs difficulty g ⟨0, pn⟩).events ∧
      (solutionPages recs difficulty g ⟨0, pn⟩).regs.sudokuIndex ≤ recs.length := by
  have happ := readsBelow_append recs.length
  have hrows : ∀ X, ∀ r : Regs, r.sudokuIndex ≤ recs.length →
      readsBelow recs.length (forRange g.ny (fun Y => solutionTile recs difficulty g X Y) r).events ∧
        (forRange g.ny (fun Y => solutionTile recs difficulty g X Y) r).regs.sudokuIndex ≤
          recs.length := by
    intro X r hr
    exact forFrom_rule (readsBelow recs.length) (readsBelow_nil _) happ
      (fun _ r => r.sudokuIndex ≤ recs.length) (fun _ _ h => h)
      (fun Y => solutionTile recs difficulty g X Y) g.ny
      (fun Y r2 _ h2 => solutionTile_reads recs difficulty g X Y r2 h2)
      g.ny 0 r (by omega) hr
  have hcols : ∀ r : Regs, r.sudokuIndex ≤ recs.length →
      readsBelow recs.length (forRange g.nx (fun X => block [
          forRange g.ny (fun Y => solutionTile recs difficulty g X Y), footer g]) r).events ∧
        (forRange g.nx (fun X => block [
          forRange g.ny (fun Y => solutionTile recs difficulty g X Y), footer g]) r).regs.sudokuIndex ≤
          recs.length := by
    intro r hr
    exact forFrom_rule (readsBelow recs.length) (readsBelow_nil _) happ
      (fun _ r => r.sudokuIndex ≤ recs.length) (fun _ _ h => h)
      (fun X => block [forRange g.ny (fun Y => solutionTile recs difficulty g X Y), footer g]) g.nx
      (by
        intro X r2 _ h2
        obtain ⟨ht, hreg⟩ := hrows X r2 h2
        exact then_footer_rule (readsBelow recs.length) happ g (readsBelow_footer _ g)
          (fun r3 => r3.sudokuIndex ≤ recs.length) _ r2 ht hreg)
      g.nx 0 r (by omega) hr
  exact forFrom_rule (readsBelow recs.length) (readsBelow_nil _) happ
    (fun _ r => r.sudokuIndex ≤ recs.length) (fun _ _ h => h)
    (solutionPage recs difficulty g) (solutionPageCount recs.length)
    (by
      intro W r2 _ h2
      unfold solutionPage
      exact after_addPage_rule (readsBelow recs.length) happ (readsBelow_addPage _)
        (fun r3 => r3.sudokuIndex ≤ recs.length) _ r2
        (hcols ⟨r2.sudokuIndex, r2.pageNo + 1⟩ h2))
    (solutionPageCount recs.length) 0 ⟨0, pn⟩ (by omega) (Nat.zero_le _)

/-! ## Runs that panic -/

/-- A loop whose turns before `m` end normally along the trajectory `R` and
whose turn `m` panics after the call `e`: the loop panics and `e` is in its trace. -/
theorem forFrom_panics_with (body : Nat → Stmt) (e : Event) :
    ∀ (m k i : Nat) (R : Nat → Regs), m < k →
      (∀ t, t < m → (body (i + t) (R t)).flow = Flow.normal ∧
        (body (i + t) (R t)).regs = R (t + 1)) →
      ((body (i + m) (R m)).flow = Flow.panic ∧ e ∈ (body (i + m) (R m)).events) →
      (forFrom body i k (R 0)).flow = Flow.panic ∧ e ∈ (forFrom body i k (R 0)).events := by
  intro m
  induction m with
  | zero =>
    intro k i R hk _ hp
    obtain ⟨k, rfl⟩ : ∃ k2, k = k2 + 1 := ⟨k - 1, by omega⟩
    rw [Nat.add_zero] at hp
    have hx : body i (R 0) = ⟨(body i (R 0)).events, (body i (R 0)).regs, Flow.panic⟩ := by
      rw [← hp.1]
    rw [forFrom_succ_panic hx]
    exact ⟨rfl, hp.2⟩
  | succ m ih =>
    intro k i R hk h hp
    obtain ⟨k, rfl⟩ : ∃ k2, k = k2 + 1 := ⟨k - 1, by omega⟩
    obtain ⟨hf, hr⟩ := h 0 (Nat.succ_pos m)
    rw [Nat.add_zero] at hf hr
    have hx : body i (R 0) = ⟨(body i (R 0)).events, R 1, Flow.normal⟩ := by
      rw [← hf, ← hr]
    rw [forFrom_succ_normal hx]
    have e1 : i + (m + 1) = i + 1 + m := by omega
    obtain ⟨h1, h2⟩ := ih k (i + 1) (fun t => R (t + 1)) (by omega)
      (by
        intro t ht
        have := h (t + 1) (Nat.succ_lt_succ ht)
        have e2 : i + (t + 1) = i + 1 + t := by omega
        rw [e2] at this
        exact this)
      (by
        rw [e1] at hp
        exact hp)
    exact ⟨h1, List.mem_append_right _ h2⟩

theorem seq_panics_with_left (a b : Stmt) (r : Regs) (e : Event)
    (h : (a r).flow = Flow.panic ∧ e ∈ (a r).events) :
    (seq a b r).flow = Flow.panic ∧ e ∈ (seq a b r).events := by
  have hx : a r = ⟨(a r).events, (a r).regs, Flow.panic⟩ := by
    rw [← h.1]
  rw [seq_of_panic hx]
  exact ⟨rfl, h.2⟩

theorem seq_panics_with_right (a b : Stmt) (r : Regs) (e : Event)
    (ha : (a r).flow = Flow.normal)
    (h : (b (a r).regs).flow = Flow.panic ∧ e ∈ (b (a r).regs).events) :
    (seq a b r).flow = Flow.panic ∧ e ∈ (seq a b r).events := by
  have hx : a r = ⟨(a r).events, (a r).regs, Flow.normal⟩ := by
    rw [← ha]
  rw [seq_of_normal hx]
  exact ⟨h.1, List.mem_append_right _ h.2⟩

/-! ## Grids are drawn from the record their label names -/

theorem audit_append (recs : List Game) (f : Field) (x y : List Event) :
    ∀ a : Audit, audit recs f a (x ++ y) =
      match audit recs f a x with
      | some a2 => audit recs f a2 y
      | none => none := by
  induction x with
  | nil => intro a; rfl
  | cons e x ih =>
    intro a
    rw [List.cons_append, audit, audit]
    cases auditStep recs f a e with
    | none => rfl
    | some a2 => exact ih a2

theorem accepted_nil (recs : List Game) (f : Field) : Accepted recs f [] := by
  intro a
  rfl

theorem accepted_append (recs : List Game) (f : Field) (x y : List Event)
    (hx : Accepted recs f x) (hy : Accepted recs f y) : Accepted recs f (x ++ y) := by
  intro a
  rw [audit_append]
  have h := hx a
  cases hax : audit recs f a x with
  | none => rw [hax] at h; cases h
  | some a2 => exact hy a2

theorem acceptedIn_nil (recs : List Game) (f : Field) (idx : Nat) : AcceptedIn recs f idx [] := by
  intro last
  exact ⟨last, rfl⟩

theorem acceptedIn_append (recs : List Game) (f : Field) (idx : Nat) (x y : List Event)
    (hx : AcceptedIn recs f idx x) (hy : AcceptedIn recs f idx y) :
    AcceptedIn recs f idx (x ++ y) := by
  intro last
  obtain ⟨l1, h1⟩ := hx last
  obtain ⟨l2, h2⟩ := hy l1
  refine ⟨l2, ?_⟩
  rw [audit_append, h1]
  exact h2

theorem acceptedIn_flatMap (recs : List Game) (f : Field) (idx : Nat) (E : Nat → List Event)
    (h : ∀ t, AcceptedIn recs f idx (E t)) :
    ∀ l : List Nat, AcceptedIn recs f idx (l.flatMap E) := by
  intro l
  induction l with
  | nil => exact acceptedIn_nil recs f idx
  | cons t l ih =>
    rw [List.flatMap_cons]
    exact acceptedIn_append recs f idx _ _ (h t) ih

theorem acceptedIn_lines (recs : List Game) (f : Field) (idx : Nat) (e : Nat → Event)
    (he : ∀ t, (e t).isLine = true) :
    ∀ l : List Nat, AcceptedIn recs f idx (l.map e) := by
  intro l
  induction l with
  | nil => exact acceptedIn_nil recs f idx
  | cons t l ih =>
    intro last
    obtain ⟨l2, h2⟩ := ih none
    refine ⟨l2, ?_⟩
    rw [List.map_cons, audit]
    have hl := he t
    cases het : e t <;> rw [het] at hl <;> simp [Event.isLine] at hl
    simp only [auditStep]
    exact h2

theorem acceptedIn_read (recs : List Game) (f : Field) (idx pos : Nat) :
    AcceptedIn recs f idx [Event.read f idx pos] := by
  intro last
  exact ⟨some (idx, pos), by simp [audit, auditStep]⟩

theorem acceptedIn_cellEvents (recs : List Game) (f : Field) (idx : Nat) (g : Geom) (x0 y0 : ℚ)
    (pos : Nat) : AcceptedIn recs f idx (cellEvents f idx g x0 y0 (boardAt recs f idx) pos) := by
  unfold cellEvents
  cases hb : (boardAt recs f idx)[pos]? with
  | none => exact acceptedIn_read recs f idx pos
  | some c =>
    by_cases hc : c = '.'
    · simp only [hc, ne_eq, not_true_eq_false, if_false]
      exact acceptedIn_read recs f idx pos
    · simp only [hc, ne_eq, not_false_eq_true, if_true]
      intro last
      exact ⟨none, by simp [audit, auditStep, digitAt, hb]⟩

theorem acceptedIn_gridEvents (recs : List Game) (f : Field) (idx : Nat) (g : Geom) (x0 y0 : ℚ) :
    AcceptedIn recs f idx (gridEvents f idx g x0 y0 (boardAt recs f idx)) := by
  unfold gridEvents
  apply acceptedIn_append
  · apply acceptedIn_append
    · exact acceptedIn_lines recs f idx _ (isLine_hLine g x0 y0) _
    · exact acceptedIn_lines recs f idx _ (isLine_vLine g x0 y0) _
  · exact acceptedIn_flatMap recs f idx _ (acceptedIn_cellEvents recs f idx g x0 y0) _

/-- A label `#(idx + 1)` followed by calls accepted in that grid. -/
theorem accepted_label_cons (recs : List Game) (f : Field) (idx : Nat) (x y w h : ℚ)
    (d : String) (es : List Event) (hes : AcceptedIn recs f idx es) :
    Accepted recs f (Event.label x y w h d (idx + 1) :: es) := by
  intro a
  obtain ⟨l2, h2⟩ := hes none
  rw [audit]
  simp only [auditStep]
  rw [h2]
  rfl

theorem accepted_single (recs : List Game) (f : Field) (e : Event)
    (he : e.isAddPage = true ∨ e.isFooter = true ∨ (∃ w h t, e = Event.title w h t)) :
    Accepted recs f [e] := by
  intro a
  rcases he with h | h | ⟨w, h, t, rfl⟩
  · cases e <;> simp [Event.isAddPage] at h
    rfl
  · cases e <;> simp [Event.isFooter] at h
    rfl
  · rfl

/-- Every puzzle tile, however it ends, is drawn from the record its label names. -/
theorem puzzleTile_accepted (recs : List Game) (difficulty : String) (g : Geom) (X Y : Nat)
    (r : Regs) : Accepted recs Field.game (puzzleTile recs difficulty g X Y r).events := by
  cases hrec : recs[r.sudokuIndex]? with
  | none =>
    rw [puzzleTile_no_record hrec]
    apply accepted_label_cons
    apply acceptedIn_append
    · apply acceptedIn_append
      · exact acceptedIn_lines recs _ _ _ (isLine_hLine g _ _) _
      · exact acceptedIn_lines recs _ _ _ (isLine_vLine g _ _) _
    · exact acceptedIn_read recs _ _ _
  | some rec =>
    have hev : Accepted recs Field.game
        (puzzleTileEvents difficulty g X Y r.sudokuIndex rec.game) := by
      unfold puzzleTileEvents
      apply accepted_label_cons
      have hb : rec.game = boardAt recs Field.game r.sudokuIndex :=
        (boardAt_of_getElem? hrec Field.game).symm
      rw [hb]
      exact acceptedIn_gridEvents recs Field.game r.sudokuIndex g _ _
    rw [puzzleTile_eq hrec]
    split_ifs <;> exact hev

/-- Every solution tile, however it ends, is drawn from the record its label names. -/
theorem solutionTile_accepted (recs : List Game) (difficulty : String) (g : Geom) (X Y : Nat)
    (r : Regs) : Accepted recs Field.solution (solutionTile recs difficulty g X Y r).events := by
  cases hrec : recs[r.sudokuIndex]? with
  | none =>
    have hge : recs.length ≤ r.sudokuIndex := List.getElem?_eq_none_iff.mp hrec
    rw [solutionTile_done hge]
    exact accepted_nil recs _
  | some rec =>
    have hev : Accepted recs Field.solution
        (solutionTileEvents difficulty g X Y r.sudokuIndex rec.solution) := by
      unfold solutionTileEvents
      apply accepted_label_cons
      have hb : rec.solution = boardAt recs Field.solution r.sudokuIndex :=
        (boardAt_of_getElem? hrec Field.solution).symm
      rw [hb]
      exact acceptedIn_gridEvents recs Field.solution r.sudokuIndex g _ _
    rw [solutionTile_eq hrec]
    split_ifs <;> exact hev

/-- Pages built from accepted tiles are accepted. -/
theorem pages_accepted (recs : List Game) (f : Field) (tile : Nat → Nat → Stmt) (g : Geom)
    (ht : ∀ X Y r, Accepted recs f (tile X Y r).events) (np : Nat) (r : Regs) :
    Accepted recs f (forRange np (fun _ => block [addPage,
      forRange g.nx (fun X => block [forRange g.ny (fun Y => tile X Y), footer g])]) r).events := by
  have happ := accepted_append recs f
  have hnil := accepted_nil recs f
  have hrows : ∀ X r, Accepted recs f (forRange g.ny (fun Y => tile X Y) r).events := by
    intro X r
    exact (forFrom_rule (Accepted recs f) hnil happ (fun _ _ => True) (fun _ _ h => h)
      (fun Y => tile X Y) g.ny (fun Y r2 _ _ => ⟨ht X Y r2, trivial⟩) g.ny 0 r (by omega)
      trivial).1
  have hcols : ∀ r, Accepted recs f (forRange g.nx (fun X => block [
      forRange g.ny (fun Y => tile X Y), footer g]) r).events := by
    intro r
    exact (forFrom_rule (Accepted recs f) hnil happ (fun _ _ => True) (fun _ _ h => h)
      (fun X => block [forRange g.ny (fun Y => tile X Y), footer g]) g.nx
      (fun X r2 _ _ => then_footer_rule (Accepted recs f) happ g
        (fun pn => accepted_single recs f _ (Or.inr (Or.inl rfl))) (fun _ => True) _ r2
        (hrows X r2) trivial)
      g.nx 0 r (by omega) trivial).1
  exact (forFrom_rule (Accepted recs f) hnil happ (fun _ _ => True) (fun _ _ h => h)
    (fun _ => block [addPage,
      forRange g.nx (fun X => block [forRange g.ny (fun Y => tile X Y), footer g])]) np
    (fun W r2 _ _ => after_addPage_rule (Accepted recs f) happ
      (accepted_single recs f _ (Or.inl rfl)) (fun _ => True) _ r2 ⟨hcols _, trivial⟩)
    np 0 r (by omega) trivial).1

/-- The reading can refuse: a grid labelled `#2` that evaluates record 0 is
not faithful. -/
theorem faithful_refuses_shifted_label :
    faithful [sampleGame, sampleGame] Field.game
      [Event.label 0 0 0 0 "Easy" 2, Event.read Field.game 0 0] = false := by
  decide

/-- The line calls of a grid: the ten of the first loop, then the ten of the
second. -/
theorem filter_line_gridEvents (f : Field) (idx : Nat) (g : Geom) (x0 y0 : ℚ) (board : List Char) :
    (gridEvents f idx g x0 y0 board).filter Event.isLine =
      (List.range 10).map (hLine g x0 y0) ++ (List.range 10).map (vLine g x0 y0) := by
  unfold gridEvents
  rw [List.filter_append, List.filter_append]
  have h1 : ((List.range 10).map (hLine g x0 y0)).filter Event.isLine =
      (List.range 10).map (hLine g x0 y0) := by
    rw [List.filter_eq_self]
    intro e he
    obtain ⟨l, _, hl⟩ := List.mem_map.mp he
    subst hl
    rfl
  have h2 : ((List.range 10).map (vLine g x0 y0)).filter Event.isLine =
      (List.range 10).map (vLine g x0 y0) := by
    rw [List.filter_eq_self]
    intro e he
    obtain ⟨l, _, hl⟩ := List.mem_map.mp he
    subst hl
    rfl
  have h3 : ((List.range (min (board.length + 1) 81)).flatMap
      (cellEvents f idx g x0 y0 board)).filter Event.isLine = [] := by
    rw [List.filter_eq_nil_iff]
    intro e he
    obtain ⟨pos, _, hpos⟩ := List.mem_flatMap.mp he
    have hk := cellEvents_kinds f idx g x0 y0 board pos e hpos
    have hno : e.isLine = false := by
      rcases hk with h | h
      · cases e <;> first | rfl | exact absurd h (by simp [Event.isRead])
      · cases e <;> first | rfl | exact absurd h (by simp [Event.isDigit])
    rw [hno]
    simp
  rw [h1, h2, h3, List.append_nil]

theorem filterMap_digitPos_gridEvents (f : Field) (idx : Nat) (g : Geom) (x0 y0 : ℚ)
    (board : List Char) :
    (gridEvents f idx g x0 y0 board).filterMap Event.digitPos =
      (List.range (min (board.length + 1) 81)).filterMap (digitPosAt g x0 y0 board) := by
  unfold gridEvents
  rw [List.filterMap_append, List.filterMap_append, filterMap_digitPos_cells,
    List.filterMap_map, List.filterMap_map]
  have h1 : (Event.digitPos ∘ hLine g x0 y0) = fun _ => none := by
    funext l; rfl
  have h2 : (Event.digitPos ∘ vLine g x0 y0) = fun _ => none := by
    funext l; rfl
  have h3 : ∀ l : List Nat, l.filterMap (fun _ => (none : Option (ℚ × ℚ))) = [] := by
    intro l
    induction l with
    | nil => rfl
    | cons a l ih => simp
  rw [h1, h2, h3]
  rfl

/-! ## Cells and lines of a grid, call by call -/

theorem filter_digit_cellEvents (f : Field) (idx : Nat) (g : Geom) (x0 y0 : ℚ)
    (board : List Char) (pos : Nat) :
    (cellEvents f idx g x0 y0 board pos).filter Event.isDigit =
      (digitEventAt g x0 y0 board pos).toList := by
  unfold cellEvents digitEventAt
  cases hb : board[pos]? with
  | none => simp [Event.isDigit]
  | some c =>
    by_cases hc : c = '.'
    · simp [hc, Event.isDigit]
    · simp [hc, Event.isDigit, digitAt]

theorem filter_digit_cells (f : Field) (idx : Nat) (g : Geom) (x0 y0 : ℚ) (board : List Char) :
    ∀ n : Nat, ((List.range n).flatMap (cellEvents f idx g x0 y0 board)).filter Event.isDigit =
      (List.range n).filterMap (digitEventAt g x0 y0 board) := by
  intro n
  induction n with
  | zero => simp
  | succ n ih =>
    rw [List.range_succ, List.flatMap_append, List.filter_append, ih, List.flatMap_singleton,
      filter_digit_cellEvents, List.filterMap_append]
    congr 1

/-- The digit cells of a grid: one per board index that holds a symbol other
than `.`, in index order. -/
theorem filter_digit_gridEvents (f : Field) (idx : Nat) (g : Geom) (x0 y0 : ℚ)
    (board : List Char) :
    (gridEvents f idx g x0 y0 board).filter Event.isDigit =
      (List.range (min (board.length + 1) 81)).filterMap (digitEventAt g x0 y0 board) := by
  unfold gridEvents
  rw [List.filter_append, List.filter_append, filter_digit_cells]
  have h1 : ((List.range 10).map (hLine g x0 y0)).filter Event.isDigit = [] := by
    rw [List.filter_eq_nil_iff]
    intro e he
    obtain ⟨l, _, hl⟩ := List.mem_map.mp he
    subst hl
    simp [isDigit_hLine]
  have h2 : ((List.range 10).map (vLine g x0 y0)).filter Event.isDigit = [] := by
    rw [List.filter_eq_nil_iff]
    intro e he
    obtain ⟨l, _, hl⟩ := List.mem_map.mp he
    subst hl
    simp [isDigit_vLine]
  rw [h1, h2]
  rfl

/-- The line calls of a grid whatever the records are. -/
theorem filter_line_drawGrid (recs : List Game) (f : Field) (g : Geom) (x0 y0 : ℚ) (r : Regs) :
    (drawGrid recs f g x0 y0 r).events.filter Event.isLine =
      (List.range 10).map (hLine g x0 y0) ++ (List.range 10).map (vLine g x0 y0) := by
  cases hrec : recs[r.sudokuIndex]? with
  | some rec =>
    rw [drawGrid_eq hrec]
    exact filter_line_gridEvents _ _ _ _ _ _
  | none =>
    rw [drawGrid_no_record hrec]
    have h := filter_line_gridEvents f r.sudokuIndex g x0 y0 []
    unfold gridEvents at h
    simpa [cellEvents] using h

theorem thick_ne_thin (width height : ℚ) (nx ny : Nat)
    (hL : (geometry width height nx ny).L ≠ 0) :
    (geometry width height nx ny).thinLineWidth ≠ (geometry width height nx ny).thickLineWidth := by
  intro h
  apply hL
  have h2 : (geometry width height nx ny).L / 300 = (geometry width height nx ny).L / 120 := h
  linarith

/-! ## Grids and page numbers per page of a section -/

theorem countP_flatMap_const {α : Type} (p : Event → Bool) (F : α → List Event) (c : Nat) :
    ∀ l : List α, (∀ x ∈ l, (F x).countP p = c) → (l.flatMap F).countP p = l.length * c := by
  intro l
  induction l with
  | nil => intro _; simp
  | cons a l ih =>
    intro h
    rw [List.flatMap_cons, List.countP_append, h a (List.mem_cons_self a l),
      ih (fun x hx => h x (List.mem_cons_of_mem a hx)), List.length_cons, Nat.succ_mul]
    omega

theorem tileEvents_no_footer_puzzle (recs : List Game) (difficulty : String) (g : Geom)
    (X Y idx : Nat) : ∀ e ∈ puzzleTileEv recs difficulty g X Y idx, e.isFooter = false := by
  intro e he
  unfold puzzleTileEv puzzleTileEvents at he
  rcases List.mem_cons.mp he with h | h
  · subst h; rfl
  · have hk := gridEvents_kinds _ _ _ _ _ _ e h
    rcases hk with h1 | h1 | h1
    · cases e <;> first | rfl | exact absurd h1 (by simp [Event.isLine])
    · cases e <;> first | rfl | exact absurd h1 (by simp [Event.isRead])
    · cases e <;> first | rfl | exact absurd h1 (by simp [Event.isDigit])

theorem tileEvents_no_footer_solution (recs : List Game) (difficulty : String) (g : Geom)
    (X Y idx : Nat) : ∀ e ∈ solutionTileEv recs difficulty g X Y idx, e.isFooter = false := by
  intro e he
  unfold solutionTileEv solutionTileEvents at he
  rcases List.mem_cons.mp he with h | h
  · subst h; rfl
  · have hk := gridEvents_kinds _ _ _ _ _ _ e h
    rcases hk with h1 | h1 | h1
    · cases e <;> first | rfl | exact absurd h1 (by simp [Event.isLine])
    · cases e <;> first | rfl | exact absurd h1 (by simp [Event.isRead])
    · cases e <;> first | rfl | exact absurd h1 (by simp [Event.isDigit])

/-- One column has exactly one page number cell. -/
theorem countP_footer_columnEvents (tileEv : Nat → Nat → Nat → List Event) (g : Geom)
    (count X idx pn : Nat) (hF : ∀ X Y i, ∀ e ∈ tileEv X Y i, e.isFooter = false) :
    (columnEvents tileEv g count X idx pn).countP Event.isFooter = 1 := by
  unfold columnEvents
  rw [List.countP_append]
  have h0 : ((List.range (min g.ny (count - idx))).flatMap
      (fun Y => tileEv X Y (idx + Y))).countP Event.isFooter = 0 := by
    rw [List.countP_eq_zero]
    intro e he
    obtain ⟨Y, _, hY⟩ := List.mem_flatMap.mp he
    rw [hF X Y (idx + Y) e hY]
    simp
  rw [h0]
  rfl

/-- One page has as many page number cells as the layout has columns. -/
theorem countP_footer_pageEvents_tail (tileEv : Nat → Nat → Nat → List Event) (g : Geom)
    (count idx pn : Nat) (hF : ∀ X Y i, ∀ e ∈ tileEv X Y i, e.isFooter = false) :
    (pageEvents tileEv g count idx pn).tail.countP Event.isFooter = g.nx := by
  unfold pageEvents
  rw [List.tail_cons,
    countP_flatMap_const Event.isFooter _ 1 _
      (fun X _ => countP_footer_columnEvents tileEv g count X _ _ hF)]
  simp

/-- The page number cells of each page of a run of pages after a title page. -/
theorem footersPerPage_pagesEvents (tileEv : Nat → Nat → Nat → List Event) (g : Geom)
    (count np pn : Nat) (hT : ∀ X Y i, ∀ e ∈ tileEv X Y i, e.isAddPage = false)
    (hF : ∀ X Y i, ∀ e ∈ tileEv X Y i, e.isFooter = false)
    (pre : List Event) (hpre : ∀ e ∈ pre, e.isAddPage = false) :
    footersPerPage (Event.addPage :: (pre ++ pagesEvents tileEv g count np pn)) =
      pre.countP Event.isFooter :: List.replicate np g.nx := by
  unfold footersPerPage pagesOf
  rw [splitPages, splitPages_append_of_no_addPage _ _ hpre, splitPages_pagesEvents _ _ _ _ _ hT]
  simp only [Event.isAddPage, if_true, List.append_nil, List.map_cons, List.map_map]
  congr 1
  rw [List.eq_replicate_iff]
  constructor
  · simp
  · intro b hb
    obtain ⟨W, _, hW⟩ := List.mem_map.mp hb
    rw [← hW]
    exact countP_footer_pageEvents_tail tileEv g count _ _ hF

theorem gridsPerPage_puzzleSectionEvents (recs : List Game) (difficulty : String) (volume : Nat)
    (width height : ℚ) (nx ny pn : Nat) :
    gridsPerPage (puzzleSectionEvents recs difficulty volume width height nx ny pn) =
      0 :: (List.range (puzzlePageCount recs.length)).map
        (fun W => min (nx * ny * (W + 1)) recs.length - min (nx * ny * W) recs.length) := by
  unfold puzzleSectionEvents
  have h := gridsPerPage_pagesEvents
    (puzzleTileEv recs difficulty (geometry width height nx ny))
    (geometry width height nx ny) recs.length (puzzlePageCount recs.length) (pn + 1)
    (tileEvents_no_addPage_puzzle recs difficulty _)
    (fun X Y i _ => labelNumbers_puzzleTileEv recs difficulty _ X Y i)
    [Event.title width height (difficulty ++ " Sudoku - Puzzles"),
      Event.title width height ("Volume #" ++ toString volume)]
    (by
      intro e he
      simp only [List.mem_cons, List.mem_singleton, List.not_mem_nil, or_false] at he
      rcases he with he | he <;> subst he <;> rfl)
  rw [List.cons_append, List.singleton_append] at h
  rw [h]
  rfl

theorem gridsPerPage_solutionSectionEvents (recs : List Game) (difficulty : String)
    (width height : ℚ) (pn : Nat) :
    gridsPerPage (solutionSectionEvents recs difficulty width height pn) =
      0 :: (List.range (solutionPageCount recs.length)).map
        (fun W => min (6 * (W + 1)) recs.length - min (6 * W) recs.length) := by
  unfold solutionSectionEvents
  have h := gridsPerPage_pagesEvents (solutionTileEv recs difficulty (geometry width height 2 3))
    (geometry width height 2 3) recs.length (solutionPageCount recs.length) (pn + 1)
    (tileEvents_no_addPage_solution recs difficulty _)
    (fun X Y i _ => labelNumbers_solutionTileEv recs difficulty _ X Y i)
    [Event.title width height (difficulty ++ " Sudoku - Solutions")]
    (by intro e he; rw [List.mem_singleton] at he; subst he; rfl)
  rw [List.singleton_append] at h
  rw [h]
  rfl

theorem footersPerPage_puzzleSectionEvents (recs : List Game) (difficulty : String)
    (volume : Nat) (width height : ℚ) (nx ny pn : Nat) :
    footersPerPage (puzzleSectionEvents recs difficulty volume width height nx ny pn) =
      0 :: List.replicate (puzzlePageCount recs.length) nx := by
  unfold puzzleSectionEvents
  have h := footersPerPage_pagesEvents
    (puzzleTileEv recs difficulty (geometry width height nx ny))
    (geometry width height nx ny) recs.length (puzzlePageCount recs.length) (pn + 1)
    (tileEvents_no_addPage_puzzle recs difficulty _)
    (tileEvents_no_footer_puzzle recs difficulty _)
    [Event.title width height (difficulty ++ " Sudoku - Puzzles"),
      Event.title width height ("Volume #" ++ toString volume)]
    (by
      intro e he
      simp only [List.mem_cons, List.mem_singleton, List.not_mem_nil, or_false] at he
      rcases he with he | he <;> subst he <;> rfl)
  rw [List.cons_append, List.singleton_append] at h
  rw [h]
  rfl

theorem footersPerPage_solutionSectionEvents (recs : List Game) (difficulty : String)
    (width height : ℚ) (pn : Nat) :
    footersPerPage (solutionSectionEvents recs difficulty width height pn) =
      0 :: List.replicate (solutionPageCount recs.length) 2 := by
  unfold solutionSectionEvents
  have h := footersPerPage_pagesEvents
    (solutionTileEv recs difficulty (geometry width height 2 3))
    (geometry width height 2 3) recs.length (solutionPageCount recs.length) (pn + 1)
    (tileEvents_no_addPage_solution recs difficulty _)
    (tileEvents_no_footer_solution recs difficulty _)
    [Event.title width height (difficulty ++ " Sudoku - Solutions")]
    (by intro e he; rw [List.mem_singleton] at he; subst he; rfl)
  rw [List.singleton_append] at h
  rw [h]
  rfl

theorem countP_addPage_puzzleSectionEvents (recs : List Game) (difficulty : String)
    (volume : Nat) (width height : ℚ) (nx ny pn : Nat) :
    (puzzleSectionEvents recs difficulty volume width height nx ny pn).countP Event.isAddPage =
      1 + puzzlePageCount recs.length := by
  unfold puzzleSectionEvents
  rw [List.countP_cons, List.countP_cons, List.countP_cons,
    countP_addPage_pagesEvents _ _ _ _ _ (tileEvents_no_addPage_puzzle recs difficulty _)]
  simp [Event.isAddPage]
  omega

theorem countP_addPage_solutionSectionEvents (recs : List Game) (difficulty : String)
    (width height : ℚ) (pn : Nat) :
    (solutionSectionEvents recs difficulty width height pn).countP Event.isAddPage =
      1 + solutionPageCount recs.length := by
  unfold solutionSectionEvents
  rw [List.countP_cons, List.countP_cons,
    countP_addPage_pagesEvents _ _ _ _ _ (tileEvents_no_addPage_solution recs difficulty _)]
  simp [Event.isAddPage]
  omega

/-! ## The four bands in order -/

theorem titleText_gridEvents (f : Field) (idx : Nat) (g : Geom) (x0 y0 : ℚ)
    (board : List Char) : (gridEvents f idx g x0 y0 board).filterMap Event.titleText = [] :=
  filterMap_gridEvents_none Event.titleText
    (by intro e he; cases e <;> first | rfl | exact absurd he (by simp [Event.isLine]))
    (by intro e he; cases e <;> first | rfl | exact absurd he (by simp [Event.isRead]))
    (by intro e he; cases e <;> first | rfl | exact absurd he (by simp [Event.isDigit]))
    f idx g x0 y0 board

theorem titles_puzzleSectionEvents (recs : List Game) (difficulty : String) (volume : Nat)
    (width height : ℚ) (nx ny pn : Nat) :
    titles (puzzleSectionEvents recs difficulty volume width height nx ny pn) =
      [difficulty ++ " Sudoku - Puzzles", "Volume #" ++ toString volume] := by
  unfold titles puzzleSectionEvents
  rw [List.filterMap_cons, List.filterMap_cons, List.filterMap_cons,
    filterMap_pagesEvents Event.titleText (fun _ => []) _ _ _ rfl (fun _ => rfl)
      (by
        intro X Y idx _
        unfold puzzleTileEv puzzleTileEvents
        rw [List.filterMap_cons, titleText_gridEvents]
        rfl)]
  simp [Event.titleText]

theorem titles_solutionSectionEvents (recs : List Game) (difficulty : String)
    (width height : ℚ) (pn : Nat) :
    titles (solutionSectionEvents recs difficulty width height pn) =
      [difficulty ++ " Sudoku - Solutions"] := by
  unfold titles solutionSectionEvents
  rw [List.filterMap_cons, List.filterMap_cons,
    filterMap_pagesEvents Event.titleText (fun _ => []) _ _ _ rfl (fun _ => rfl)
      (by
        intro X Y idx _
        unfold solutionTileEv solutionTileEvents
        rw [List.filterMap_cons, titleText_gridEvents]
        rfl)]
  simp [Event.titleText]

/-- The pages of a trace followed by a trace that starts a page at once. -/
theorem splitPages_append_of_head_empty (y : List Event) (hy : (splitPages y).1 = []) :
    ∀ x : List Event, splitPages (x ++ y) =
      ((splitPages x).1, (splitPages x).2 ++ (splitPages y).2) := by
  intro x
  induction x with
  | nil =>
    rw [List.nil_append]
    show splitPages y = ([], (splitPages y).2)
    rw [← hy]
  | cons e x ih =>
    rw [List.cons_append, splitPages, splitPages, ih]
    by_cases he : e.isAddPage = true
    · simp [he]
    · simp [he]

theorem splitPages_head_puzzleSectionEvents (recs : List Game) (difficulty : String)
    (volume : Nat) (width height : ℚ) (nx ny pn : Nat) :
    (splitPages (puzzleSectionEvents recs difficulty volume width height nx ny pn)).1 = [] := by
  unfold puzzleSectionEvents
  rw [splitPages]
  rfl

theorem splitPages_head_solutionSectionEvents (recs : List Game) (difficulty : String)
    (width height : ℚ) (pn : Nat) :
    (splitPages (solutionSectionEvents recs difficulty width height pn)).1 = [] := by
  unfold solutionSectionEvents
  rw [splitPages]
  rfl

theorem pagesOf_append_of_head_empty (x y : List Event) (hy : (splitPages y).1 = []) :
    pagesOf (x ++ y) = pagesOf x ++ pagesOf y := by
  unfold pagesOf
  rw [splitPages_append_of_head_empty y hy x]

theorem splitPages_head_append (x y : List Event) (hx : (splitPages x).1 = [])
    (hy : (splitPages y).1 = []) : (splitPages (x ++ y)).1 = [] := by
  rw [splitPages_append_of_head_empty y hy x]
  exact hx

theorem splitPages_head_flatMap (F : Nat → List Event) (hF : ∀ K, (splitPages (F K)).1 = []) :
    ∀ l : List Nat, (splitPages (l.flatMap F)).1 = [] := by
  intro l
  induction l with
  | nil => rfl
  | cons K l ih =>
    rw [List.flatMap_cons]
    exact splitPages_head_append _ _ (hF K) ih

theorem pagesOf_flatMap (F : Nat → List Event) (hF : ∀ K, (splitPages (F K)).1 = []) :
    ∀ l : List Nat, pagesOf (l.flatMap F) = l.flatMap (fun K => pagesOf (F K)) := by
  intro l
  induction l with
  | nil => rfl
  | cons K l ih =>
    rw [List.flatMap_cons, List.flatMap_cons,
      pagesOf_append_of_head_empty _ _ (splitPages_head_flatMap F hF l), ih]

theorem bandAt_of_getElem? {sudokus : List (List Game)} {K : Nat} {recs : List Game}
    (h : sudokus[K]? = some recs) : bandAt sudokus K = recs := by
  unfold bandAt
  rw [h]

/-- One band of a run in which every record has boards of at least 81
symbols and the puzzle pages fit in the records. -/
theorem band_ok {sudokus : List (List Game)} {K : Nat} {recs : List Game}
    (hrec : sudokus[K]? = some recs)
    (hgame : ∀ rec ∈ recs, 81 ≤ rec.game.length)
    (hsol : ∀ rec ∈ recs, 81 ≤ rec.solution.length)
    (levels : Nat → String) (nx ny volume : Nat) (width height : ℚ) (r : Regs)
    (hfit : nx * ny * puzzlePageCount recs.length ≤ recs.length) :
    band sudokus levels nx ny volume width height K r =
      ⟨puzzleSectionEvents recs (stringsTitle (levels K)) volume width height nx ny r.pageNo ++
          solutionSectionEvents recs (stringsTitle (levels K)) width height
            (r.pageNo + 1 + puzzlePageCount recs.length),
        ⟨recs.length,
          r.pageNo + 1 + puzzlePageCount recs.length + 1 + solutionPageCount recs.length⟩,
        Flow.normal⟩ := by
  unfold band
  simp only [hrec, block_cons, block_nil]
  rw [seq_of_normal (puzzleSection_ok hgame (stringsTitle (levels K)) volume width height
      nx ny r hfit), seq_skip_right,
    solutionSection_ok hsol (stringsTitle (levels K)) width height _]

/-- The whole run of `createPDF` when the four bands are present, every board
has at least 81 symbols and the puzzle pages fit in the records of each band. -/
theorem createPDF_ok {sudokus : List (List Game)} (hlen : sudokus.length = 4)
    (hgame : ∀ recs ∈ sudokus, ∀ rec ∈ recs, 81 ≤ rec.game.length)
    (hsol : ∀ recs ∈ sudokus, ∀ rec ∈ recs, 81 ≤ rec.solution.length)
    (levels : Nat → String) (nx ny volume : Nat) (width height : ℚ)
    (hfit : ∀ recs ∈ sudokus, nx * ny * puzzlePageCount recs.length ≤ recs.length) :
    createPDF sudokus nx ny volume levels width height =
      ⟨List.replicate 4 Event.addPage ++
          (List.range 4).flatMap (fun K =>
            bandPuzzleEvents sudokus levels nx ny volume width height K ++
              bandSolutionEvents sudokus levels width height K),
        ⟨cursorBefore sudokus 4, pagesBefore sudokus 4⟩, Flow.normal⟩ := by
  have hloop := forFrom_traj (band sudokus levels nx ny volume width height) 4 0
    (fun K => ⟨cursorBefore sudokus K, pagesBefore sudokus K⟩)
    (fun K => bandPuzzleEvents sudokus levels nx ny volume width height K ++
      bandSolutionEvents sudokus levels width height K)
    (by
      intro t ht
      have hlt : t < sudokus.length := by omega
      have hrec : sudokus[t]? = some sudokus[t] := List.getElem?_eq_getElem hlt
      have hmem : sudokus[t] ∈ sudokus := List.getElem_mem hlt
      rw [Nat.zero_add, band_ok hrec (hgame _ hmem) (hsol _ hmem) levels nx ny volume width
        height _ (hfit _ hmem)]
      have hb : bandAt sudokus t = sudokus[t] := bandAt_of_getElem? hrec
      have hc : cursorBefore sudokus (t + 1) = sudokus[t].length := by
        rw [← hb]
        rfl
      have hp : pagesBefore sudokus (t + 1) = pagesBefore sudokus t + 1 +
          puzzlePageCount sudokus[t].length + 1 + solutionPageCount sudokus[t].length := by
        rw [← hb]
        show pagesBefore sudokus t + bandPages sudokus t = _
        unfold bandPages
        omega
      beta_reduce
      rw [hc, hp]
      unfold bandPuzzleEvents bandSolutionEvents
      rw [hb])
  unfold createPDF
  simp only [block_cons, block_nil]
  rw [seq_of_normal (addPage_apply _), seq_of_normal (addPage_apply _),
    seq_of_normal (addPage_apply _), seq_of_normal (addPage_apply _), seq_skip_right]
  unfold forRange
  have h0 : (⟨0, 0 + 1 + 1 + 1 + 1⟩ : Regs) =
      ⟨cursorBefore sudokus 0, pagesBefore sudokus 0⟩ := rfl
  rw [h0, hloop]
  rfl


theorem countP_readsField (f : Field) (l : List Event) :
    l.countP (Event.readsField f) =
      ((l.filterMap Event.readOf).filter (fun x => decide (x.1 = f))).length := by
  induction l with
  | nil => rfl
  | cons a l ih =>
    rw [List.countP_cons, List.filterMap_cons, ih]
    cases a <;> simp [Event.readsField, Event.readOf, List.filter_cons]
    split <;> simp

theorem countP_readsField_puzzleTileEv {recs : List Game}
    (hok : ∀ rec ∈ recs, 81 ≤ rec.game.length) (difficulty : String) (g : Geom)
    (f : Field) (X Y idx : Nat) (hidx : idx < recs.length) :
    (puzzleTileEv recs difficulty g X Y idx).countP (Event.readsField f) =
      if f = Field.game then 81 else 0 := by
  rw [countP_readsField, readLog_puzzleTileEv hok difficulty g X Y idx hidx, List.filter_map,
    List.length_map]
  cases f <;> simp [Function.comp_def]

theorem countP_readsField_solutionTileEv {recs : List Game}
    (hok : ∀ rec ∈ recs, 81 ≤ rec.solution.length) (difficulty : String) (g : Geom)
    (f : Field) (X Y idx : Nat) (hidx : idx < recs.length) :
    (solutionTileEv recs difficulty g X Y idx).countP (Event.readsField f) =
      if f = Field.solution then 81 else 0 := by
  rw [countP_readsField, readLog_solutionTileEv hok difficulty g X Y idx hidx, List.filter_map,
    List.length_map]
  cases f <;> simp [Function.comp_def]

theorem unit_list_ext : ∀ l1 l2 : List Unit, l1.length = l2.length → l1 = l2 := by
  intro l1
  induction l1 with
  | nil =>
    intro l2 h
    cases l2 with
    | nil => rfl
    | cons b l2 => simp at h
  | cons a l1 ih =>
    intro l2 h
    cases l2 with
    | nil => simp at h
    | cons b l2 =>
      have h3 : l1.length = l2.length := by simpa using h
      rw [ih l2 h3]

/-- The calls of one kind on a page whose tiles each have `c` of them. -/
theorem countP_pageEvents_tail_const (p : Event → Bool) (c : Nat)
    (tileEv : Nat → Nat → Nat → List Event) (g : Geom) (count idx pn : Nat)
    (hidx : idx ≤ count) (hA : p Event.addPage = false) (hF : ∀ k, p (footerEvent g k) = false)
    (hT : ∀ X Y i, i < count → (tileEv X Y i).countP p = c) :
    (pageEvents tileEv g count idx pn).tail.countP p =
      (min (idx + g.ny * g.nx) count - idx) * c := by
  have h1 : (pageEvents tileEv g count idx pn).tail.countP p =
      (pageEvents tileEv g count idx pn).countP p := by
    unfold pageEvents
    rw [List.tail_cons, List.countP_cons, hA]
    simp
  rw [h1, countP_eq_length_filterMap,
    filterMap_pageEvents (fun e => if p e then some () else none)
      (fun _ => List.replicate c ()) tileEv g count (by simp [hA]) (by intro k; simp [hF k])
      (by
        intro X Y i hi
        apply unit_list_ext
        rw [← countP_eq_length_filterMap, hT X Y i hi, List.length_replicate])
      idx pn hidx,
    List.range'_eq_map_range, List.flatMap_map,
    length_flatMap_const _ c _ (fun i _ => by simp)]

/-- The titles on a page of tiles: none. -/
theorem titles_pageEvents_tail (tileEv : Nat → Nat → Nat → List Event) (g : Geom)
    (count idx pn : Nat) (hidx : idx ≤ count)
    (hT : ∀ X Y i, i < count → (tileEv X Y i).filterMap Event.titleText = []) :
    titles (pageEvents tileEv g count idx pn).tail = [] := by
  have h1 : titles (pageEvents tileEv g count idx pn).tail =
      (pageEvents tileEv g count idx pn).filterMap Event.titleText := by
    unfold pageEvents titles
    rw [List.tail_cons, List.filterMap_cons]
    rfl
  rw [h1, filterMap_pageEvents Event.titleText (fun _ => []) tileEv g count rfl (fun _ => rfl)
    hT idx pn hidx]
  simp

/-- The outline of a title page followed by a run of pages of tiles, each
tile reading `cg` symbols of puzzle boards and `cs` symbols of solution boards. -/
theorem pageOutline_pagesEvents (tileEv : Nat → Nat → Nat → List Event) (g : Geom)
    (count np pn cg cs : Nat) (hA : ∀ X Y i, ∀ e ∈ tileEv X Y i, e.isAddPage = false)
    (hT : ∀ X Y i, i < count → (tileEv X Y i).filterMap Event.titleText = [])
    (hG : ∀ X Y i, i < count → (tileEv X Y i).countP (Event.readsField Field.game) = cg)
    (hS : ∀ X Y i, i < count → (tileEv X Y i).countP (Event.readsField Field.solution) = cs)
    (pre : List Event) (hpre : ∀ e ∈ pre, e.isAddPage = false) :
    pageOutline (Event.addPage :: (pre ++ pagesEvents tileEv g count np pn)) =
      pageSummary pre ::
        (List.range np).map (fun W =>
          ([], (min (g.nx * g.ny * (W + 1)) count - min (g.nx * g.ny * W) count) * cg,
            (min (g.nx * g.ny * (W + 1)) count - min (g.nx * g.ny * W) count) * cs)) := by
  unfold pageOutline pagesOf
  rw [splitPages, splitPages_append_of_no_addPage _ _ hpre, splitPages_pagesEvents _ _ _ _ _ hA]
  simp only [Event.isAddPage, if_true, List.append_nil, List.map_cons, List.map_map]
  congr 1
  apply List.map_congr_left
  intro W _
  have e : min (min (g.nx * g.ny * W) count + g.ny * g.nx) count =
      min (g.nx * g.ny * (W + 1)) count := by
    rw [Nat.mul_succ, Nat.mul_comm g.ny g.nx]
    omega
  show pageSummary (pageEvents tileEv g count (min (g.nx * g.ny * W) count) (pn + W)).tail = _
  unfold pageSummary
  rw [titles_pageEvents_tail tileEv g count _ _ (Nat.min_le_right _ _) hT,
    countP_pageEvents_tail_const _ cg tileEv g count _ _ (Nat.min_le_right _ _) rfl
      (fun _ => rfl) hG,
    countP_pageEvents_tail_const _ cs tileEv g count _ _ (Nat.min_le_right _ _) rfl
      (fun _ => rfl) hS, e]


theorem pageOutline_puzzleSectionEvents {recs : List Game}
    (hok : ∀ rec ∈ recs, 81 ≤ rec.game.length) (difficulty : String) (volume : Nat)
    (width height : ℚ) (nx ny pn : Nat)
    (hfit : nx * ny * puzzlePageCount recs.length ≤ recs.length) :
    pageOutline (puzzleSectionEvents recs difficulty volume width height nx ny pn) =
      ([difficulty ++ " Sudoku - Puzzles", "Volume #" ++ toString volume], 0, 0) ::
        List.replicate (puzzlePageCount recs.length) ([], nx * ny * 81, 0) := by
  unfold puzzleSectionEvents
  have h := pageOutline_pagesEvents
    (puzzleTileEv recs difficulty (geometry width height nx ny))
    (geometry width height nx ny) recs.length (puzzlePageCount recs.length) (pn + 1) 81 0
    (tileEvents_no_addPage_puzzle recs difficulty _)
    (by
      intro X Y i _
      unfold puzzleTileEv puzzleTileEvents
      rw [List.filterMap_cons, titleText_gridEvents]
      rfl)
    (fun X Y i hi => countP_readsField_puzzleTileEv hok difficulty _ Field.game X Y i hi)
    (fun X Y i hi => countP_readsField_puzzleTileEv hok difficulty _ Field.solution X Y i hi)
    [Event.title width height (difficulty ++ " Sudoku - Puzzles"),
      Event.title width height ("Volume #" ++ toString volume)]
    (by
      intro e he
      rcases List.mem_cons.mp he with h1 | h1
      · subst h1; rfl
      · rw [List.mem_singleton] at h1
        subst h1
        rfl)
  rw [List.cons_append, List.cons_append, List.nil_append] at h
  rw [h]
  congr 1
  rw [List.eq_replicate_iff]
  constructor
  · simp
  · intro b hb
    obtain ⟨W, hW, rfl⟩ := List.mem_map.mp hb
    rw [List.mem_range] at hW
    show ((List.nil : List String),
      (min (nx * ny * (W + 1)) recs.length - min (nx * ny * W) recs.length) * 81,
      (min (nx * ny * (W + 1)) recs.length - min (nx * ny * W) recs.length) * 0) = _
    have h1 : nx * ny * (W + 1) ≤ nx * ny * puzzlePageCount recs.length :=
      Nat.mul_le_mul_left _ hW
    have h2 : nx * ny * (W + 1) = nx * ny * W + nx * ny := Nat.mul_succ _ _
    have h3 : min (nx * ny * (W + 1)) recs.length - min (nx * ny * W) recs.length = nx * ny := by
      omega
    rw [h3, Nat.mul_zero]

theorem pageOutline_solutionSectionEvents {recs : List Game}
    (hok : ∀ rec ∈ recs, 81 ≤ rec.solution.length) (difficulty : String)
    (width height : ℚ) (pn : Nat) :
    pageOutline (solutionSectionEvents recs difficulty width height pn) =
      ([difficulty ++ " Sudoku - Solutions"], 0, 0) ::
        (List.range (solutionPageCount recs.length)).map
          (fun W => ([], 0, min 6 (recs.length - 6 * W) * 81)) := by
  unfold solutionSectionEvents
  have h := pageOutline_pagesEvents
    (solutionTileEv recs difficulty (geometry width height 2 3))
    (geometry width height 2 3) recs.length (solutionPageCount recs.length) (pn + 1) 0 81
    (tileEvents_no_addPage_solution recs difficulty _)
    (by
      intro X Y i _
      unfold solutionTileEv solutionTileEvents
      rw [List.filterMap_cons, titleText_gridEvents]
      rfl)
    (fun X Y i hi => countP_readsField_solutionTileEv hok difficulty _ Field.game X Y i hi)
    (fun X Y i hi => countP_readsField_solutionTileEv hok difficulty _ Field.solution X Y i hi)
    [Event.title width height (difficulty ++ " Sudoku - Solutions")]
    (by intro e he; rw [List.mem_singleton] at he; subst he; rfl)
  rw [List.singleton_append] at h
  rw [h]
  congr 1
  apply List.map_congr_left
  intro W _
  show ((List.nil : List String),
    (min (2 * 3 * (W + 1)) recs.length - min (2 * 3 * W) recs.length) * 0,
    (min (2 * 3 * (W + 1)) recs.length - min (2 * 3 * W) recs.length) * 81) = _
  have h3 : min (2 * 3 * (W + 1)) recs.length - min (2 * 3 * W) recs.length =
      min 6 (recs.length - 6 * W) := by omega
  rw [h3, Nat.mul_zero]

theorem pageOutline_append_of_head_empty (x y : List Event) (hy : (splitPages y).1 = []) :
    pageOutline (x ++ y) = pageOutline x ++ pageOutline y := by
  unfold pageOutline
  rw [pagesOf_append_of_head_empty x y hy, List.map_append]

theorem pageOutline_flatMap (F : Nat → List Event) (hF : ∀ K, (splitPages (F K)).1 = []) :
    ∀ l : List Nat, pageOutline (l.flatMap F) = l.flatMap (fun K => pageOutline (F K)) := by
  intro l
  unfold pageOutline
  rw [pagesOf_flatMap F hF l, List.map_flatMap]

/-- The outline of one band of a complete book. -/
theorem pageOutline_band {sudokus : List (List Game)}
    (hgame : ∀ recs ∈ sudokus, ∀ rec ∈ recs, 81 ≤ rec.game.length)
    (hsol : ∀ recs ∈ sudokus, ∀ rec ∈ recs, 81 ≤ rec.solution.length)
    (levels : Nat → String) (nx ny volume : Nat) (width height : ℚ)
    (hfit : ∀ recs ∈ sudokus, nx * ny * puzzlePageCount recs.length ≤ recs.length)
    (K : Nat) (hK : K < sudokus.length) :
    pageOutline (bandPuzzleEvents sudokus levels nx ny volume width height K ++
        bandSolutionEvents sudokus levels width height K) =
      bandOutline sudokus levels nx ny volume K := by
  have hrec : sudokus[K]? = some sudokus[K] := List.getElem?_eq_getElem hK
  have hmem : sudokus[K] ∈ sudokus := List.getElem_mem hK
  have hb : bandAt sudokus K = sudokus[K] := bandAt_of_getElem? hrec
  unfold bandPuzzleEvents bandSolutionEvents bandOutline
  rw [pageOutline_append_of_head_empty _ _ (splitPages_head_solutionSectionEvents _ _ _ _ _), hb,
    pageOutline_puzzleSectionEvents (hgame _ hmem) _ _ _ _ _ _ _ (hfit _ hmem),
    pageOutline_solutionSectionEvents (hsol _ hmem)]


theorem titles_append (a b : List Event) : titles (a ++ b) = titles a ++ titles b := by
  unfold titles
  rw [List.filterMap_append]

theorem titles_band (sudokus : List (List Game)) (levels : Nat → String) (nx ny volume : Nat)
    (width height : ℚ) (K : Nat) :
    titles (bandPuzzleEvents sudokus levels nx ny volume width height K ++
        bandSolutionEvents sudokus levels width height K) =
      [stringsTitle (levels K) ++ " Sudoku - Puzzles", "Volume #" ++ toString volume,
        stringsTitle (levels K) ++ " Sudoku - Solutions"] := by
  unfold bandPuzzleEvents bandSolutionEvents
  rw [titles_append, titles_puzzleSectionEvents, titles_solutionSectionEvents]
  rfl

theorem titles_flatMap (F : Nat → List Event) (l : List Nat) :
    titles (l.flatMap F) = l.flatMap (fun K => titles (F K)) := by
  unfold titles
  rw [List.filterMap_flatMap]

/-! ## The single-section program -/

theorem main_drawCell_eq_record (sudokus : List (List Char)) (g : Geom) (x0 y0 : ℚ)
    (i j : Nat) :
    Main.drawCell sudokus g x0 y0 i j =
      drawCell (sudokus.map Main.asRecord) Field.game g x0 y0 i j := by
  funext r
  unfold Main.drawCell drawCell
  rw [List.getElem?_map]
  cases sudokus[r.sudokuIndex]? with
  | none => rfl
  | some board => rfl

theorem main_drawGrid_eq_record (sudokus : List (List Char)) (g : Geom) (x0 y0 : ℚ) :
    Main.drawGrid sudokus g x0 y0 = drawGrid (sudokus.map Main.asRecord) Field.game g x0 y0 := by
  unfold Main.drawGrid drawGrid
  simp only [main_drawCell_eq_record]

theorem main_boardAt_of_lt {sudokus : List (List Char)} {idx : Nat} (h : idx < sudokus.length) :
    Main.boardAt sudokus idx = sudokus[idx] := by
  unfold Main.boardAt
  rw [List.getElem?_eq_getElem h]

/-- A tile whose board exists and has at least 81 symbols. -/
theorem main_tile_ok {sudokus : List (List Char)} (hok : ∀ b ∈ sudokus, 81 ≤ b.length)
    (g : Geom) (X Y idx pn : Nat) (hidx : idx < sudokus.length) :
    Main.tile sudokus g X Y ⟨idx, pn⟩ =
      ⟨Main.tileEvents sudokus g X Y idx, ⟨idx + 1, pn⟩, Flow.normal⟩ := by
  have hrec : (sudokus.map Main.asRecord)[(⟨idx, pn⟩ : Regs).sudokuIndex]? =
      some (Main.asRecord sudokus[idx]) := by
    show (sudokus.map Main.asRecord)[idx]? = _
    rw [List.getElem?_map, List.getElem?_eq_getElem hidx]
    rfl
  have h81 : 81 ≤ ((Main.asRecord sudokus[idx]).board Field.game).length :=
    hok _ (List.getElem_mem hidx)
  have hg := drawGrid_eq hrec Field.game g (Main.originX g X) (Main.originY g Y)
  simp only [h81, if_true] at hg
  unfold Main.tile Main.tileEvents
  simp only [block_cons, block_nil]
  rw [seq_of_normal (emit_apply _ _), main_drawGrid_eq_record, seq_of_normal hg,
    main_boardAt_of_lt hidx]
  simp [nextSudoku, seq, assign, skip, Game.board, Main.asRecord]

/-- A tile whose board does not exist: the label and the 20 lines are drawn,
then the first read panics. -/
theorem main_tile_no_board {sudokus : List (List Char)} {idx : Nat}
    (hidx : sudokus.length ≤ idx) (g : Geom) (X Y pn : Nat) :
    Main.tile sudokus g X Y ⟨idx, pn⟩ =
      ⟨Event.label (Main.originX g X) (Main.originY g Y - 3 * Main.margin) g.L
          (3 * Main.margin) "" (idx + 1) ::
        ((List.range 10).map (hLine g (Main.originX g X) (Main.originY g Y)) ++
          (List.range 10).map (vLine g (Main.originX g X) (Main.originY g Y)) ++
          [Event.read Field.game idx 0]),
        ⟨idx, pn⟩, Flow.panic⟩ := by
  have hrec : (sudokus.map Main.asRecord)[(⟨idx, pn⟩ : Regs).sudokuIndex]? = none := by
    show (sudokus.map Main.asRecord)[idx]? = _
    rw [List.getElem?_eq_none_iff, List.length_map]
    exact hidx
  have hg := drawGrid_no_record hrec Field.game g (Main.originX g X) (Main.originY g Y)
  unfold Main.tile
  simp only [block_cons, block_nil]
  rw [seq_of_normal (emit_apply _ _), main_drawGrid_eq_record, seq_of_panic hg]
  rfl

/-- A column of tiles that all have a board. -/
theorem main_column_ok {sudokus : List (List Char)} (hok : ∀ b ∈ sudokus, 81 ≤ b.length)
    (g : Geom) (X idx pn : Nat) (hidx : idx + g.ny ≤ sudokus.length) :
    block [forRange g.ny (fun Y => Main.tile sudokus g X Y), Main.footer g] ⟨idx, pn⟩ =
      ⟨Main.columnEvents sudokus g X idx pn, ⟨idx + g.ny, pn⟩, Flow.normal⟩ := by
  have hloop := forFrom_traj (fun Y => Main.tile sudokus g X Y) g.ny 0
    (fun t => ⟨idx + t, pn⟩) (fun t => Main.tileEvents sudokus g X t (idx + t))
    (by
      intro t htk
      rw [Nat.zero_add]
      exact main_tile_ok hok g X t (idx + t) pn (by omega))
  have hloop2 : forRange g.ny (fun Y => Main.tile sudokus g X Y) ⟨idx, pn⟩ =
      ⟨(List.range g.ny).flatMap (fun t => Main.tileEvents sudokus g X t (idx + t)),
        ⟨idx + g.ny, pn⟩, Flow.normal⟩ := hloop
  simp only [block_cons, block_nil]
  rw [seq_of_normal hloop2]
  simp [Main.columnEvents, Main.footer, seq, emit, skip]

/-- A page whose tiles all have a board. -/
theorem main_page_ok {sudokus : List (List Char)} (hok : ∀ b ∈ sudokus, 81 ≤ b.length)
    (g : Geom) (W idx pn : Nat) (hidx : idx + g.nx * g.ny ≤ sudokus.length) :
    Main.page sudokus g W ⟨idx, pn⟩ =
      ⟨Event.addPage :: Main.pageBody sudokus g idx pn, ⟨idx + g.nx * g.ny, pn + 1⟩,
        Flow.normal⟩ := by
  have hloop := forFrom_traj
    (fun X => block [forRange g.ny (fun Y => Main.tile sudokus g X Y), Main.footer g]) g.nx 0
    (fun X => ⟨idx + X * g.ny, pn + 1⟩)
    (fun X => Main.columnEvents sudokus g X (idx + X * g.ny) (pn + 1))
    (by
      intro X hX
      rw [Nat.zero_add]
      have hle : (X + 1) * g.ny ≤ g.nx * g.ny := Nat.mul_le_mul_right g.ny hX
      have hs : (X + 1) * g.ny = X * g.ny + g.ny := Nat.succ_mul X g.ny
      have hc := main_column_ok hok g X (idx + X * g.ny) (pn + 1) (by omega)
      beta_reduce
      rw [hc]
      simp only [Res.mk.injEq, Regs.mk.injEq, and_true, true_and]
      omega)
  simp only [Nat.zero_mul, Nat.add_zero] at hloop
  have hloop2 : forRange g.nx
      (fun X => block [forRange g.ny (fun Y => Main.tile sudokus g X Y), Main.footer g])
      ⟨idx, pn + 1⟩ =
      ⟨(List.range g.nx).flatMap
          (fun X => Main.columnEvents sudokus g X (idx + X * g.ny) (pn + 1)),
        ⟨idx + g.nx * g.ny, pn + 1⟩, Flow.normal⟩ := hloop
  unfold Main.pageBody
  show seq addPage (seq (Main.image g) (seq (Main.rotatedTitle g) (seq (forRange g.nx
    (fun X => block [forRange g.ny (fun Y => Main.tile sudokus g X Y), Main.footer g]))
    skip))) ⟨idx, pn⟩ = _
  rw [seq_of_normal (addPage_apply ⟨idx, pn⟩)]
  have hi : Main.image g ⟨idx, pn + 1⟩ =
      ⟨[Event.image Main.backgroundImage 0 0 g.width g.height], ⟨idx, pn + 1⟩, Flow.normal⟩ := rfl
  have ht : Main.rotatedTitle g ⟨idx, pn + 1⟩ =
      ⟨[Event.rotatedTitle 0 (g.height + 3 * Main.margin) g.height g.height (2 * Main.margin)
          Main.title], ⟨idx, pn + 1⟩, Flow.normal⟩ := rfl
  rw [seq_of_normal hi, seq_of_normal ht, seq_of_normal hloop2]
  simp [skip]

/-- The whole run of `createPDF` of `main.go` when the `nx * ny * np` boards it
reads exist and have at least 81 symbols. -/
theorem main_createPDF_ok {sudokus : List (List Char)} (hok : ∀ b ∈ sudokus, 81 ≤ b.length)
    (nx ny np : Nat) (width height : ℚ) (hfit : np * (nx * ny) ≤ sudokus.length) :
    Main.createPDF sudokus nx ny np width height =
      ⟨Main.bookEvents sudokus nx ny np width height, ⟨np * (nx * ny), 3 + np⟩,
        Flow.normal⟩ := by
  have hloop := forFrom_traj (Main.page sudokus (Main.geometry width height nx ny)) np 0
    (fun W => ⟨W * (nx * ny), 3 + W⟩)
    (fun W => Event.addPage ::
      Main.pageBody sudokus (Main.geometry width height nx ny) (W * (nx * ny)) (3 + W))
    (by
      intro W hW
      rw [Nat.zero_add]
      have hle : (W + 1) * (nx * ny) ≤ np * (nx * ny) := Nat.mul_le_mul_right _ hW
      have hs : (W + 1) * (nx * ny) = W * (nx * ny) + nx * ny := Nat.succ_mul W _
      have hp := main_page_ok hok (Main.geometry width height nx ny) W (W * (nx * ny)) (3 + W)
        (by
          show W * (nx * ny) + nx * ny ≤ sudokus.length
          omega)
      beta_reduce
      rw [hp]
      simp only [Res.mk.injEq, Regs.mk.injEq, and_true, true_and]
      constructor
      · show W * (nx * ny) + nx * ny = (W + 1) * (nx * ny)
        omega
      · omega)
  simp only [Nat.zero_mul, Nat.add_zero] at hloop
  have hloop2 : forRange np (Main.page sudokus (Main.geometry width height nx ny)) ⟨0, 3⟩ =
      ⟨(List.range np).flatMap (fun W => Event.addPage ::
          Main.pageBody sudokus (Main.geometry width height nx ny) (W * (nx * ny)) (3 + W)),
        ⟨np * (nx * ny), 3 + np⟩, Flow.normal⟩ := hloop
  have hpre : forRange 2 (fun _ => block [addPage,
        Main.image (Main.geometry width height nx ny)]) ⟨0, 0 + 1⟩ =
      ⟨[Event.addPage, Event.image Main.backgroundImage 0 0 width height, Event.addPage,
          Event.image Main.backgroundImage 0 0 width height], ⟨0, 3⟩, Flow.normal⟩ := rfl
  unfold Main.bookEvents
  show seq addPage (seq (forRange 2 (fun _ => block [addPage,
    Main.image (Main.geometry width height nx ny)])) (seq (forRange np
    (Main.page sudokus (Main.geometry width height nx ny))) skip)) ⟨0, 0⟩ = _
  rw [seq_of_normal (addPage_apply _), seq_of_normal hpre, seq_of_normal hloop2]
  simp [skip]

/-- Projection of a run of `main.go`: page furniture aside, the book is the
tiles of the cursor values `0` up to `np * (nx * ny)`, in order. -/
theorem main_filterMap_bookEvents {β : Type} (φ : Event → Option β) (P : Nat → List β)
    (sudokus : List (List Char)) (nx ny np : Nat) (width height : ℚ)
    (hA : φ Event.addPage = none) (hI : ∀ n x y w h, φ (Event.image n x y w h) = none)
    (hR : ∀ x y p w h t, φ (Event.rotatedTitle x y p w h t) = none)
    (hF : ∀ x y h pn, φ (Event.footer x y h pn) = none)
    (hT : ∀ g X Y idx, (Main.tileEvents sudokus g X Y idx).filterMap φ = P idx) :
    (Main.bookEvents sudokus nx ny np width height).filterMap φ =
      (List.range (np * (nx * ny))).flatMap P := by
  have hcol : ∀ g X idx pn, (Main.columnEvents sudokus g X idx pn).filterMap φ =
      (List.range g.ny).flatMap (fun Y => P (idx + Y)) := by
    intro g X idx pn
    unfold Main.columnEvents
    rw [List.filterMap_append, List.filterMap_flatMap]
    simp only [hT, List.filterMap_cons, hF, List.filterMap_nil, List.append_nil]
  have hpage : ∀ g idx pn, (Event.addPage :: Main.pageBody sudokus g idx pn).filterMap φ =
      (List.range (g.nx * g.ny)).flatMap (fun k => P (idx + k)) := by
    intro g idx pn
    unfold Main.pageBody
    rw [List.filterMap_cons, hA, List.filterMap_cons, hI, List.filterMap_cons, hR,
      List.filterMap_flatMap]
    simp only [hcol, Nat.add_assoc]
    exact flatMap_range_mul (fun k => P (idx + k)) g.ny g.nx
  unfold Main.bookEvents
  rw [List.filterMap_append, List.filterMap_flatMap]
  have hpre : [Event.addPage, Event.addPage, Event.image Main.backgroundImage 0 0 width height,
      Event.addPage, Event.image Main.backgroundImage 0 0 width height].filterMap φ = [] := by
    simp [hA, hI]
  rw [hpre, List.nil_append]
  simp only [hpage]
  exact flatMap_range_mul P (nx * ny) np

theorem main_labelNumbers_tileEvents (sudokus : List (List Char)) (g : Geom) (X Y idx : Nat) :
    (Main.tileEvents sudokus g X Y idx).filterMap Event.labelNumber = [idx + 1] := by
  unfold Main.tileEvents
  rw [List.filterMap_cons, labelNumbers_gridEvents]
  rfl

theorem main_readLog_tileEvents (sudokus : List (List Char)) (g : Geom) (X Y idx : Nat) :
    (Main.tileEvents sudokus g X Y idx).filterMap Event.readOf =
      (List.range (min ((Main.boardAt sudokus idx).length + 1) 81)).map
        (fun pos => (Field.game, idx, pos)) := by
  unfold Main.tileEvents
  rw [List.filterMap_cons, readLog_gridEvents]
  rfl

theorem main_tileEvents_no_addPage (sudokus : List (List Char)) (g : Geom) (X Y idx : Nat) :
    ∀ e ∈ Main.tileEvents sudokus g X Y idx, e.isAddPage = false := by
  intro e he
  unfold Main.tileEvents at he
  rcases List.mem_cons.mp he with h | h
  · subst h; rfl
  · rcases gridEvents_kinds _ _ _ _ _ _ e h with h1 | h1 | h1
    · cases e <;> first | rfl | exact absurd h1 (by simp [Event.isLine])
    · cases e <;> first | rfl | exact absurd h1 (by simp [Event.isRead])
    · cases e <;> first | rfl | exact absurd h1 (by simp [Event.isDigit])

theorem main_pageBody_no_addPage (sudokus : List (List Char)) (g : Geom) (idx pn : Nat) :
    ∀ e ∈ Main.pageBody sudokus g idx pn, e.isAddPage = false := by
  intro e he
  unfold Main.pageBody at he
  rcases List.mem_cons.mp he with h | h
  · subst h; rfl
  rcases List.mem_cons.mp h with h | h
  · subst h; rfl
  obtain ⟨X, _, hX⟩ := List.mem_flatMap.mp h
  unfold Main.columnEvents at hX
  rcases List.mem_append.mp hX with h1 | h1
  · obtain ⟨Y, _, hY⟩ := List.mem_flatMap.mp h1
    exact main_tileEvents_no_addPage sudokus g X Y _ e hY
  · rw [List.mem_singleton] at h1
    subst h1
    rfl

theorem countP_isLabel_eq (l : List Event) :
    l.countP Event.isLabel = (l.filterMap Event.labelNumber).length := by
  induction l with
  | nil => rfl
  | cons a l ih =>
    rw [List.countP_cons, List.filterMap_cons, ih]
    cases a <;> simp [Event.isLabel, Event.labelNumber]

/-- The labels of one page of `main.go`: one for each of the `nx * ny` tiles. -/
theorem main_countP_label_pageBody (sudokus : List (List Char)) (g : Geom) (idx pn : Nat) :
    (Main.pageBody sudokus g idx pn).countP Event.isLabel = g.nx * g.ny := by
  unfold Main.pageBody
  rw [List.countP_cons, List.countP_cons]
  have hcol : ∀ X i p, (Main.columnEvents sudokus g X i p).countP Event.isLabel = g.ny := by
    intro X i p
    unfold Main.columnEvents
    rw [List.countP_append, countP_flatMap_const Event.isLabel _ 1 _ (by
      intro Y _
      rw [countP_isLabel_eq, main_labelNumbers_tileEvents]
      rfl)]
    simp [Event.isLabel]
  rw [countP_flatMap_const Event.isLabel _ g.ny _ (fun X _ => hcol X _ _)]
  simp [Event.isLabel]

/-- The pages of a run of `main.go` and the grids on each of them. -/
theorem main_gridsPerPage_bookEvents (sudokus : List (List Char)) (nx ny np : Nat)
    (width height : ℚ) :
    gridsPerPage (Main.bookEvents sudokus nx ny np width height) =
      [0, 0, 0] ++ List.replicate np (nx * ny) := by
  have hpages := splitPages_flatMap_pages
    (fun W => Main.pageBody sudokus (Main.geometry width height nx ny) (W * (nx * ny)) (3 + W))
    (fun W => main_pageBody_no_addPage sudokus _ _ _) (List.range np)
  unfold gridsPerPage pagesOf Main.bookEvents
  rw [splitPages_append_of_head_empty _ (by rw [hpages]), hpages]
  show List.map (List.countP Event.isLabel) ([[], [_], [_]] ++ _) = _
  rw [List.map_append, List.map_map]
  congr 1
  rw [List.eq_replicate_iff]
  constructor
  · simp
  · intro b hb
    obtain ⟨W, _, rfl⟩ := List.mem_map.mp hb
    exact main_countP_label_pageBody sudokus _ _ _

/-- Go's wrap-around leaves a value that fits in an `int` unchanged. -/
theorem wrapInt_of_fits (z : Int) (h0 : -(2 ^ 63) ≤ z) (h1 : z < 2 ^ 63) : Main.wrapInt z = z := by
  unfold Main.wrapInt
  rw [Int.emod_eq_of_lt (by omega) (by omega)]
  omega

/-- Wrap-around is taken modulo `2 ^ 64`. -/
theorem wrapInt_add_mul (z k : Int) : Main.wrapInt (z + k * 2 ^ 64) = Main.wrapInt z := by
  unfold Main.wrapInt
  have e : z + k * 2 ^ 64 + 2 ^ 63 = z + 2 ^ 63 + k * 2 ^ 64 := by ring
  rw [e, Int.add_mul_emod_self]

theorem wrapInt_eq_add_mul (z : Int) : ∃ k : Int, Main.wrapInt z = z + k * 2 ^ 64 := by
  refine ⟨-((z + 2 ^ 63) / 2 ^ 64), ?_⟩
  unfold Main.wrapInt
  have h := Int.emod_add_ediv (z + 2 ^ 63) (2 ^ 64)
  linarith

/-- The number of boards asked of the generator is the product when the
product fits in an `int`. -/
theorem requested_of_fits (nx ny np : Nat) (h : nx * ny * np < 2 ^ 63) :
    Main.requested nx ny np = ((nx * ny * np : Nat) : Int) := by
  unfold Main.requested
  obtain ⟨k, hk⟩ := wrapInt_eq_add_mul ((nx : Int) * ny)
  have e : Main.wrapInt ((nx : Int) * ny) * np = (nx : Int) * ny * np + (k * np) * 2 ^ 64 := by
    rw [hk]
    ring
  rw [e, wrapInt_add_mul, wrapInt_of_fits]
  · push_cast
    ring
  · have h0 : (0 : Int) ≤ (nx : Int) * ny * np := by exact_mod_cast Nat.zero_le (nx * ny * np)
    exact le_trans (by norm_num) h0
  · have h2 : (((nx * ny * np : Nat) : Int)) < 2 ^ 63 := by exact_mod_cast h
    push_cast at h2
    exact h2

/-- A tile whose board has fewer than 81 symbols: the label and the 20 lines
are drawn, then the read of the first missing symbol panics. -/
theorem main_tile_short_board {sudokus : List (List Char)} {idx : Nat} {b : List Char}
    (hb : sudokus[idx]? = some b) (hlt : b.length < 81) (g : Geom) (X Y pn : Nat) :
    (Main.tile sudokus g X Y ⟨idx, pn⟩).flow = Flow.panic ∧
      Event.read Field.game idx 0 ∈ (Main.tile sudokus g X Y ⟨idx, pn⟩).events := by
  have hrec : (sudokus.map Main.asRecord)[(⟨idx, pn⟩ : Regs).sudokuIndex]? =
      some (Main.asRecord b) := by
    show (sudokus.map Main.asRecord)[idx]? = _
    rw [List.getElem?_map, hb]
    rfl
  have h81 : ¬ 81 ≤ ((Main.asRecord b).board Field.game).length := by
    show ¬ 81 ≤ b.length
    omega
  have hg := drawGrid_eq hrec Field.game g (Main.originX g X) (Main.originY g Y)
  simp only [h81, if_false] at hg
  have hrun : Main.tile sudokus g X Y ⟨idx, pn⟩ =
      ⟨Event.label (Main.originX g X) (Main.originY g Y - 3 * Main.margin) g.L
          (3 * Main.margin) "" (idx + 1) ::
        gridEvents Field.game idx g (Main.originX g X) (Main.originY g Y) b,
        ⟨idx, pn⟩, Flow.panic⟩ := by
    unfold Main.tile
    simp only [block_cons, block_nil]
    rw [seq_of_normal (emit_apply _ _), main_drawGrid_eq_record, seq_of_panic hg]
    rfl
  rw [hrun]
  refine ⟨rfl, List.mem_cons_of_mem _ ?_⟩
  unfold gridEvents
  refine List.mem_append_right _ (List.mem_flatMap.mpr ⟨0, List.mem_range.mpr (by omega), ?_⟩)
  unfold cellEvents
  split
  · exact List.mem_singleton.mpr rfl
  · split
    · exact List.mem_cons_self _ _
    · exact List.mem_singleton.mpr rfl

/-- When the board at index 0 is missing or has fewer than 81 symbols and there
is at least one tile to draw, `createPDF` of `main.go` panics in the first tile. -/
theorem main_createPDF_first_tile_panics (sudokus : List (List Char)) (nx ny np : Nat)
    (width height : ℚ) (hbad : ∀ b, sudokus[0]? = some b → b.length < 81)
    (hx : 0 < nx) (hy : 0 < ny) (hp : 0 < np) :
    (Main.createPDF sudokus nx ny np width height).flow = Flow.panic ∧
      Event.read Field.game 0 0 ∈ (Main.createPDF sudokus nx ny np width height).events := by
  have htile : ∀ X Y pn,
      (Main.tile sudokus (Main.geometry width height nx ny) X Y ⟨0, pn⟩).flow = Flow.panic ∧
      Event.read Field.game 0 0 ∈
        (Main.tile sudokus (Main.geometry width height nx ny) X Y ⟨0, pn⟩).events := by
    intro X Y pn
    cases h0 : sudokus[0]? with
    | none =>
      have hle : sudokus.length ≤ 0 := List.getElem?_eq_none_iff.mp h0
      rw [main_tile_no_board hle (Main.geometry width height nx ny) X Y pn]
      exact ⟨rfl, by simp⟩
    | some b => exact main_tile_short_board h0 (hbad b h0) _ X Y pn
  have hcol : ∀ X pn,
      (block [forRange ny (fun Y => Main.tile sudokus (Main.geometry width height nx ny) X Y),
        Main.footer (Main.geometry width height nx ny)] ⟨0, pn⟩).flow = Flow.panic ∧
      Event.read Field.game 0 0 ∈
        (block [forRange ny (fun Y => Main.tile sudokus (Main.geometry width height nx ny) X Y),
          Main.footer (Main.geometry width height nx ny)] ⟨0, pn⟩).events := by
    intro X pn
    exact seq_panics_with_left _ _ _ _
      (forFrom_panics_with (fun Y => Main.tile sudokus (Main.geometry width height nx ny) X Y)
        (Event.read Field.game 0 0) 0 ny 0 (fun _ => ⟨0, pn⟩) hy
        (by intro t ht; omega) (htile X 0 pn))
  have hpage : ∀ W pn,
      (Main.page sudokus (Main.geometry width height nx ny) W ⟨0, pn⟩).flow = Flow.panic ∧
      Event.read Field.game 0 0 ∈
        (Main.page sudokus (Main.geometry width height nx ny) W ⟨0, pn⟩).events := by
    intro W pn
    refine seq_panics_with_right addPage _ _ _ rfl ?_
    refine seq_panics_with_right (Main.image _) _ _ _ rfl ?_
    refine seq_panics_with_right (Main.rotatedTitle _) _ _ _ rfl ?_
    refine seq_panics_with_left _ _ _ _ ?_
    exact forFrom_panics_with
      (fun X => block [forRange ny
          (fun Y => Main.tile sudokus (Main.geometry width height nx ny) X Y),
        Main.footer (Main.geometry width height nx ny)])
      (Event.read Field.game 0 0) 0 nx 0 (fun _ => ⟨0, pn + 1⟩) hx
      (by intro t ht; omega) (hcol 0 (pn + 1))
  unfold Main.createPDF
  refine seq_panics_with_right addPage _ _ _ rfl ?_
  refine seq_panics_with_right _ _ _ _ rfl ?_
  refine seq_panics_with_left _ _ _ _ ?_
  exact forFrom_panics_with (Main.page sudokus (Main.geometry width height nx ny))
    (Event.read Field.game 0 0) 0 np 0 (fun _ => ⟨0, 3⟩) hp
    (by intro t ht; omega) (hpage 0 3)

/-! ## Every grid is drawn from the record its label names -/

theorem tiled_nil (tileEv : Nat → Nat → Nat → List Event) : Tiled tileEv [] :=
  ⟨[], (by intro p hp; cases hp), rfl⟩

theorem tiled_append (tileEv : Nat → Nat → Nat → List Event) (x y : List Event)
    (hx : Tiled tileEv x) (hy : Tiled tileEv y) : Tiled tileEv (x ++ y) := by
  obtain ⟨px, hpx, ex⟩ := hx
  obtain ⟨py, hpy, ey⟩ := hy
  refine ⟨px ++ py, ?_, ?_⟩
  · intro p hp
    rcases List.mem_append.mp hp with h | h
    · exact hpx p h
    · exact hpy p h
  · rw [List.flatMap_append, ex, ey]

theorem tiled_furniture (tileEv : Nat → Nat → Nat → List Event) (e : Event)
    (he : (e.isLabel || e.inGrid) = false) : Tiled tileEv [e] := by
  refine ⟨[Piece.furniture e], ?_, by simp [Piece.events]⟩
  intro p hp
  rw [List.mem_singleton] at hp
  subst hp
  simp only [Piece.wellFormed, he, Bool.not_false]

theorem tiled_tile (tileEv : Nat → Nat → Nat → List Event) (X Y idx : Nat) :
    Tiled tileEv (tileEv X Y idx) := by
  refine ⟨[Piece.tile X Y idx], ?_, by simp [Piece.events]⟩
  intro p hp
  rw [List.mem_singleton] at hp
  subst hp
  rfl

/-- Pages built from tiles whose traces have a property closed under
concatenation have that property, however the run ends. -/
theorem pages_rule (T : List Event → Prop) (hnil : T [])
    (happ : ∀ x y, T x → T y → T (x ++ y)) (hadd : T [Event.addPage]) (g : Geom)
    (hfoot : ∀ pn, T [footerEvent g pn]) (tile : Nat → Nat → Stmt)
    (ht : ∀ X Y r, T (tile X Y r).events) (np : Nat) (r : Regs) :
    T (forRange np (fun _ => block [addPage,
      forRange g.nx (fun X => block [forRange g.ny (fun Y => tile X Y), footer g])]) r).events := by
  have hrows : ∀ X r, T (forRange g.ny (fun Y => tile X Y) r).events := by
    intro X r
    exact (forFrom_rule T hnil happ (fun _ _ => True) (fun _ _ h => h)
      (fun Y => tile X Y) g.ny (fun Y r2 _ _ => ⟨ht X Y r2, trivial⟩) g.ny 0 r (by omega)
      trivial).1
  have hcols : ∀ r, T (forRange g.nx (fun X => block [
      forRange g.ny (fun Y => tile X Y), footer g]) r).events := by
    intro r
    exact (forFrom_rule T hnil happ (fun _ _ => True) (fun _ _ h => h)
      (fun X => block [forRange g.ny (fun Y => tile X Y), footer g]) g.nx
      (fun X r2 _ _ => then_footer_rule T happ g hfoot (fun _ => True) _ r2
        (hrows X r2) trivial)
      g.nx 0 r (by omega) trivial).1
  exact (forFrom_rule T hnil happ (fun _ _ => True) (fun _ _ h => h)
    (fun _ => block [addPage,
      forRange g.nx (fun X => block [forRange g.ny (fun Y => tile X Y), footer g])]) np
    (fun W r2 _ _ => after_addPage_rule T happ hadd (fun _ => True) _ r2 ⟨hcols _, trivial⟩)
    np 0 r (by omega) trivial).1

/-- The calls of a puzzle tile, however it ends: the label and the grid of the
board at the cursor (up to the first missing symbol). -/
theorem puzzleTile_events (recs : List Game) (difficulty : String) (g : Geom) (X Y : Nat)
    (r : Regs) :
    (puzzleTile recs difficulty g X Y r).events = puzzleTileEv recs difficulty g X Y r.sudokuIndex := by
  unfold puzzleTileEv
  cases hrec : recs[r.sudokuIndex]? with
  | none =>
    rw [puzzleTile_no_record hrec]
    have hb : boardAt recs Field.game r.sudokuIndex = [] := by
      unfold boardAt
      rw [hrec]
    rw [hb]
    rfl
  | some rec =>
    rw [puzzleTile_eq hrec, boardAt_of_getElem? hrec]
    split_ifs <;> rfl

/-- The calls of a solution tile, however it ends: nothing after the last
record, otherwise the label and the grid of the board at the cursor. -/
theorem solutionTile_events (recs : List Game) (difficulty : String) (g : Geom) (X Y : Nat)
    (r : Regs) :
    (solutionTile recs difficulty g X Y r).events = [] ∨
      (solutionTile recs difficulty g X Y r).events =
        solutionTileEv recs difficulty g X Y r.sudokuIndex := by
  unfold solutionTileEv
  cases hrec : recs[r.sudokuIndex]? with
  | none =>
    have hge : recs.length ≤ r.sudokuIndex := List.getElem?_eq_none_iff.mp hrec
    rw [solutionTile_done hge]
    exact Or.inl rfl
  | some rec =>
    rw [solutionTile_eq hrec, boardAt_of_getElem? hrec]
    right
    split_ifs <;> rfl

theorem gridEvents_inGrid (f : Field) (idx : Nat) (g : Geom) (x0 y0 : ℚ) (board : List Char) :
    ∀ e ∈ gridEvents f idx g x0 y0 board, e.inGrid = true := by
  intro e he
  unfold Event.inGrid
  rcases gridEvents_kinds f idx g x0 y0 board e he with h | h | h <;> simp [h]

theorem inGrid_not_label (e : Event) (h : e.inGrid = true) : e.isLabel = false := by
  cases e <;> first | rfl | exact absurd h (by simp [Event.inGrid, Event.isLine, Event.isRead, Event.isDigit])

theorem gridsOf_cons_of_not_label (e : Event) (es : List Event) (h : e.isLabel = false) :
    gridsOf (e :: es) = gridsOf es := by
  cases e <;> first | rfl | exact absurd h (by simp [Event.isLabel])

theorem gridsOf_append_of_inGrid (G rest : List Event) (hG : ∀ e ∈ G, e.inGrid = true) :
    gridsOf (G ++ rest) = gridsOf rest := by
  induction G with
  | nil => rfl
  | cons e G ih =>
    rw [List.cons_append, gridsOf_cons_of_not_label e _
      (inGrid_not_label e (hG e (List.mem_cons_self e G))),
      ih (fun x hx => hG x (List.mem_cons_of_mem e hx))]

theorem takeWhile_append_of_closed (p : Event → Bool) (G rest : List Event)
    (hG : ∀ e ∈ G, p e = true) (hrest : rest = [] ∨ ∃ e l, rest = e :: l ∧ p e = false) :
    (G ++ rest).takeWhile p = G := by
  induction G with
  | nil =>
    rcases hrest with h | ⟨e, l, h, he⟩
    · rw [h]; rfl
    · rw [h, List.nil_append, List.takeWhile_cons, he]
      rfl
  | cons a G ih =>
    rw [List.cons_append, List.takeWhile_cons, hG a (List.mem_cons_self a G),
      ih (fun x hx => hG x (List.mem_cons_of_mem a hx))]
    rfl

/-- A sequence of pieces is empty or starts with a call that is not part of a grid. -/
theorem pieces_start_closed (tileEv : Nat → Nat → Nat → List Event)
    (htile : ∀ X Y idx, ∃ lab G, tileEv X Y idx = lab :: G ∧ lab.inGrid = false) :
    ∀ ps : List Piece, (∀ p ∈ ps, p.wellFormed = true) →
      ps.flatMap (Piece.events tileEv) = [] ∨
        ∃ e l, ps.flatMap (Piece.events tileEv) = e :: l ∧ e.inGrid = false := by
  intro ps hps
  cases ps with
  | nil => exact Or.inl rfl
  | cons p ps =>
    right
    rw [List.flatMap_cons]
    cases p with
    | furniture e =>
      have hw := hps (Piece.furniture e) (List.mem_cons_self _ _)
      refine ⟨e, _, rfl, ?_⟩
      simp only [Piece.wellFormed, Bool.not_eq_true', Bool.or_eq_false_iff] at hw
      exact hw.2
    | tile X Y idx =>
      obtain ⟨lab, G, hG, hlab⟩ := htile X Y idx
      exact ⟨lab, G ++ ps.flatMap (Piece.events tileEv), by simp [Piece.events, hG], hlab⟩

/-- The grids of a sequence of pieces are the grids of its tiles. -/
theorem gridsOf_pieces (tileEv : Nat → Nat → Nat → List Event) (G : Nat → Nat → Nat → List Event)
    (htile : ∀ X Y idx, ∃ x y w h d,
      tileEv X Y idx = Event.label x y w h d (idx + 1) :: G X Y idx)
    (hG : ∀ X Y idx, ∀ e ∈ G X Y idx, e.inGrid = true) :
    ∀ ps : List Piece, (∀ p ∈ ps, p.wellFormed = true) →
      ∀ q ∈ gridsOf (ps.flatMap (Piece.events tileEv)),
        ∃ X Y idx, q = (idx + 1, G X Y idx) := by
  have hstart : ∀ X Y idx, ∃ lab G2, tileEv X Y idx = lab :: G2 ∧ lab.inGrid = false := by
    intro X Y idx
    obtain ⟨x, y, w, h, d, ht⟩ := htile X Y idx
    exact ⟨_, _, ht, rfl⟩
  intro ps
  induction ps with
  | nil => intro _ q hq; cases hq
  | cons p ps ih =>
    intro hps q hq
    have hps2 : ∀ p2 ∈ ps, p2.wellFormed = true :=
      fun p2 h2 => hps p2 (List.mem_cons_of_mem p h2)
    rw [List.flatMap_cons] at hq
    cases p with
    | furniture e =>
      have hw := hps (Piece.furniture e) (List.mem_cons_self _ _)
      simp only [Piece.wellFormed, Bool.not_eq_true', Bool.or_eq_false_iff] at hw
      have e1 : Piece.events tileEv (Piece.furniture e) ++ ps.flatMap (Piece.events tileEv) =
          e :: ps.flatMap (Piece.events tileEv) := rfl
      rw [e1, gridsOf_cons_of_not_label e _ hw.1] at hq
      exact ih hps2 q hq
    | tile X Y idx =>
      obtain ⟨x, y, w, h, d, ht⟩ := htile X Y idx
      have e1 : Piece.events tileEv (Piece.tile X Y idx) ++ ps.flatMap (Piece.events tileEv) =
          Event.label x y w h d (idx + 1) :: (G X Y idx ++ ps.flatMap (Piece.events tileEv)) := by
        show tileEv X Y idx ++ _ = _
        rw [ht]
        rfl
      rw [e1] at hq
      have e2 : gridsOf (Event.label x y w h d (idx + 1) ::
          (G X Y idx ++ ps.flatMap (Piece.events tileEv))) =
          (idx + 1, (G X Y idx ++ ps.flatMap (Piece.events tileEv)).takeWhile Event.inGrid) ::
            gridsOf (G X Y idx ++ ps.flatMap (Piece.events tileEv)) := rfl
      rw [e2, takeWhile_append_of_closed Event.inGrid _ _ (hG X Y idx)
        (pieces_start_closed tileEv hstart ps hps2),
        gridsOf_append_of_inGrid _ _ (hG X Y idx)] at hq
      rcases List.mem_cons.mp hq with h1 | h1
      · exact ⟨X, Y, idx, h1⟩
      · exact ih hps2 q h1

/-- The grids of a trace made of furniture and whole tiles. -/
theorem gridsOf_tiled (tileEv : Nat → Nat → Nat → List Event) (G : Nat → Nat → Nat → List Event)
    (htile : ∀ X Y idx, ∃ x y w h d,
      tileEv X Y idx = Event.label x y w h d (idx + 1) :: G X Y idx)
    (hG : ∀ X Y idx, ∀ e ∈ G X Y idx, e.inGrid = true) (es : List Event)
    (hes : Tiled tileEv es) :
    ∀ q ∈ gridsOf es, ∃ X Y idx, q = (idx + 1, G X Y idx) := by
  obtain ⟨ps, hps, rfl⟩ := hes
  exact gridsOf_pieces tileEv G htile hG ps hps

theorem map_fst_gridsOf (es : List Event) : (gridsOf es).map Prod.fst = labelNumbers es := by
  unfold labelNumbers
  induction es with
  | nil => rfl
  | cons e es ih =>
    cases e <;> simp [gridsOf, Event.labelNumber, ih]


/-- The trace of the puzzle section, however the run ends, is made of page
furniture and whole puzzle tiles. -/
theorem puzzleSection_tiled (recs : List Game) (difficulty : String) (volume : Nat)
    (width height : ℚ) (nx ny : Nat) (r : Regs) :
    Tiled (puzzleTileEv recs difficulty (geometry width height nx ny))
      (puzzleSection recs difficulty volume width height nx ny r).events := by
  have happ := tiled_append (puzzleTileEv recs difficulty (geometry width height nx ny))
  rw [puzzleSection_unfold]
  apply happ
  · apply happ [Event.addPage]
    · exact tiled_furniture _ _ rfl
    · apply happ [Event.title _ _ _] [Event.title _ _ _]
      · exact tiled_furniture _ _ rfl
      · exact tiled_furniture _ _ rfl
  · exact pages_rule _ (tiled_nil _) happ (tiled_furniture _ _ rfl) (geometry width height nx ny)
      (fun pn => tiled_furniture _ _ rfl)
      (fun X Y => puzzleTile recs difficulty (geometry width height nx ny) X Y)
      (by
        intro X Y r2
        rw [puzzleTile_events]
        exact tiled_tile _ X Y _) _ _

/-- The trace of the solution section, however the run ends, is made of page
furniture and whole solution tiles. -/
theorem solutionSection_tiled (recs : List Game) (difficulty : String)
    (width height : ℚ) (r : Regs) :
    Tiled (solutionTileEv recs difficulty (geometry width height 2 3))
      (solutionSection recs difficulty width height r).events := by
  have happ := tiled_append (solutionTileEv recs difficulty (geometry width height 2 3))
  rw [solutionSection_unfold]
  apply happ
  · apply happ [Event.addPage] [Event.title _ _ _]
    · exact tiled_furniture _ _ rfl
    · exact tiled_furniture _ _ rfl
  · exact pages_rule _ (tiled_nil _) happ (tiled_furniture _ _ rfl) (geometry width height 2 3)
      (fun pn => tiled_furniture _ _ rfl)
      (fun X Y => solutionTile recs difficulty (geometry width height 2 3) X Y)
      (by
        intro X Y r2
        rcases solutionTile_events recs difficulty (geometry width height 2 3) X Y r2 with h | h
        · rw [h]
          exact tiled_nil _
        · rw [h]
          exact tiled_tile _ X Y _) _ _

theorem labelNumbers_puzzleSectionEvents (recs : List Game) (difficulty : String) (volume : Nat)
    (width height : ℚ) (nx ny pn : Nat) :
    labelNumbers (puzzleSectionEvents recs difficulty volume width height nx ny pn) =
      (List.range (min (nx * ny * puzzlePageCount recs.length) recs.length)).map
        (fun idx => idx + 1) := by
  unfold labelNumbers puzzleSectionEvents
  rw [List.filterMap_cons, List.filterMap_cons, List.filterMap_cons,
    filterMap_pagesEvents Event.labelNumber (fun idx => [idx + 1]) _ _ _ rfl (fun _ => rfl)
      (fun X Y idx _ => labelNumbers_puzzleTileEv recs difficulty _ X Y idx),
    List.map_eq_flatMap]
  rfl

theorem labelNumbers_solutionSectionEvents (recs : List Game) (difficulty : String)
    (width height : ℚ) (pn : Nat) :
    labelNumbers (solutionSectionEvents recs difficulty width height pn) =
      (List.range recs.length).map (fun idx => idx + 1) := by
  have hcov := solutionPageCount_covers recs.length
  have hmin : min (2 * 3 * solutionPageCount recs.length) recs.length = recs.length := by omega
  unfold labelNumbers solutionSectionEvents
  rw [List.filterMap_cons, List.filterMap_cons,
    filterMap_pagesEvents Event.labelNumber (fun idx => [idx + 1]) _ _ _ rfl (fun _ => rfl)
      (fun X Y idx _ => labelNumbers_solutionTileEv recs difficulty _ X Y idx),
    List.map_eq_flatMap]
  show (List.range (min (2 * 3 * solutionPageCount recs.length) recs.length)).flatMap _ = _
  rw [hmin]

/-- For every band of `count` records and every layout whose `count / 2` puzzle
pages of `nx * ny` tiles fit in the records, every record index evaluated in
the puzzle section is below `count` and the cursor ends at or below `count`;
in the solution section, whose loop has the guard `sudokuIndex >= count`, the
same holds for every band. -/
theorem sections_read_below_count (recs : List Game) (difficulty : String) (volume : Nat)
    (width height : ℚ) (nx ny : Nat) (r : Regs)
    (hfit : puzzlePageCount recs.length * (nx * ny) ≤ recs.length) :
    readsBelow recs.length (puzzleSection recs difficulty volume width height nx ny r).events ∧
    (puzzleSection recs difficulty volume width height nx ny r).regs.sudokuIndex ≤ recs.length ∧
    readsBelow recs.length (solutionSection recs difficulty width height r).events ∧
    (solutionSection recs difficulty width height r).regs.sudokuIndex ≤ recs.length := by
  have hp := puzzlePages_reads recs difficulty (geometry width height nx ny) (r.pageNo + 1) hfit
  have hs := solutionPages_reads recs difficulty (geometry width height 2 3) (r.pageNo + 1)
  rw [puzzleSection_unfold, solutionSection_unfold]
  refine ⟨?_, ?_, ?_, hs.2⟩
  · apply readsBelow_append _ _ _ _ hp.1
    intro e he
    simp only [List.mem_cons, List.mem_singleton, List.not_mem_nil, or_false] at he
    rcases he with he | he | he <;> subst he <;> rfl
  · exact Nat.le_trans hp.2 hfit
  · apply readsBelow_append _ _ _ _ hs.1
    intro e he
    simp only [List.mem_cons, List.mem_singleton, List.not_mem_nil, or_false] at he
    rcases he with he | he <;> subst he <;> rfl

/-- For a band whose count is an exact multiple of the tile capacity of the
section, 2 for the puzzle section laid out with `nx * ny = 2` and 6 for the
solution section (layout 2 x 3), the section has, after its title page, exactly
`count / capacity` pages, every one of them with `capacity` grids, and no
further page. -/
theorem exact_multiple_full_pages (recs : List Game) (difficulty : String) (volume : Nat)
    (width height : ℚ) (nx ny : Nat) (r : Regs) :
    ((∀ rec ∈ recs, 81 ≤ rec.game.length) → nx * ny = 2 → recs.length % (nx * ny) = 0 →
      (puzzleSection recs difficulty volume width height nx ny r).flow = Flow.normal ∧
      (puzzleSection recs difficulty volume width height nx ny r).regs.sudokuIndex =
        recs.length ∧
      gridsPerPage (puzzleSection recs difficulty volume width height nx ny r).events =
        0 :: List.replicate (recs.length / (nx * ny)) (nx * ny) ∧
      (puzzleSection recs difficulty volume width height nx ny r).events.countP Event.isAddPage =
        1 + recs.length / (nx * ny)) ∧
    ((∀ rec ∈ recs, 81 ≤ rec.solution.length) → recs.length % 6 = 0 →
      (solutionSection recs difficulty width height r).flow = Flow.normal ∧
      (solutionSection recs difficulty width height r).regs.sudokuIndex = recs.length ∧
      gridsPerPage (solutionSection recs difficulty width height r).events =
        0 :: List.replicate (recs.length / 6) 6 ∧
      (solutionSection recs difficulty width height r).events.countP Event.isAddPage =
        1 + recs.length / 6) := by
  constructor
  · intro hgame hcap hdiv
    rw [hcap] at hdiv ⊢
    have hnp : puzzlePageCount recs.length = recs.length / 2 := rfl
    have hfit : nx * ny * puzzlePageCount recs.length ≤ recs.length := by
      rw [hcap, hnp]
      omega
    rw [puzzleSection_ok hgame difficulty volume width height nx ny r hfit]
    refine ⟨rfl, ?_, ?_, ?_⟩
    · show nx * ny * puzzlePageCount recs.length = recs.length
      rw [hcap, hnp]
      omega
    · show gridsPerPage (puzzleSectionEvents recs difficulty volume width height nx ny r.pageNo) = _
      rw [gridsPerPage_puzzleSectionEvents, hcap, hnp]
      congr 1
      rw [List.eq_replicate_iff]
      constructor
      · simp
      · intro b hb
        obtain ⟨W, hW, hb⟩ := List.mem_map.mp hb
        have hW2 : W < recs.length / 2 := List.mem_range.mp hW
        omega
    · show (puzzleSectionEvents recs difficulty volume width height nx ny r.pageNo).countP
        Event.isAddPage = _
      rw [countP_addPage_puzzleSectionEvents, hnp]
  · intro hsol hdiv
    have hnp : solutionPageCount recs.length = recs.length / 6 := by
      unfold solutionPageCount
      rw [if_neg (by omega)]
    rw [solutionSection_ok hsol difficulty width height r]
    refine ⟨rfl, rfl, ?_, ?_⟩
    · show gridsPerPage (solutionSectionEvents recs difficulty width height r.pageNo) = _
      rw [gridsPerPage_solutionSectionEvents, hnp]
      congr 1
      rw [List.eq_replicate_iff]
      constructor
      · simp
      · intro b hb
        obtain ⟨W, hW, hb⟩ := List.mem_map.mp hb
        have hW2 : W < recs.length / 6 := List.mem_range.mp hW
        omega
    · show (solutionSectionEvents recs difficulty width height r.pageNo).countP
        Event.isAddPage = _
      rw [countP_addPage_solutionSectionEvents, hnp]

/-! ## Claims -/

/-- C1 (code at the failing input): for a band of 101 records laid out 1 x 2
the puzzle pages are `101 / 2 = 50`, not 51: the loop adds 50 pages and labels
`#1 .. #100`, so record 100 gets no puzzle grid, while the solution pages, which
do add one for the remainder, are 17. -/
theorem C1_puzzle_pages_round_down :
    puzzlePageCount 101 = 50 ∧ solutionPageCount 101 = 17 ∧
    (puzzlePages (List.replicate 101 sampleGame) "Easy"
      (geometry (2159 / 10) (2794 / 10) 1 2) ⟨0, 5⟩).events.countP Event.isAddPage = 50 ∧
    labelNumbers (puzzlePages (List.replicate 101 sampleGame) "Easy"
      (geometry (2159 / 10) (2794 / 10) 1 2) ⟨0, 5⟩).events =
        (List.range 100).map (fun idx => idx + 1) ∧
    (solutionPages (List.replicate 101 sampleGame) "Easy"
      (geometry (2159 / 10) (2794 / 10) 2 3) ⟨0, 56⟩).events.countP Event.isAddPage = 17 := by
  have hlen : (List.replicate 101 sampleGame).length = 101 := List.length_replicate 101 sampleGame
  have hfit : (geometry (2159 / 10) (2794 / 10) 1 2).nx * (geometry (2159 / 10) (2794 / 10) 1 2).ny *
      puzzlePageCount (List.replicate 101 sampleGame).length ≤
      (List.replicate 101 sampleGame).length := by
    rw [hlen]
    decide
  refine ⟨by decide, by decide, ?_, ?_, ?_⟩
  · rw [puzzlePages_ok (sample_boards_ok 101).1 "Easy" _ 5 hfit]
    show (pagesEvents _ _ _ _ _).countP Event.isAddPage = 50
    rw [countP_addPage_pagesEvents _ _ _ _ _ (tileEvents_no_addPage_puzzle _ "Easy" _), hlen]
    decide
  · rw [puzzlePages_ok (sample_boards_ok 101).1 "Easy" _ 5 hfit]
    show (pagesEvents _ _ _ _ _).filterMap Event.labelNumber = _
    rw [filterMap_pagesEvents Event.labelNumber (fun i => [i + 1]) _ _ _ rfl (fun _ => rfl)
        (fun X Y i _ => labelNumbers_puzzleTileEv _ "Easy" _ X Y i),
      ← List.map_eq_flatMap, hlen]
    rfl
  · rw [solutionPages_ok (sample_boards_ok 101).2 "Easy" _ 56]
    show (pagesEvents _ _ _ _ _).countP Event.isAddPage = 17
    rw [countP_addPage_pagesEvents _ _ _ _ _ (tileEvents_no_addPage_solution _ "Easy" _), hlen]
    decide

/-- C2 (code at the failing input): with a band of 2 records and the layout
1 x 3 (both at least 1) the single puzzle page has three tiles and no guard:
the third one evaluates `sudokus[K][2]`, an index that is not below the count
2, and the run panics there; the solution section of the same band, whose loop
has the guard `sudokuIndex >= count`, reads only indices below 2 and ends
normally. -/
theorem C2_tall_layout_reads_past_count :
    [sampleGame, sampleGame].length = 2 ∧
    Event.read Field.game 2 0 ∈
      (puzzleSection [sampleGame, sampleGame] "Easy" 1 (2159 / 10) (2794 / 10) 1 3 ⟨0, 4⟩).events ∧
    (puzzleSection [sampleGame, sampleGame] "Easy" 1 (2159 / 10) (2794 / 10) 1 3 ⟨0, 4⟩).flow =
      Flow.panic ∧
    readsBelow 2
      (solutionSection [sampleGame, sampleGame] "Easy" (2159 / 10) (2794 / 10) ⟨0, 4⟩).events ∧
    (solutionSection [sampleGame, sampleGame] "Easy" (2159 / 10) (2794 / 10) ⟨0, 4⟩).flow =
      Flow.normal := by
  have hok : ∀ rec ∈ [sampleGame, sampleGame], 81 ≤ rec.game.length := by decide
  have hnone : ([sampleGame, sampleGame] : List Game)[(⟨2, 6⟩ : Regs).sudokuIndex]? = none := rfl
  have htile2 := puzzleTile_no_record hnone "Easy" (geometry (2159 / 10) (2794 / 10) 1 3) 0 2
  have hrow := forFrom_panics_with
    (fun Y => puzzleTile [sampleGame, sampleGame] "Easy" (geometry (2159 / 10) (2794 / 10) 1 3) 0 Y)
    (Event.read Field.game 2 0) 2 3 0 (fun t => ⟨t, 6⟩) (by decide)
    (by
      intro t ht
      have h := puzzleTile_ok hok "Easy" (geometry (2159 / 10) (2794 / 10) 1 3) 0 t t 6
        (show t < 2 from ht)
      rw [Nat.zero_add]
      beta_reduce
      rw [h]
      exact ⟨rfl, rfl⟩)
    (by
      rw [Nat.zero_add]
      beta_reduce
      rw [htile2]
      exact ⟨rfl, by simp⟩)
  have hcol := seq_panics_with_left _
    (block [footer (geometry (2159 / 10) (2794 / 10) 1 3)]) _ _ hrow
  have hcols := forFrom_panics_with
    (fun X => block [forRange 3 (fun Y => puzzleTile [sampleGame, sampleGame] "Easy"
      (geometry (2159 / 10) (2794 / 10) 1 3) X Y), footer (geometry (2159 / 10) (2794 / 10) 1 3)])
    (Event.read Field.game 2 0) 0 1 0 (fun _ => ⟨0, 6⟩) (by decide)
    (by intro t ht; cases ht) hcol
  have hpage := seq_panics_with_right addPage
    (block [forRange 1 (fun X => block [forRange 3 (fun Y => puzzleTile [sampleGame, sampleGame]
      "Easy" (geometry (2159 / 10) (2794 / 10) 1 3) X Y),
      footer (geometry (2159 / 10) (2794 / 10) 1 3)])]) ⟨0, 5⟩ (Event.read Field.game 2 0) rfl
    (by
      show (seq _ skip _).flow = Flow.panic ∧ _ ∈ (seq _ skip _).events
      rw [seq_skip_right]
      exact hcols)
  have hpages := forFrom_panics_with
    (puzzlePage [sampleGame, sampleGame] "Easy" (geometry (2159 / 10) (2794 / 10) 1 3))
    (Event.read Field.game 2 0) 0 1 0 (fun _ => ⟨0, 5⟩) (by decide)
    (by intro t ht; cases ht) hpage
  have hsol := (sections_read_below_count [sampleGame, sampleGame] "Easy" 1 (2159 / 10)
    (2794 / 10) 1 2 ⟨0, 4⟩ (by decide)).2.2.1
  have hok2 : ∀ rec ∈ [sampleGame, sampleGame], 81 ≤ rec.solution.length := by decide
  have hsolrun := solutionSection_ok hok2 "Easy" (2159 / 10) (2794 / 10) ⟨0, 4⟩
  refine ⟨rfl, ?_, ?_, hsol, ?_⟩
  · rw [puzzleSection_unfold]
    exact List.mem_append_right _ hpages.2
  · rw [puzzleSection_unfold]
    exact hpages.1
  · rw [hsolrun]

/-- C3: for every band, every layout and every start state, however the run
ends, every grid of the puzzle section is a label `#m` followed by exactly the
calls of the grid of the puzzle board of record `m - 1` (20 lines, then for
each cell in order the evaluation of that board at the cell's index and, unless
the symbol is `.`, the digit cell showing it), and every grid of the solution
section is a label `#m` followed by exactly the calls of the grid of the
solution board of the same record `m - 1`; a board of at least 81 symbols gives
the 81 evaluations and one digit cell for each symbol other than `.`, at its
cell; in a run without panic the labels are `#1, #2, ...` in order (all records
in the solution section); so puzzle `#m` and solution `#m` come from the same
record, whatever the order of the records is. -/
theorem C3_label_names_the_record_drawn (recs : List Game) (difficulty : String)
    (volume : Nat) (width height : ℚ) (nx ny : Nat) (r : Regs) :
    (∀ q ∈ gridsOf (puzzleSection recs difficulty volume width height nx ny r).events,
      ∃ X Y idx, q = (idx + 1,
        gridEvents Field.game idx (geometry width height nx ny)
          (originX (geometry width height nx ny) X) (originY (geometry width height nx ny) Y)
          (boardAt recs Field.game idx))) ∧
    (∀ q ∈ gridsOf (solutionSection recs difficulty width height r).events,
      ∃ X Y idx, q = (idx + 1,
        gridEvents Field.solution idx (geometry width height 2 3)
          (originX (geometry width height 2 3) X) (originY (geometry width height 2 3) Y)
          (boardAt recs Field.solution idx))) ∧
    (∀ idx rec, recs[idx]? = some rec →
      boardAt recs Field.game idx = rec.game ∧ boardAt recs Field.solution idx = rec.solution) ∧
    (∀ (f : Field) (idx : Nat) (g : Geom) (x0 y0 : ℚ) (board : List Char), 81 ≤ board.length →
      readLog (gridEvents f idx g x0 y0 board) = (List.range 81).map (fun pos => (f, idx, pos)) ∧
      (gridEvents f idx g x0 y0 board).filter Event.isDigit =
        (List.range 81).filterMap (digitEventAt g x0 y0 board) ∧
      (gridEvents f idx g x0 y0 board).countP Event.isLine = 20) ∧
    ((∀ rec ∈ recs, 81 ≤ rec.game.length) →
      nx * ny * puzzlePageCount recs.length ≤ recs.length →
      (gridsOf (puzzleSection recs difficulty volume width height nx ny r).events).map Prod.fst =
        (List.range (nx * ny * puzzlePageCount recs.length)).map (fun idx => idx + 1)) ∧
    ((∀ rec ∈ recs, 81 ≤ rec.solution.length) →
      (gridsOf (solutionSection recs difficulty width height r).events).map Prod.fst =
        (List.range recs.length).map (fun idx => idx + 1)) ∧
    faithful recs Field.game
      (puzzleSection recs difficulty volume width height nx ny r).events = true ∧
    faithful recs Field.solution
      (solutionSection recs difficulty width height r).events = true := by
  refine ⟨?_, ?_, ?_, ?_, ?_, ?_, ?_, ?_⟩
  · exact gridsOf_tiled (puzzleTileEv recs difficulty (geometry width height nx ny))
      (fun X Y idx => gridEvents Field.game idx (geometry width height nx ny)
        (originX (geometry width height nx ny) X) (originY (geometry width height nx ny) Y)
        (boardAt recs Field.game idx))
      (fun X Y idx => ⟨_, _, _, _, _, rfl⟩)
      (fun X Y idx => gridEvents_inGrid _ _ _ _ _ _) _
      (puzzleSection_tiled recs difficulty volume width height nx ny r)
  · exact gridsOf_tiled (solutionTileEv recs difficulty (geometry width height 2 3))
      (fun X Y idx => gridEvents Field.solution idx (geometry width height 2 3)
        (originX (geometry width height 2 3) X) (originY (geometry width height 2 3) Y)
        (boardAt recs Field.solution idx))
      (fun X Y idx => ⟨_, _, _, _, _, rfl⟩)
      (fun X Y idx => gridEvents_inGrid _ _ _ _ _ _) _
      (solutionSection_tiled recs difficulty width height r)
  · intro idx rec hrec
    exact ⟨boardAt_of_getElem? hrec Field.game, boardAt_of_getElem? hrec Field.solution⟩
  · intro f idx g x0 y0 board h81
    have hm : min (board.length + 1) 81 = 81 := by omega
    refine ⟨?_, ?_, countP_line_gridEvents f idx g x0 y0 board⟩
    · unfold readLog
      rw [readLog_gridEvents, hm]
    · rw [filter_digit_gridEvents, hm]
  · intro hok hfit
    rw [map_fst_gridsOf, puzzleSection_ok hok difficulty volume width height nx ny r hfit]
    show labelNumbers (puzzleSectionEvents recs difficulty volume width height nx ny r.pageNo) = _
    rw [labelNumbers_puzzleSectionEvents, Nat.min_eq_left hfit]
  · intro hok
    rw [map_fst_gridsOf, solutionSection_ok hok difficulty width height r]
    show labelNumbers (solutionSectionEvents recs difficulty width height r.pageNo) = _
    rw [labelNumbers_solutionSectionEvents]
  · rw [puzzleSection_unfold]
    apply accepted_append recs Field.game
    · apply accepted_append recs Field.game [Event.addPage]
      · exact accepted_single recs _ _ (Or.inl rfl)
      · apply accepted_append recs Field.game [Event.title _ _ _] [Event.title _ _ _]
        · exact accepted_single recs _ _ (Or.inr (Or.inr ⟨_, _, _, rfl⟩))
        · exact accepted_single recs _ _ (Or.inr (Or.inr ⟨_, _, _, rfl⟩))
    · exact pages_accepted recs Field.game
        (fun X Y => puzzleTile recs difficulty (geometry width height nx ny) X Y)
        (geometry width height nx ny)
        (fun X Y r2 => puzzleTile_accepted recs difficulty _ X Y r2) _ _
  · rw [solutionSection_unfold]
    apply accepted_append recs Field.solution
    · apply accepted_append recs Field.solution [Event.addPage] [Event.title _ _ _]
      · exact accepted_single recs _ _ (Or.inl rfl)
      · exact accepted_single recs _ _ (Or.inr (Or.inr ⟨_, _, _, rfl⟩))
    · exact pages_accepted recs Field.solution
        (fun X Y => solutionTile recs difficulty (geometry width height 2 3) X Y)
        (geometry width height 2 3)
        (fun X Y r2 => solutionTile_accepted recs difficulty _ X Y r2) _ _

/-- Witness of C3: a band of two copies of the sample record laid out 1 x 2:
the puzzle section has the grids `#1` and `#2`, and so has the solution section. -/
theorem C3_label_names_the_record_drawn_witness :
    (gridsOf (puzzleSection [sampleGame, sampleGame] "Easy" 1 (2159 / 10) (2794 / 10) 1 2
      ⟨0, 4⟩).events).map Prod.fst = [1, 2] ∧
    (gridsOf (solutionSection [sampleGame, sampleGame] "Easy" (2159 / 10) (2794 / 10)
      ⟨0, 4⟩).events).map Prod.fst = [1, 2] :=
  ⟨(C3_label_names_the_record_drawn [sampleGame, sampleGame] "Easy" 1 (2159 / 10)
      (2794 / 10) 1 2 ⟨0, 4⟩).2.2.2.2.1 (by decide) (by decide),
   (C3_label_names_the_record_drawn [sampleGame, sampleGame] "Easy" 1 (2159 / 10)
      (2794 / 10) 1 2 ⟨0, 4⟩).2.2.2.2.2.1 (by decide)⟩

/-- C4 (code at the failing input): for a band of 3 records laid out 1 x 2 the
puzzle section ends with the cursor at 2, not 3: it draws the grids `#1` and
`#2` and never reads record 2, whose solution the solution section does draw
as `#3`. -/
theorem C4_odd_count_last_puzzle_skipped :
    (puzzleSection (List.replicate 3 sampleGame) "Easy" 1 (2159 / 10) (2794 / 10) 1 2
      ⟨0, 4⟩).flow = Flow.normal ∧
    (puzzleSection (List.replicate 3 sampleGame) "Easy" 1 (2159 / 10) (2794 / 10) 1 2
      ⟨0, 4⟩).regs.sudokuIndex = 2 ∧
    labelNumbers (puzzleSection (List.replicate 3 sampleGame) "Easy" 1 (2159 / 10) (2794 / 10) 1 2
      ⟨0, 4⟩).events = [1, 2] ∧
    readLog (puzzleSection (List.replicate 3 sampleGame) "Easy" 1 (2159 / 10) (2794 / 10) 1 2
      ⟨0, 4⟩).events =
        (List.range 2).flatMap (fun idx => (List.range 81).map (fun pos => (Field.game, idx, pos))) ∧
    labelNumbers (solutionSection (List.replicate 3 sampleGame) "Easy" (2159 / 10) (2794 / 10)
      ⟨2, 6⟩).events = [1, 2, 3] := by
  have hlen : (List.replicate 3 sampleGame).length = 3 := List.length_replicate 3 sampleGame
  have hfit : 1 * 2 * puzzlePageCount (List.replicate 3 sampleGame).length ≤
      (List.replicate 3 sampleGame).length := by
    rw [hlen]
    decide
  have hmin : min ((geometry (2159 / 10) (2794 / 10) 1 2).nx *
      (geometry (2159 / 10) (2794 / 10) 1 2).ny *
      puzzlePageCount (List.replicate 3 sampleGame).length)
      (List.replicate 3 sampleGame).length = 2 := by
    rw [hlen]
    decide
  rw [puzzleSection_ok (sample_boards_ok 3).1 "Easy" 1 _ _ 1 2 ⟨0, 4⟩ hfit,
    solutionSection_ok (sample_boards_ok 3).2 "Easy" _ _ ⟨2, 6⟩]
  refine ⟨rfl, ?_, ?_, ?_, ?_⟩
  · show 1 * 2 * puzzlePageCount (List.replicate 3 sampleGame).length = 2
    rw [hlen]
    decide
  · show (puzzleSectionEvents _ _ _ _ _ _ _ _).filterMap Event.labelNumber = _
    unfold puzzleSectionEvents
    rw [List.filterMap_cons, List.filterMap_cons, List.filterMap_cons,
      filterMap_pagesEvents Event.labelNumber (fun i => [i + 1]) _ _ _ rfl (fun _ => rfl)
        (fun X Y i _ => labelNumbers_puzzleTileEv _ "Easy" _ X Y i),
      hmin]
    rfl
  · show (puzzleSectionEvents _ _ _ _ _ _ _ _).filterMap Event.readOf = _
    unfold puzzleSectionEvents
    rw [List.filterMap_cons, List.filterMap_cons, List.filterMap_cons,
      filterMap_pagesEvents Event.readOf
        (fun idx => (List.range 81).map (fun pos => (Field.game, idx, pos))) _ _ _
        rfl (fun _ => rfl)
        (fun X Y i hi => readLog_puzzleTileEv (sample_boards_ok 3).1 "Easy" _ X Y i hi),
      hmin]
    rfl
  · show (solutionSectionEvents _ _ _ _ _).filterMap Event.labelNumber = _
    unfold solutionSectionEvents
    rw [List.filterMap_cons, List.filterMap_cons,
      filterMap_pagesEvents Event.labelNumber (fun i => [i + 1]) _ _ _ rfl (fun _ => rfl)
        (fun X Y i _ => labelNumbers_solutionTileEv _ "Easy" _ X Y i),
      hlen]
    rfl

/-- C5: for a band whose solution boards have at least 81 symbols, the solution
section ends normally with the cursor at `count`; whatever the cursor was
before, its labels are `#1 .. #count` in order, it reads the 81 positions of
the solution board of the records `0 .. count-1`, each once and in increasing
order, on `ceil(count / 6)` pages after the title page, page `W` holding
`min 6 (count - 6 * W)` grids, which is 6 on every page but the last.  A band of
50 puzzles has 25 puzzle pages of 2 grids and 9 solution pages, the last one
of 2 grids. -/
theorem C5_solution_section (recs : List Game) (difficulty : String) (volume : Nat)
    (width height : ℚ) (r : Regs) (hok : ∀ rec ∈ recs, 81 ≤ rec.solution.length) :
    let res := solutionSection recs difficulty width height r
    res.flow = Flow.normal ∧ res.regs.sudokuIndex = recs.length ∧
    res.events = solutionSectionEvents recs difficulty width height r.pageNo ∧
    labelNumbers res.events = (List.range recs.length).map (fun idx => idx + 1) ∧
    readLog res.events =
      (List.range recs.length).flatMap
        (fun idx => (List.range 81).map (fun pos => (Field.solution, idx, pos))) ∧
    gridsPerPage res.events =
      0 :: (List.range (solutionPageCount recs.length)).map
        (fun W => min 6 (recs.length - 6 * W)) ∧
    solutionPageCount recs.length = (recs.length + 5) / 6 ∧
    (∀ W, W + 1 < solutionPageCount recs.length → min 6 (recs.length - 6 * W) = 6) ∧
    (recs.length = 50 → (∀ rec ∈ recs, 81 ≤ rec.game.length) →
      gridsPerPage (puzzleSection recs difficulty volume width height 1 2 r).events =
        0 :: List.replicate 25 2 ∧
      gridsPerPage res.events = [0, 6, 6, 6, 6, 6, 6, 6, 6, 2]) := by
  intro res
  have hres : res = ⟨solutionSectionEvents recs difficulty width height r.pageNo,
      ⟨recs.length, r.pageNo + 1 + solutionPageCount recs.length⟩, Flow.normal⟩ :=
    solutionSection_ok hok difficulty width height r
  have hcov := solutionPageCount_covers recs.length
  have hmin : min ((geometry width height 2 3).nx * (geometry width height 2 3).ny *
      solutionPageCount recs.length) recs.length = recs.length := by
    show min (2 * 3 * solutionPageCount recs.length) recs.length = recs.length
    omega
  have hgrids : gridsPerPage (solutionSectionEvents recs difficulty width height r.pageNo) =
      0 :: (List.range (solutionPageCount recs.length)).map
        (fun W => min 6 (recs.length - 6 * W)) := by
    unfold solutionSectionEvents
    have h := gridsPerPage_pagesEvents (solutionTileEv recs difficulty (geometry width height 2 3))
      (geometry width height 2 3) recs.length (solutionPageCount recs.length) (r.pageNo + 1)
      (tileEvents_no_addPage_solution recs difficulty _)
      (fun X Y i _ => labelNumbers_solutionTileEv recs difficulty _ X Y i)
      [Event.title width height (difficulty ++ " Sudoku - Solutions")]
      (by intro e he; rw [List.mem_singleton] at he; subst he; rfl)
    rw [List.singleton_append] at h
    rw [h]
    congr 1
    apply List.map_congr_left
    intro W _
    show min (2 * 3 * (W + 1)) recs.length - min (2 * 3 * W) recs.length = _
    omega
  rw [hres]
  refine ⟨rfl, rfl, rfl, ?_, ?_, hgrids, ?_, ?_, ?_⟩
  · show (solutionSectionEvents recs difficulty width height r.pageNo).filterMap
      Event.labelNumber = _
    unfold solutionSectionEvents
    rw [List.filterMap_cons, List.filterMap_cons,
      filterMap_pagesEvents Event.labelNumber (fun i => [i + 1]) _ _ _ rfl (fun _ => rfl)
        (fun X Y i _ => labelNumbers_solutionTileEv recs difficulty _ X Y i),
      hmin, ← List.map_eq_flatMap]
    rfl
  · show (solutionSectionEvents recs difficulty width height r.pageNo).filterMap
      Event.readOf = _
    unfold solutionSectionEvents
    rw [List.filterMap_cons, List.filterMap_cons,
      filterMap_pagesEvents Event.readOf
        (fun idx => (List.range 81).map (fun pos => (Field.solution, idx, pos))) _ _ _
        rfl (fun _ => rfl)
        (fun X Y i hi => readLog_solutionTileEv hok difficulty _ X Y i hi),
      hmin]
    rfl
  · unfold solutionPageCount
    split_ifs <;> omega
  · intro W hW
    unfold solutionPageCount at hW
    split_ifs at hW <;> omega
  · intro h50 hgame
    constructor
    · have hfit : 1 * 2 * puzzlePageCount recs.length ≤ recs.length := by
        unfold puzzlePageCount
        omega
      rw [puzzleSection_ok hgame difficulty volume width height 1 2 r hfit]
      show gridsPerPage (puzzleSectionEvents recs difficulty volume width height 1 2 r.pageNo) = _
      unfold puzzleSectionEvents
      have h := gridsPerPage_pagesEvents
        (puzzleTileEv recs difficulty (geometry width height 1 2))
        (geometry width height 1 2) recs.length (puzzlePageCount recs.length) (r.pageNo + 1)
        (tileEvents_no_addPage_puzzle recs difficulty _)
        (fun X Y i _ => labelNumbers_puzzleTileEv recs difficulty _ X Y i)
        [Event.title width height (difficulty ++ " Sudoku - Puzzles"),
          Event.title width height ("Volume #" ++ toString volume)]
        (by
          intro e he
          simp only [List.mem_cons, List.mem_singleton, List.not_mem_nil, or_false] at he
          rcases he with he | he <;> subst he <;> rfl)
      rw [List.cons_append, List.singleton_append] at h
      rw [h, h50]
      show 0 :: List.map (fun W => min (1 * 2 * (W + 1)) 50 - min (1 * 2 * W) 50)
        (List.range (puzzlePageCount 50)) = _
      decide
    · show gridsPerPage (solutionSectionEvents recs difficulty width height r.pageNo) = _
      rw [hgrids, h50]
      decide

/-- Witness of C5: a band of two copies of the sample record, entered with the
cursor at 7. -/
theorem C5_solution_section_witness :
    (solutionSection [sampleGame, sampleGame] "Easy" (2159 / 10) (2794 / 10) ⟨7, 3⟩).regs.sudokuIndex =
        [sampleGame, sampleGame].length ∧
    labelNumbers
        (solutionSection [sampleGame, sampleGame] "Easy" (2159 / 10) (2794 / 10) ⟨7, 3⟩).events =
      (List.range [sampleGame, sampleGame].length).map (fun idx => idx + 1) :=
  ⟨(C5_solution_section [sampleGame, sampleGame] "Easy" 1 (2159 / 10) (2794 / 10) ⟨7, 3⟩
      (by decide)).2.1,
   (C5_solution_section [sampleGame, sampleGame] "Easy" 1 (2159 / 10) (2794 / 10) ⟨7, 3⟩
      (by decide)).2.2.2.1⟩

/-- C6: for a board of exactly 81 symbols, rendering one grid (the two line
loops and the cell loop, for the puzzle board or the solution board) ends
normally with exactly 20 line calls, the ten of the first loop horizontal and
the ten of the second vertical, and with as many digit cells as the board has
symbols other than `.`; every cell index is evaluated exactly once, so no two
digit cells belong to the same cell, and when the grid side is not zero the
digit cells are at pairwise distinct positions and exactly 10 lines are
horizontal and 10 vertical. -/
theorem C6_grid_lines_and_digits (recs : List Game) (r : Regs) (rec : Game) (f : Field)
    (width height : ℚ) (nx ny : Nat) (x0 y0 : ℚ)
    (hrec : recs[r.sudokuIndex]? = some rec) (h81 : (rec.board f).length = 81) :
    let g := geometry width height nx ny
    let p := drawGrid recs f g x0 y0 r
    p.flow = Flow.normal ∧
    p.events.countP Event.isLine = 20 ∧
    p.events.filter Event.isLine =
      (List.range 10).map (hLine g x0 y0) ++ (List.range 10).map (vLine g x0 y0) ∧
    (∀ l, (hLine g x0 y0 l).isHorizontal = true) ∧
    (∀ l, (vLine g x0 y0 l).isVertical = true) ∧
    p.events.countP Event.isDigit = (rec.board f).countP nonBlank ∧
    readLog p.events = (List.range 81).map (fun pos => (f, r.sudokuIndex, pos)) ∧
    p.events.filterMap Event.digitPos =
      (List.range 81).filterMap (digitPosAt g x0 y0 (rec.board f)) ∧
    (g.L ≠ 0 →
      p.events.countP Event.isHorizontal = 10 ∧ p.events.countP Event.isVertical = 10 ∧
      (p.events.filterMap Event.digitPos).Nodup) := by
  intro g p
  have hp : p = ⟨gridEvents f r.sudokuIndex g x0 y0 (rec.board f), r, Flow.normal⟩ := by
    show drawGrid recs f g x0 y0 r = _
    rw [drawGrid_eq hrec, if_pos (by omega)]
  have hm : min ((rec.board f).length + 1) 81 = 81 := by omega
  rw [hp]
  refine ⟨rfl, countP_line_gridEvents _ _ _ _ _ _, filter_line_gridEvents _ _ _ _ _ _,
    isHorizontal_hLine g x0 y0, isVertical_vLine g x0 y0, ?_, ?_, ?_, ?_⟩
  · show (gridEvents f r.sudokuIndex g x0 y0 (rec.board f)).countP Event.isDigit = _
    rw [countP_digit_gridEvents, take_board_81 h81]
  · show (gridEvents f r.sudokuIndex g x0 y0 (rec.board f)).filterMap Event.readOf = _
    rw [readLog_gridEvents, hm]
  · show (gridEvents f r.sudokuIndex g x0 y0 (rec.board f)).filterMap Event.digitPos = _
    rw [filterMap_digitPos_gridEvents, hm]
  · intro hL
    have hw := lineWidth_add_ne_zero width height nx ny hL
    have hf := fieldL_ne_zero width height nx ny hL
    exact ⟨countP_horizontal_gridEvents _ _ g _ _ _ hw, countP_vertical_gridEvents _ _ g _ _ _ hw,
      nodup_digitPos_gridEvents _ _ g _ _ _ hf⟩

/-- Witness of C6: the puzzle board of the sample record on the Letter page,
layout 1 x 2. -/
theorem C6_grid_lines_and_digits_witness :
    (drawGrid [sampleGame] Field.game (geometry (2159 / 10) (2794 / 10) 1 2) 20 30
        ⟨0, 5⟩).events.countP Event.isLine = 20 ∧
    (drawGrid [sampleGame] Field.game (geometry (2159 / 10) (2794 / 10) 1 2) 20 30
        ⟨0, 5⟩).events.countP Event.isDigit = (sampleGame.board Field.game).countP nonBlank :=
  ⟨(C6_grid_lines_and_digits [sampleGame] ⟨0, 5⟩ sampleGame Field.game (2159 / 10) (2794 / 10)
      1 2 20 30 rfl (by decide)).2.1,
   (C6_grid_lines_and_digits [sampleGame] ⟨0, 5⟩ sampleGame Field.game (2159 / 10) (2794 / 10)
      1 2 20 30 rfl (by decide)).2.2.2.2.2.1⟩

/-- C7 (as stated, refuted): the solution board of the sample record has 81
digits and no blank, and its grid has 101 lines and digit cells, not 119. -/
theorem C7_solved_grid_counterexample :
    sampleGame.solution.length = 81 ∧ (∀ c ∈ sampleGame.solution, c ≠ '.') ∧
    (solutionTile [sampleGame] "Easy" (letterGeometry 2 3) 0 0 ⟨0, 0⟩).events.countP
      Event.isLineOrDigit ≠ 119 := by
  refine ⟨by decide, by decide, ?_⟩
  have hs : ∀ rec ∈ [sampleGame], rec.solution.length = 81 ∧ ∀ c ∈ rec.solution, c ≠ '.' := by
    decide
  have hok : ∀ rec ∈ [sampleGame], 81 ≤ rec.solution.length := fun rec h => by
    rw [(hs rec h).1]
  rw [solutionTile_ok hok "Easy" (letterGeometry 2 3) 0 0 0 0 (by decide)]
  show (solutionTileEv [sampleGame] "Easy" (letterGeometry 2 3) 0 0 0).countP
    Event.isLineOrDigit ≠ 119
  rw [countP_lineOrDigit_solutionTileEv hs "Easy" (letterGeometry 2 3) 0 0 0 (by decide)]
  decide

/-- C7 (amended): a grid drawn from a fully solved board (81 symbols, none of
them `.`) has exactly 101 lines and digit cells (20 lines + 81 digits), so the
solution section of a band of `count` such records has `count * 101` of them,
5050 for a band of 50. -/
theorem C7_solved_grid_has_101 (recs : List Game) (difficulty : String) (width height : ℚ)
    (r : Regs)
    (hs : ∀ rec ∈ recs, rec.solution.length = 81 ∧ ∀ c ∈ rec.solution, c ≠ '.') :
    (∀ (g : Geom) (X Y idx pn : Nat), idx < recs.length →
      (solutionTile recs difficulty g X Y ⟨idx, pn⟩).events.countP Event.isLineOrDigit = 101 ∧
      (solutionTile recs difficulty g X Y ⟨idx, pn⟩).events.countP Event.isLine = 20 ∧
      (solutionTile recs difficulty g X Y ⟨idx, pn⟩).events.countP Event.isDigit = 81) ∧
    (solutionSection recs difficulty width height r).events.countP Event.isLineOrDigit =
      recs.length * 101 ∧
    (recs.length = 50 →
      (solutionSection recs difficulty width height r).events.countP Event.isLineOrDigit =
        5050) := by
  have hok : ∀ rec ∈ recs, 81 ≤ rec.solution.length := fun rec h => by
    rw [(hs rec h).1]
  have hsec : (solutionSection recs difficulty width height r).events.countP
      Event.isLineOrDigit = recs.length * 101 := by
    rw [solutionSection_ok hok difficulty width height r]
    show (solutionSectionEvents recs difficulty width height r.pageNo).countP
      Event.isLineOrDigit = _
    unfold solutionSectionEvents
    rw [List.countP_cons, List.countP_cons,
      countP_pagesEvents_const Event.isLineOrDigit 101 _ _ _ _ _ rfl (fun _ => rfl)
        (fun X Y idx hidx => countP_lineOrDigit_solutionTileEv hs difficulty _ X Y idx hidx)]
    have hcov := solutionPageCount_covers recs.length
    have hmin : min ((geometry width height 2 3).nx * (geometry width height 2 3).ny *
        solutionPageCount recs.length) recs.length = recs.length := by
      show min (2 * 3 * solutionPageCount recs.length) recs.length = recs.length
      omega
    rw [hmin]
    simp [Event.isLineOrDigit, Event.isLine, Event.isDigit]
  refine ⟨?_, hsec, ?_⟩
  · intro g X Y idx pn hidx
    obtain ⟨h81, hsolved⟩ := hs _ (List.getElem_mem hidx)
    rw [solutionTile_ok hok difficulty g X Y idx pn hidx]
    refine ⟨countP_lineOrDigit_solutionTileEv hs difficulty g X Y idx hidx, ?_, ?_⟩
    · show (solutionTileEv recs difficulty g X Y idx).countP Event.isLine = 20
      unfold solutionTileEv solutionTileEvents
      rw [List.countP_cons, countP_line_gridEvents]
      rfl
    · show (solutionTileEv recs difficulty g X Y idx).countP Event.isDigit = 81
      unfold solutionTileEv solutionTileEvents
      rw [List.countP_cons, countP_digit_gridEvents,
        boardAt_of_getElem? (List.getElem?_eq_getElem hidx)]
      have hb : recs[idx].board Field.solution = recs[idx].solution := rfl
      rw [hb, take_board_81 h81, countP_nonBlank_solved hsolved, h81]
      rfl
  · intro h50
    rw [hsec, h50]

/-- Witness of C7 (amended): a band that holds the sample record once. -/
theorem C7_solved_grid_has_101_witness :
    (solutionSection [sampleGame] "Easy" (2159 / 10) (2794 / 10) ⟨0, 4⟩).events.countP
      Event.isLineOrDigit = [sampleGame].length * 101 :=
  (C7_solved_grid_has_101 [sampleGame] "Easy" (2159 / 10) (2794 / 10) ⟨0, 4⟩ (by decide)).2.1

/-- C8 (as stated, refuted): on a page of 30 x 30 (both dimensions positive)
with a 1 x 1 layout the grid side is negative and larger than the tile share. -/
theorem C8_small_page_counterexample :
    (0 : ℚ) < 30 ∧ 1 ≤ 1 ∧
    ¬ (0 < (geometry 30 30 1 1).L) ∧
    ¬ ((geometry 30 30 1 1).L ≤
        min ((geometry 30 30 1 1).drawingWidth / ((1 : Nat) : ℚ))
            ((geometry 30 30 1 1).drawingHeight / ((1 : Nat) : ℚ))) := by
  norm_num [geometry, gridSide, smaller, margin]

/-- C8 (amended): for `nx, ny >= 1` and a page wider and higher than the
reserved `6 * margin`, the grid side `L` is positive and at most
`min (drawingWidth / nx) (drawingHeight / ny)`. -/
theorem C8_gridSide_bounds (width height : ℚ) (nx ny : Nat)
    (hx : 1 ≤ nx) (hy : 1 ≤ ny) (hw : 6 * margin < width) (hh : 6 * margin < height) :
    (geometry width height nx ny).drawingWidth = width - 6 * margin ∧
    (geometry width height nx ny).drawingHeight = height - 6 * margin ∧
    (geometry width height nx ny).L =
      (85 / 100) * smaller ((geometry width height nx ny).drawingWidth / (nx : ℚ))
        ((geometry width height nx ny).drawingHeight / (ny : ℚ)) ∧
    0 < (geometry width height nx ny).L ∧
    (geometry width height nx ny).L ≤
      min ((geometry width height nx ny).drawingWidth / (nx : ℚ))
          ((geometry width height nx ny).drawingHeight / (ny : ℚ)) := by
  have hdw : 0 < width - 6 * margin := by linarith
  have hdh : 0 < height - 6 * margin := by linarith
  refine ⟨rfl, rfl, ?_, ?_, ?_⟩
  · simp only [geometry, gridSide]
    ring
  · exact gridSide_pos hdw hdh hx hy
  · simp only [geometry]
    exact le_min (le_of_lt (gridSide_lt_share_x hdw hx)) (le_of_lt (gridSide_lt_share_y hdh hy))

/-- Witness of C8 (amended) on the Letter page, 215.9 x 279.4 mm, layout 1 x 2. -/
theorem C8_gridSide_bounds_witness :
    0 < (geometry (2159 / 10) (2794 / 10) 1 2).L ∧
    (geometry (2159 / 10) (2794 / 10) 1 2).L ≤
      min ((geometry (2159 / 10) (2794 / 10) 1 2).drawingWidth / ((1 : Nat) : ℚ))
          ((geometry (2159 / 10) (2794 / 10) 1 2).drawingHeight / ((2 : Nat) : ℚ)) :=
  (C8_gridSide_bounds (2159 / 10) (2794 / 10) 1 2 (by decide) (by decide)
    (by norm_num [margin]) (by norm_num [margin])).2.2.2

/-- C9 (as stated, refuted): a board of length 0 is not rejected before
drawing, the label and the 20 lines are drawn first; a board of length 82 is
not rejected at all. -/
theorem C9_no_shape_check_counterexample :
    (([] : List Char).length ≠ 81 ∧
      (puzzleTile [⟨[], []⟩] "Easy" (letterGeometry 1 2) 0 0 ⟨0, 0⟩).events.countP
        Event.isDraw = 21) ∧
    ((List.replicate 82 '1').length ≠ 81 ∧
      (puzzleTile [⟨List.replicate 82 '1', []⟩] "Easy" (letterGeometry 1 2) 0 0 ⟨0, 0⟩).flow =
        Flow.normal) := by
  refine ⟨⟨by decide, ?_⟩, ⟨by decide, ?_⟩⟩
  · have h : ([⟨[], []⟩] : List Game)[(⟨0, 0⟩ : Regs).sudokuIndex]? = some ⟨[], []⟩ := rfl
    rw [puzzleTile_eq h, if_neg (by decide)]
    simp [puzzleTileEvents, List.countP_cons, countP_draw_gridEvents, Event.isDraw, Event.isRead]
  · have h : ([⟨List.replicate 82 '1', []⟩] : List Game)[(⟨0, 0⟩ : Regs).sudokuIndex]? =
        some ⟨List.replicate 82 '1', []⟩ := rfl
    rw [puzzleTile_eq h, if_pos (by simp)]

/-- C9 (amended): there is no check of the board length.  A tile whose board
has fewer than 81 symbols panics (index out of range) at the first missing
index, after the label, the 20 lines and the cells before that index have been
drawn; a tile whose board has more than 81 symbols is drawn without error from
its first 81 symbols. -/
theorem C9_board_length_not_checked (recs : List Game) (r : Regs) (rec : Game)
    (difficulty : String) (g : Geom) (X Y : Nat)
    (hrec : recs[r.sudokuIndex]? = some rec) :
    let p := puzzleTile recs difficulty g X Y r
    let x0 := originX g X
    let y0 := originY g Y
    (rec.game.length < 81 →
      p.flow = Flow.panic ∧ p.regs = r ∧
      p.events =
        Event.label x0 (y0 - 2 * margin) g.L (2 * margin) difficulty (r.sudokuIndex + 1) ::
          ((List.range 10).map (hLine g x0 y0) ++ (List.range 10).map (vLine g x0 y0) ++
            ((List.range rec.game.length).flatMap
                (cellEvents Field.game r.sudokuIndex g x0 y0 rec.game) ++
              [Event.read Field.game r.sudokuIndex rec.game.length])) ∧
      p.events.countP Event.isDraw = 21 + rec.game.countP nonBlank) ∧
    (81 < rec.game.length →
      p.flow = Flow.normal ∧ p.regs = ⟨r.sudokuIndex + 1, r.pageNo⟩ ∧
      p.events =
        Event.label x0 (y0 - 2 * margin) g.L (2 * margin) difficulty (r.sudokuIndex + 1) ::
          ((List.range 10).map (hLine g x0 y0) ++ (List.range 10).map (vLine g x0 y0) ++
            (List.range 81).flatMap (cellEvents Field.game r.sudokuIndex g x0 y0 rec.game))) := by
  intro p x0 y0
  constructor
  · intro hlt
    have hp : p = ⟨puzzleTileEvents difficulty g X Y r.sudokuIndex rec.game, r, Flow.panic⟩ := by
      show puzzleTile recs difficulty g X Y r = _
      rw [puzzleTile_eq hrec, if_neg (by omega)]
    rw [hp]
    refine ⟨rfl, rfl, ?_, ?_⟩
    · simp only [puzzleTileEvents]
      rw [gridEvents_short _ _ _ _ _ _ hlt]
    · have ht : rec.game.take (min (rec.game.length + 1) 81) = rec.game :=
        List.take_of_length_le (by omega)
      simp only [puzzleTileEvents, List.countP_cons, countP_draw_gridEvents, ht]
      simp [Event.isDraw, Event.isRead]
      omega
  · intro hgt
    have hp : p = ⟨puzzleTileEvents difficulty g X Y r.sudokuIndex rec.game,
        ⟨r.sudokuIndex + 1, r.pageNo⟩, Flow.normal⟩ := by
      show puzzleTile recs difficulty g X Y r = _
      rw [puzzleTile_eq hrec, if_pos (by omega)]
    rw [hp]
    refine ⟨rfl, rfl, ?_⟩
    simp only [puzzleTileEvents]
    rw [gridEvents_full _ _ _ _ _ _ (by omega)]

/-- Witness of C9 (amended): a record whose puzzle board has only 3 symbols. -/
theorem C9_board_length_not_checked_witness :
    (puzzleTile [⟨['1', '.', '3'], []⟩] "Easy" (letterGeometry 1 2) 0 0 ⟨0, 0⟩).flow =
      Flow.panic :=
  ((C9_board_length_not_checked [⟨['1', '.', '3'], []⟩] ⟨0, 0⟩ ⟨['1', '.', '3'], []⟩ "Easy"
    (letterGeometry 1 2) 0 0 rfl).1 (by decide)).1

/-- C10 (as stated, refuted): `createPDF` computes the origin in `float64`.  On
the Letter page with the 1 x 2 layout of `main` (drawing width and height
positive), for the tile (0, 0), the gap above the grid and the gap below it
differ, whether the two gaps are taken exactly from the `float64` values of
`y0`, `L`, `offsetY` and `drawingHeight` or are themselves computed in
`float64`; this holds for the page height 279.4 and for the next `float64`
above it. -/
theorem C10_float64_centring_counterexample :
    (0 < (F64.geometry F64.letterWidth F64.letterHeight 1 2).drawingWidth ∧
      0 < (F64.geometry F64.letterWidth F64.letterHeight 1 2).drawingHeight) ∧
    F64.originY (F64.geometry F64.letterWidth F64.letterHeight 1 2) 0 -
        ((F64.geometry F64.letterWidth F64.letterHeight 1 2).offsetY +
          ((0 : Nat) : ℚ) * (F64.geometry F64.letterWidth F64.letterHeight 1 2).drawingHeight /
            ((2 : Nat) : ℚ)) ≠
      (F64.geometry F64.letterWidth F64.letterHeight 1 2).offsetY +
          (((0 : Nat) : ℚ) + 1) * (F64.geometry F64.letterWidth F64.letterHeight 1 2).drawingHeight /
            ((2 : Nat) : ℚ) -
        (F64.originY (F64.geometry F64.letterWidth F64.letterHeight 1 2) 0 +
          (F64.geometry F64.letterWidth F64.letterHeight 1 2).L) ∧
    F64.sub (F64.originY (F64.geometry F64.letterWidth F64.letterHeight 1 2) 0)
        (F64.add (F64.geometry F64.letterWidth F64.letterHeight 1 2).offsetY
          (F64.div (F64.mul 0 (F64.geometry F64.letterWidth F64.letterHeight 1 2).drawingHeight)
            2)) ≠
      F64.sub
        (F64.add (F64.geometry F64.letterWidth F64.letterHeight 1 2).offsetY
          (F64.div (F64.mul 1 (F64.geometry F64.letterWidth F64.letterHeight 1 2).drawingHeight)
            2))
        (F64.add (F64.originY (F64.geometry F64.letterWidth F64.letterHeight 1 2) 0)
          (F64.geometry F64.letterWidth F64.letterHeight 1 2).L) ∧
    F64.originY (F64.geometry F64.letterWidth F64.letterHeightScaled 1 2) 0 -
        ((F64.geometry F64.letterWidth F64.letterHeightScaled 1 2).offsetY +
          ((0 : Nat) : ℚ) *
            (F64.geometry F64.letterWidth F64.letterHeightScaled 1 2).drawingHeight /
            ((2 : Nat) : ℚ)) ≠
      (F64.geometry F64.letterWidth F64.letterHeightScaled 1 2).offsetY +
          (((0 : Nat) : ℚ) + 1) *
            (F64.geometry F64.letterWidth F64.letterHeightScaled 1 2).drawingHeight /
            ((2 : Nat) : ℚ) -
        (F64.originY (F64.geometry F64.letterWidth F64.letterHeightScaled 1 2) 0 +
          (F64.geometry F64.letterWidth F64.letterHeightScaled 1 2).L) := by
  decide!

/-- C10 (amended): over exact rational arithmetic, for `nx, ny >= 1`, positive
drawing width and height and a tile `(X, Y)` inside the layout, the grid square
`[x0, x0+L] x [y0, y0+L]` lies inside the tile's proportional share, is centred
in it (the gap on each side is `(share - L) / 2`), and is disjoint from the
grid square of every other tile of the layout. -/
theorem C10_grid_inside_centred_disjoint (width height : ℚ) (nx ny X Y : Nat)
    (hx : 1 ≤ nx) (hy : 1 ≤ ny) (_hX : X < nx) (_hY : Y < ny)
    (hw : 0 < (geometry width height nx ny).drawingWidth)
    (hh : 0 < (geometry width height nx ny).drawingHeight) :
    let g := geometry width height nx ny
    let left := 3 * margin + (X : ℚ) * g.drawingWidth / (nx : ℚ)
    let right := 3 * margin + ((X : ℚ) + 1) * g.drawingWidth / (nx : ℚ)
    let top := g.offsetY + (Y : ℚ) * g.drawingHeight / (ny : ℚ)
    let bottom := g.offsetY + ((Y : ℚ) + 1) * g.drawingHeight / (ny : ℚ)
    (left ≤ originX g X ∧ originX g X + g.L ≤ right) ∧
    (top ≤ originY g Y ∧ originY g Y + g.L ≤ bottom) ∧
    (originX g X - left = right - (originX g X + g.L)) ∧
    (originY g Y - top = bottom - (originY g Y + g.L)) ∧
    (∀ X2 Y2 : Nat, X2 < nx → Y2 < ny → (X2, Y2) ≠ (X, Y) →
      originX g X + g.L < originX g X2 ∨ originX g X2 + g.L < originX g X ∨
      originY g Y + g.L < originY g Y2 ∨ originY g Y2 + g.L < originY g Y) := by
  intro g left right top bottom
  have hnx : (0 : ℚ) < (nx : ℚ) := by exact_mod_cast hx
  have hny : (0 : ℚ) < (ny : ℚ) := by exact_mod_cast hy
  have hLx : g.L < g.drawingWidth / (nx : ℚ) := gridSide_lt_share_x hw hx
  have hLy : g.L < g.drawingHeight / (ny : ℚ) := gridSide_lt_share_y hh hy
  have hsx : 0 < g.drawingWidth / (nx : ℚ) := tile_share_pos hw hx
  have hsy : 0 < g.drawingHeight / (ny : ℚ) := tile_share_pos hh hy
  have ox : ∀ T : Nat, originX g T =
      3 * margin + (T : ℚ) * (g.drawingWidth / (nx : ℚ)) + (g.drawingWidth / (nx : ℚ) - g.L) / 2 := by
    intro T
    show 3 * margin + (T : ℚ) / (nx : ℚ) * g.drawingWidth + (g.drawingWidth / (nx : ℚ) - g.L) / 2 = _
    ring
  have oy : ∀ T : Nat, originY g T =
      g.offsetY + (T : ℚ) * (g.drawingHeight / (ny : ℚ)) + (g.drawingHeight / (ny : ℚ) - g.L) / 2 := by
    intro T
    show g.offsetY + (T : ℚ) / (ny : ℚ) * g.drawingHeight + (g.drawingHeight / (ny : ℚ) - g.L) / 2 = _
    ring
  have hl : left = 3 * margin + (X : ℚ) * (g.drawingWidth / (nx : ℚ)) := by
    show 3 * margin + (X : ℚ) * g.drawingWidth / (nx : ℚ) = _
    ring
  have hr : right = 3 * margin + ((X : ℚ) + 1) * (g.drawingWidth / (nx : ℚ)) := by
    show 3 * margin + ((X : ℚ) + 1) * g.drawingWidth / (nx : ℚ) = _
    ring
  have ht : top = g.offsetY + (Y : ℚ) * (g.drawingHeight / (ny : ℚ)) := by
    show g.offsetY + (Y : ℚ) * g.drawingHeight / (ny : ℚ) = _
    ring
  have hb : bottom = g.offsetY + ((Y : ℚ) + 1) * (g.drawingHeight / (ny : ℚ)) := by
    show g.offsetY + ((Y : ℚ) + 1) * g.drawingHeight / (ny : ℚ) = _
    ring
  have step : ∀ (a b : Nat) (s : ℚ), 0 < s → a < b → (a : ℚ) * s + s ≤ (b : ℚ) * s := by
    intro a b s hs hab
    have h1 : ((a : ℚ) + 1) ≤ (b : ℚ) := by exact_mod_cast hab
    nlinarith
  refine ⟨⟨?_, ?_⟩, ⟨?_, ?_⟩, ?_, ?_, ?_⟩
  · rw [hl, ox]; linarith
  · rw [hr, ox]; linarith
  · rw [ht, oy]; linarith
  · rw [hb, oy]; linarith
  · rw [hl, hr, ox]; ring
  · rw [ht, hb, oy]; ring
  · intro X2 Y2 _ _ hne
    rw [ox X, ox X2, oy Y, oy Y2]
    rcases Nat.lt_trichotomy X X2 with h | h | h
    · left
      have := step X X2 _ hsx h
      linarith
    · subst h
      have hYne : Y2 ≠ Y := fun e => hne (by rw [e])
      rcases Nat.lt_trichotomy Y Y2 with h | h | h
      · right; right; left
        have := step Y Y2 _ hsy h
        linarith
      · exact absurd h.symm hYne
      · right; right; right
        have := step Y2 Y _ hsy h
        linarith
    · right; left
      have := step X2 X _ hsx h
      linarith

/-- Witness of C10 (amended) on the Letter page with the 2 x 3 layout, tile (1, 2). -/
theorem C10_grid_inside_centred_disjoint_witness :
    originX (geometry (2159 / 10) (2794 / 10) 2 3) 1 -
        (3 * margin + ((1 : Nat) : ℚ) * (geometry (2159 / 10) (2794 / 10) 2 3).drawingWidth /
          ((2 : Nat) : ℚ)) =
      3 * margin + (((1 : Nat) : ℚ) + 1) * (geometry (2159 / 10) (2794 / 10) 2 3).drawingWidth /
          ((2 : Nat) : ℚ) -
        (originX (geometry (2159 / 10) (2794 / 10) 2 3) 1 +
          (geometry (2159 / 10) (2794 / 10) 2 3).L) :=
  (C10_grid_inside_centred_disjoint (2159 / 10) (2794 / 10) 2 3 1 2 (by decide) (by decide)
    (by decide) (by decide) (by norm_num [geometry, margin])
    (by norm_num [geometry, margin])).2.2.1

/-- C11: for every `i` and `j` below 9 and for the puzzle board as for the
solution board, the cell loop evaluates index `i*9+j` and draws the symbol
found there if and only if it is not `.`, as that one character in a text cell
of side `cellSide = L / 9` at `(x0 + cellSide*i, y0 + cellSide*j + cellSide/20)`;
a puzzle tile and a solution tile draw exactly these cells, so index `pos`
goes to cell `(pos / 9, pos % 9)` in both. -/
theorem C11_cell_mapping (recs : List Game) (r : Regs) (rec : Game) (difficulty : String)
    (width height : ℚ) (nx ny X Y : Nat) (x0 y0 : ℚ)
    (hrec : recs[r.sudokuIndex]? = some rec)
    (hgame : 81 ≤ rec.game.length) (hsol : 81 ≤ rec.solution.length) :
    let g := geometry width height nx ny
    (g.fieldL = g.L / 9) ∧
    (∀ (f : Field) (i j : Nat) (c : Char), i < 9 → j < 9 → (rec.board f)[i * 9 + j]? = some c →
      drawCell recs f g x0 y0 i j r =
        ⟨Event.read f r.sudokuIndex (i * 9 + j) ::
          (if c ≠ '.' then
            [Event.digit (x0 + g.fieldL * (i : ℚ)) (y0 + g.fieldL * (j : ℚ) + g.fieldL / 20)
              g.fieldL g.fieldL c]
           else []), r, Flow.normal⟩) ∧
    (puzzleTile recs difficulty g X Y r).events.filter Event.isDigit =
      (List.range 81).filterMap (digitEventAt g (originX g X) (originY g Y) rec.game) ∧
    (solutionTile recs difficulty g X Y r).events.filter Event.isDigit =
      (List.range 81).filterMap (digitEventAt g (originX g X) (originY g Y) rec.solution) ∧
    (∀ (board : List Char) (i j : Nat) (c : Char), i < 9 → j < 9 → board[i * 9 + j]? = some c →
      digitEventAt g x0 y0 board (i * 9 + j) =
        if c ≠ '.' then
          some (Event.digit (x0 + g.fieldL * (i : ℚ)) (y0 + g.fieldL * (j : ℚ) + g.fieldL / 20)
            g.fieldL g.fieldL c)
        else none) := by
  intro g
  refine ⟨rfl, ?_, ?_, ?_, ?_⟩
  · intro f i j c _ hj hc
    rw [drawCell_eq hrec f g x0 y0 i j hj]
    have hlt : i * 9 + j < (rec.board f).length := (List.getElem?_eq_some_iff.mp hc).1
    have e1 : (i * 9 + j) / 9 = i := by omega
    have e2 : (i * 9 + j) % 9 = j := by omega
    unfold cellEvents
    rw [hc, if_pos hlt, e1, e2]
    by_cases hdot : c = '.'
    · simp [hdot]
    · simp [hdot, digitAt]
  · rw [puzzleTile_eq hrec, if_pos hgame]
    show (puzzleTileEvents difficulty g X Y r.sudokuIndex rec.game).filter Event.isDigit = _
    unfold puzzleTileEvents
    have hm : min (rec.game.length + 1) 81 = 81 := by omega
    rw [List.filter_cons, filter_digit_gridEvents, hm]
    simp [Event.isDigit]
  · rw [solutionTile_eq hrec, if_pos hsol]
    show (solutionTileEvents difficulty g X Y r.sudokuIndex rec.solution).filter Event.isDigit = _
    unfold solutionTileEvents
    have hm : min (rec.solution.length + 1) 81 = 81 := by omega
    rw [List.filter_cons, filter_digit_gridEvents, hm]
    simp [Event.isDigit]
  · intro board i j c _ hj hc
    have e1 : (i * 9 + j) / 9 = i := by omega
    have e2 : (i * 9 + j) % 9 = j := by omega
    unfold digitEventAt
    rw [hc, e1, e2]
    rfl

/-- Witness of C11: the sample record, tile (0, 1) of the 1 x 2 layout on the
Letter page. -/
theorem C11_cell_mapping_witness :
    (puzzleTile [sampleGame] "Easy" (geometry (2159 / 10) (2794 / 10) 1 2) 0 1
        ⟨0, 5⟩).events.filter Event.isDigit =
      (List.range 81).filterMap (digitEventAt (geometry (2159 / 10) (2794 / 10) 1 2)
        (originX (geometry (2159 / 10) (2794 / 10) 1 2) 0)
        (originY (geometry (2159 / 10) (2794 / 10) 1 2) 1) sampleGame.game) :=
  (C11_cell_mapping [sampleGame] ⟨0, 5⟩ sampleGame "Easy" (2159 / 10) (2794 / 10) 1 2 0 1 0 0
    rfl (by decide) (by decide)).2.2.1

/-- C12 (code at the failing input): a band of 2 records laid out 1 x 1 has a
count that is a multiple of the capacity `nx * ny = 1`, yet the puzzle section
emits `count / 2 = 1` grid page, not `count / (nx * ny) = 2`: it draws the grid
`#1` only and ends with the cursor at 1, record 1 is never drawn. -/
theorem C12_capacity_one_half_the_pages :
    [sampleGame, sampleGame].length % (1 * 1) = 0 ∧
    [sampleGame, sampleGame].length / (1 * 1) = 2 ∧
    (puzzleSection [sampleGame, sampleGame] "Easy" 1 (2159 / 10) (2794 / 10) 1 1
      ⟨0, 4⟩).flow = Flow.normal ∧
    (puzzleSection [sampleGame, sampleGame] "Easy" 1 (2159 / 10) (2794 / 10) 1 1
      ⟨0, 4⟩).regs.sudokuIndex = 1 ∧
    gridsPerPage (puzzleSection [sampleGame, sampleGame] "Easy" 1 (2159 / 10) (2794 / 10) 1 1
      ⟨0, 4⟩).events = [0, 1] ∧
    labelNumbers (puzzleSection [sampleGame, sampleGame] "Easy" 1 (2159 / 10) (2794 / 10) 1 1
      ⟨0, 4⟩).events = [1] ∧
    (puzzleSection [sampleGame, sampleGame] "Easy" 1 (2159 / 10) (2794 / 10) 1 1
      ⟨0, 4⟩).events.countP Event.isAddPage = 2 := by
  have hok : ∀ rec ∈ [sampleGame, sampleGame], 81 ≤ rec.game.length := by decide
  have hrun := puzzleSection_ok hok "Easy" 1 (2159 / 10) (2794 / 10) 1 1 ⟨0, 4⟩ (by decide)
  rw [hrun]
  refine ⟨rfl, rfl, rfl, rfl, ?_, ?_, ?_⟩
  · show gridsPerPage (puzzleSectionEvents _ _ _ _ _ _ _ _) = _
    rw [gridsPerPage_puzzleSectionEvents]
    decide
  · show labelNumbers (puzzleSectionEvents _ _ _ _ _ _ _ _) = _
    rw [labelNumbers_puzzleSectionEvents]
    decide
  · show (puzzleSectionEvents _ _ _ _ _ _ _ _).countP Event.isAddPage = _
    rw [countP_addPage_puzzleSectionEvents]
    decide

/-- C13 (code at the failing input): the page number cell is drawn inside the
loop over the columns `X`, so a page carries `nx` of them, not one: each of the
two solution pages (layout 2 x 3) of a band of 7 records carries 2 page
number cells, the partial last page included, and a puzzle page laid out 2 x 1
carries 2; only a layout with `nx = 1`, such as the 1 x 2 puzzle layout of
`main`, gives one. -/
theorem C13_footer_drawn_per_column :
    footersPerPage (solutionSection (List.replicate 7 sampleGame) "Easy" (2159 / 10)
      (2794 / 10) ⟨0, 4⟩).events = [0, 2, 2] ∧
    footersPerPage (puzzleSection (List.replicate 2 sampleGame) "Easy" 1 (2159 / 10)
      (2794 / 10) 2 1 ⟨0, 4⟩).events = [0, 2] ∧
    footersPerPage (puzzleSection (List.replicate 2 sampleGame) "Easy" 1 (2159 / 10)
      (2794 / 10) 1 2 ⟨0, 4⟩).events = [0, 1] := by
  have h7 : (List.replicate 7 sampleGame).length = 7 := List.length_replicate 7 sampleGame
  have h2 : (List.replicate 2 sampleGame).length = 2 := List.length_replicate 2 sampleGame
  refine ⟨?_, ?_, ?_⟩
  · rw [solutionSection_ok (sample_boards_ok 7).2 "Easy" _ _ ⟨0, 4⟩]
    show footersPerPage (solutionSectionEvents _ _ _ _ _) = _
    rw [footersPerPage_solutionSectionEvents, h7]
    decide
  · rw [puzzleSection_ok (sample_boards_ok 2).1 "Easy" 1 _ _ 2 1 ⟨0, 4⟩ (by rw [h2]; decide)]
    show footersPerPage (puzzleSectionEvents _ _ _ _ _ _ _ _) = _
    rw [footersPerPage_puzzleSectionEvents, h2]
    decide
  · rw [puzzleSection_ok (sample_boards_ok 2).1 "Easy" 1 _ _ 1 2 ⟨0, 4⟩ (by rw [h2]; decide)]
    show footersPerPage (puzzleSectionEvents _ _ _ _ _ _ _ _) = _
    rw [footersPerPage_puzzleSectionEvents, h2]
    decide

/-- C14 (as stated, refuted): `createPDF` computes the end of a line as
`x0 + w/2 + L` in `float64`, summed in this order, which is not always the
`float64` value of `x0 + L + w/2`.  On the Letter page with the 1 x 2 layout of
`main`, tile (0, 0), the thick vertical line `lx = 0` ends at `y0 + w/2 + L`
and that differs from `y0 + L + w/2`; with the next `float64` above the page
height 279.4 the same happens for the thin vertical line `lx = 1` of tile
(0, 1). -/
theorem C14_float64_line_end_counterexample :
    F64.vLine (F64.geometry F64.letterWidth F64.letterHeight 1 2)
        (F64.originX (F64.geometry F64.letterWidth F64.letterHeight 1 2) 0)
        (F64.originY (F64.geometry F64.letterWidth F64.letterHeight 1 2) 0) 0 ≠
      Event.line
        (F64.add (F64.originX (F64.geometry F64.letterWidth F64.letterHeight 1 2) 0)
          (F64.mul (F64.geometry F64.letterWidth F64.letterHeight 1 2).fieldL 0))
        (F64.sub (F64.originY (F64.geometry F64.letterWidth F64.letterHeight 1 2) 0)
          (F64.div (F64.geometry F64.letterWidth F64.letterHeight 1 2).thickLineWidth 2))
        (F64.add (F64.originX (F64.geometry F64.letterWidth F64.letterHeight 1 2) 0)
          (F64.mul (F64.geometry F64.letterWidth F64.letterHeight 1 2).fieldL 0))
        (F64.add
          (F64.add (F64.originY (F64.geometry F64.letterWidth F64.letterHeight 1 2) 0)
            (F64.geometry F64.letterWidth F64.letterHeight 1 2).L)
          (F64.div (F64.geometry F64.letterWidth F64.letterHeight 1 2).thickLineWidth 2))
        (F64.geometry F64.letterWidth F64.letterHeight 1 2).thickLineWidth ∧
    F64.add
        (F64.add (F64.originY (F64.geometry F64.letterWidth F64.letterHeight 1 2) 0)
          (F64.div (F64.geometry F64.letterWidth F64.letterHeight 1 2).thickLineWidth 2))
        (F64.geometry F64.letterWidth F64.letterHeight 1 2).L ≠
      F64.add
        (F64.add (F64.originY (F64.geometry F64.letterWidth F64.letterHeight 1 2) 0)
          (F64.geometry F64.letterWidth F64.letterHeight 1 2).L)
        (F64.div (F64.geometry F64.letterWidth F64.letterHeight 1 2).thickLineWidth 2) ∧
    F64.add
        (F64.add (F64.originY (F64.geometry F64.letterWidth F64.letterHeightScaled 1 2) 1)
          (F64.div (F64.geometry F64.letterWidth F64.letterHeightScaled 1 2).thinLineWidth 2))
        (F64.geometry F64.letterWidth F64.letterHeightScaled 1 2).L ≠
      F64.add
        (F64.add (F64.originY (F64.geometry F64.letterWidth F64.letterHeightScaled 1 2) 1)
          (F64.geometry F64.letterWidth F64.letterHeightScaled 1 2).L)
        (F64.div (F64.geometry F64.letterWidth F64.letterHeightScaled 1 2).thinLineWidth 2) := by
  decide!

/-- C14 (amended): for every grid with origin `(x0, y0)` and side `L`, line `ly`
of the first loop runs at `y = y0 + (L/9)*ly` from `x0 - w/2` to `x0 + w/2 + L`,
summed in this order as the code does, where `w` is `L/120` when `ly % 3 = 0`
and `L/300` otherwise, and line `lx` of the second loop is the same with `x` and
`y` exchanged; the lines of a grid are these, for `ly` and `lx` from 0 to 9, so
4 indices of each loop take the thick width and 6 the thin one. -/
theorem C14_grid_lines (recs : List Game) (f : Field) (r : Regs)
    (width height : ℚ) (nx ny : Nat) (x0 y0 : ℚ) :
    let g := geometry width height nx ny
    let w := fun l : Nat => if l % 3 = 0 then g.L / 120 else g.L / 300
    (∀ ly, hLine g x0 y0 ly =
      Event.line (x0 - w ly / 2) (y0 + g.L / 9 * (ly : ℚ)) (x0 + w ly / 2 + g.L)
        (y0 + g.L / 9 * (ly : ℚ)) (w ly)) ∧
    (∀ lx, vLine g x0 y0 lx =
      Event.line (x0 + g.L / 9 * (lx : ℚ)) (y0 - w lx / 2) (x0 + g.L / 9 * (lx : ℚ))
        (y0 + w lx / 2 + g.L) (w lx)) ∧
    (drawGrid recs f g x0 y0 r).events.filter Event.isLine =
      (List.range 10).map (hLine g x0 y0) ++ (List.range 10).map (vLine g x0 y0) ∧
    (List.range 10).countP (fun l => decide (l % 3 = 0)) = 4 ∧
    (List.range 10).countP (fun l => decide (¬ l % 3 = 0)) = 6 ∧
    (g.L ≠ 0 →
      ((List.range 10).map (hLine g x0 y0)).countP (Event.hasWidth (g.L / 120)) = 4 ∧
      ((List.range 10).map (hLine g x0 y0)).countP (Event.hasWidth (g.L / 300)) = 6 ∧
      ((List.range 10).map (vLine g x0 y0)).countP (Event.hasWidth (g.L / 120)) = 4 ∧
      ((List.range 10).map (vLine g x0 y0)).countP (Event.hasWidth (g.L / 300)) = 6) := by
  intro g w
  have hw : ∀ l, lineWidth g l = w l := by
    intro l
    show (if l % 3 = 0 then g.L / 120 else g.L / 300) = _
    rfl
  refine ⟨fun ly => rfl, fun lx => rfl, filter_line_drawGrid recs f g x0 y0 r, by decide,
    by decide, ?_⟩
  intro hL
  have hne : g.L / 300 ≠ g.L / 120 := thick_ne_thin width height nx ny hL
  have hthick : ∀ l, (hLine g x0 y0 l).hasWidth (g.L / 120) = decide (l % 3 = 0) ∧
      (vLine g x0 y0 l).hasWidth (g.L / 120) = decide (l % 3 = 0) ∧
      (hLine g x0 y0 l).hasWidth (g.L / 300) = decide (¬ l % 3 = 0) ∧
      (vLine g x0 y0 l).hasWidth (g.L / 300) = decide (¬ l % 3 = 0) := by
    intro l
    have hwl := hw l
    by_cases h3 : l % 3 = 0
    · have e : lineWidth g l = g.L / 120 := by rw [hwl]; simp [w, h3]
      simp [hLine, vLine, Event.hasWidth, Event.lineWidthOf, e, h3, hne.symm]
    · have e : lineWidth g l = g.L / 300 := by rw [hwl]; simp [w, h3]
      simp [hLine, vLine, Event.hasWidth, Event.lineWidthOf, e, h3, hne]
  have hc : ∀ (mk : Nat → Event) (p : Event → Bool) (q : Nat → Bool),
      (∀ l, p (mk l) = q l) →
      ((List.range 10).map mk).countP p = (List.range 10).countP q := by
    intro mk p q h
    rw [List.countP_map]
    congr 1
    funext l
    exact h l
  refine ⟨?_, ?_, ?_, ?_⟩
  · rw [hc _ _ (fun l => decide (l % 3 = 0)) (fun l => (hthick l).1)]
    decide
  · rw [hc _ _ (fun l => decide (¬ l % 3 = 0)) (fun l => (hthick l).2.2.1)]
    decide
  · rw [hc _ _ (fun l => decide (l % 3 = 0)) (fun l => (hthick l).2.1)]
    decide
  · rw [hc _ _ (fun l => decide (¬ l % 3 = 0)) (fun l => (hthick l).2.2.2)]
    decide

/-- Witness of C14 (amended): the grids of the 1 x 2 layout on the Letter page, whose side
is not zero, have 4 thick horizontal lines. -/
theorem C14_grid_lines_witness :
    ((List.range 10).map (hLine (geometry (2159 / 10) (2794 / 10) 1 2) 0 0)).countP
      (Event.hasWidth ((geometry (2159 / 10) (2794 / 10) 1 2).L / 120)) = 4 :=
  ((C14_grid_lines [] Field.game ⟨0, 0⟩ (2159 / 10) (2794 / 10) 1 2 0 0).2.2.2.2.2
    (by norm_num [geometry, gridSide, smaller, margin])).1

/-- C15: in a run of `createPDF` of `mix.go` over four bands whose boards have
at least 81 symbols and whose puzzle pages fit in their records, the run ends
normally and the pages are, in order: the four preliminary pages, then for the
bands 0, 1, 2, 3 (titled Simple, Easy, Intermediate, Expert) one puzzles title
page, the `count / 2` puzzle pages of the band, which read puzzle boards only,
one solutions title page and the solution pages of the band, which read
solution boards only; the titles appear in that order, and the book has
`pagesBefore sudokus 4` pages. -/
theorem C15_bands_in_order (sudokus : List (List Game)) (nx ny volume : Nat) (width height : ℚ)
    (hlen : sudokus.length = 4)
    (hgame : ∀ recs ∈ sudokus, ∀ rec ∈ recs, 81 ≤ rec.game.length)
    (hsol : ∀ recs ∈ sudokus, ∀ rec ∈ recs, 81 ≤ rec.solution.length)
    (hfit : ∀ recs ∈ sudokus, nx * ny * puzzlePageCount recs.length ≤ recs.length) :
    let res := createPDF sudokus nx ny volume levels width height
    res.flow = Flow.normal ∧
    res.events = List.replicate 4 Event.addPage ++
      (List.range 4).flatMap (fun K =>
        bandPuzzleEvents sudokus levels nx ny volume width height K ++
          bandSolutionEvents sudokus levels width height K) ∧
    pageOutline res.events =
      List.replicate 4 ([], 0, 0) ++
        (bandOutline sudokus levels nx ny volume 0 ++ bandOutline sudokus levels nx ny volume 1 ++
          bandOutline sudokus levels nx ny volume 2 ++ bandOutline sudokus levels nx ny volume 3) ∧
    titles res.events =
      ["Simple Sudoku - Puzzles", "Volume #" ++ toString volume, "Simple Sudoku - Solutions",
        "Easy Sudoku - Puzzles", "Volume #" ++ toString volume, "Easy Sudoku - Solutions",
        "Intermediate Sudoku - Puzzles", "Volume #" ++ toString volume,
        "Intermediate Sudoku - Solutions",
        "Expert Sudoku - Puzzles", "Volume #" ++ toString volume, "Expert Sudoku - Solutions"] ∧
    (pagesOf res.events).length = pagesBefore sudokus 4 ∧
    res.regs.pageNo = pagesBefore sudokus 4 := by
  intro res
  have hres : res = ⟨List.replicate 4 Event.addPage ++
        (List.range 4).flatMap (fun K =>
          bandPuzzleEvents sudokus levels nx ny volume width height K ++
            bandSolutionEvents sudokus levels width height K),
      ⟨cursorBefore sudokus 4, pagesBefore sudokus 4⟩, Flow.normal⟩ :=
    createPDF_ok hlen hgame hsol levels nx ny volume width height hfit
  have hhead : ∀ K, (splitPages (bandPuzzleEvents sudokus levels nx ny volume width height K ++
      bandSolutionEvents sudokus levels width height K)).1 = [] := by
    intro K
    exact splitPages_head_append _ _ (splitPages_head_puzzleSectionEvents _ _ _ _ _ _ _ _)
      (splitPages_head_solutionSectionEvents _ _ _ _ _)
  have hout : pageOutline res.events =
      List.replicate 4 ([], 0, 0) ++
        (bandOutline sudokus levels nx ny volume 0 ++ bandOutline sudokus levels nx ny volume 1 ++
          bandOutline sudokus levels nx ny volume 2 ++
          bandOutline sudokus levels nx ny volume 3) := by
    rw [hres]
    show pageOutline (List.replicate 4 Event.addPage ++ _) = _
    rw [pageOutline_append_of_head_empty _ _ (splitPages_head_flatMap _ hhead _),
      pageOutline_flatMap _ hhead]
    have hb : ∀ K, K < 4 →
        pageOutline (bandPuzzleEvents sudokus levels nx ny volume width height K ++
          bandSolutionEvents sudokus levels width height K) =
        bandOutline sudokus levels nx ny volume K := by
      intro K hK
      exact pageOutline_band hgame hsol levels nx ny volume width height hfit K (by omega)
    have hr : List.range 4 = [0, 1, 2, 3] := rfl
    rw [hr]
    simp only [List.flatMap_cons, List.flatMap_nil, List.append_nil]
    rw [hb 0 (by omega), hb 1 (by omega), hb 2 (by omega), hb 3 (by omega)]
    simp only [List.append_assoc]
    rfl
  refine ⟨by rw [hres], by rw [hres], hout, ?_, ?_, by rw [hres]⟩
  · rw [hres]
    show titles (List.replicate 4 Event.addPage ++ _) = _
    rw [titles_append, titles_flatMap]
    simp only [titles_band]
    rfl
  · have hl : (pagesOf res.events).length = (pageOutline res.events).length := by
      unfold pageOutline
      rw [List.length_map]
    rw [hl, hout]
    unfold bandOutline pagesBefore pagesBefore pagesBefore pagesBefore pagesBefore bandPages
    simp only [List.length_append, List.length_cons, List.length_replicate, List.length_map,
      List.length_range]
    omega

/-- Witness of C15: four bands of two copies of the sample record, laid out 1 x 2
on the Letter page, volume 1: 4 + 4 * (1 + 1 + 1 + 1) = 20 pages. -/
theorem C15_bands_in_order_witness :
    (createPDF sampleBands 1 2 1 levels (2159 / 10) (2794 / 10)).flow = Flow.normal ∧
    (pagesOf (createPDF sampleBands 1 2 1 levels (2159 / 10) (2794 / 10)).events).length = 20 :=
  ⟨(C15_bands_in_order sampleBands 1 2 1 (2159 / 10) (2794 / 10) (by decide) (by decide)
      (by decide) (by decide)).1,
   (C15_bands_in_order sampleBands 1 2 1 (2159 / 10) (2794 / 10) (by decide) (by decide)
      (by decide) (by decide)).2.2.2.2.1⟩

/-- C16 (code at the failing input): with the default count of 100, volume 2
of `pdf_backup.go` starts at offset `2 * 100 + 1 = 201`, not 100: it selects the
rows at positions 201 to 300, while the usage text of `-volume` says
"2 for 101 to 200" (positions 100 to 199); the rows at positions 100 to 200 are
in no volume.  Volume 1 does select the first 100 rows. -/
theorem C16_volume_two_offset :
    PdfBackup.fetchOffset 1 = 0 ∧ PdfBackup.fetchOffset 2 = 201 ∧
    PdfBackup.fetchOffset 2 ≠ 100 ∧
    (∀ row, PdfBackup.selects 100 1 row ↔ 0 ≤ row ∧ row < 100) ∧
    (∀ row, PdfBackup.selects 100 2 row ↔ 201 ≤ row ∧ row < 301) ∧
    (∀ row volume, 100 ≤ row → row ≤ 200 → ¬ PdfBackup.selects 100 volume row) := by
  refine ⟨by decide, by decide, by decide, ?_, ?_, ?_⟩
  · intro row
    simp [PdfBackup.selects, PdfBackup.fetchOffset, PdfBackup.fetchLimit]
  · intro row
    simp [PdfBackup.selects, PdfBackup.fetchOffset, PdfBackup.fetchLimit]
  · intro row volume h1 h2 hs
    unfold PdfBackup.selects PdfBackup.fetchOffset PdfBackup.fetchLimit at hs
    split_ifs at hs with hv <;> omega

/-- C17 (code at the failing input): `difficultyValue.Set` of `generate.go`
returns the error `invalid difficulty value` for `any`, in any letter case,
although the usage text of the flag lists it; the four other listed values are
accepted, in any letter case, and stored in lower case. -/
theorem C17_any_is_refused :
    Generate.difficultyValue.Set "any" = Except.error "invalid difficulty value" ∧
    Generate.difficultyValue.Set "ANY" = Except.error "invalid difficulty value" ∧
    "any" ∈ Generate.usageValues ∧
    Generate.difficultyValue.Set "simple" = Except.ok "simple" ∧
    Generate.difficultyValue.Set "Easy" = Except.ok "easy" ∧
    Generate.difficultyValue.Set "INTERMEDIATE" = Except.ok "intermediate" ∧
    Generate.difficultyValue.Set "eXpert" = Except.ok "expert" ∧
    Generate.difficultyValue.Set "hard" = Except.error "invalid difficulty value" := by
  refine ⟨rfl, rfl, by decide, rfl, rfl, rfl, rfl, rfl⟩

/-- C18 (as stated, refuted): for `nx = ny = 2^32` and `np = 1`, all at least
0, line 48 of `main` computes `n = nx * ny * np` in 64-bit `int` arithmetic,
which wraps around to 0; the generator is asked for 0 boards, and with the 0
boards it returns (no string at all, or the one empty string that
`strings.Split` makes of an empty output) `createPDF` evaluates `sudokus[0][0]`
for the first tile, an index that is out of range, and panics. -/
theorem C18_overflow_counterexample :
    (0 : Int) ≤ 4294967296 ∧ Main.requested 4294967296 4294967296 1 = 0 ∧
    ([] : List (List Char)).length = (Main.requested 4294967296 4294967296 1).toNat ∧
    (Main.createPDF [] 4294967296 4294967296 1 210 (297 / 2)).flow = Flow.panic ∧
    Event.read Field.game 0 0 ∈
      (Main.createPDF [] 4294967296 4294967296 1 210 (297 / 2)).events ∧
    (Main.createPDF [[]] 4294967296 4294967296 1 210 (297 / 2)).flow = Flow.panic ∧
    Event.read Field.game 0 0 ∈
      (Main.createPDF [[]] 4294967296 4294967296 1 210 (297 / 2)).events := by
  have hreq : Main.requested 4294967296 4294967296 1 = 0 := by
    norm_num [Main.requested, Main.wrapInt]
  have h0 := main_createPDF_first_tile_panics [] 4294967296 4294967296 1 210 (297 / 2)
    (by intro b hb; simp at hb) (by norm_num) (by norm_num) (by norm_num)
  have h1 := main_createPDF_first_tile_panics [[]] 4294967296 4294967296 1 210 (297 / 2)
    (by
      intro b hb
      have hb2 : b = [] := by simpa using hb.symm
      rw [hb2]
      decide)
    (by norm_num) (by norm_num) (by norm_num)
  refine ⟨by norm_num, hreq, ?_, h0.1, h0.2, h1.1, h1.2⟩
  rw [hreq]
  rfl

/-- C18 (amended): when the product `nx * ny * np` fits in a 64-bit `int`, the
number `n` of boards asked of the generator is that product, and when the
generator returned `n` boards of 81 symbols the run of `createPDF` of `main.go`
ends normally with the cursor at `n`; its labels are `#1 .. #n` in order; it
reads the 81 symbols of the boards `0 .. n-1`, each once and in increasing
order, so every board index is below `n` and every symbol index below 81; and
it emits the 3 preliminary pages and `np` grid pages, each of `nx * ny` grids. -/
theorem C18_main_reads_every_board (sudokus : List (List Char)) (nx ny np : Nat)
    (width height : ℚ) (hfits : nx * ny * np < 2 ^ 63)
    (hlen : sudokus.length = (Main.requested nx ny np).toNat)
    (h81 : ∀ b ∈ sudokus, b.length = 81) :
    let res := Main.createPDF sudokus nx ny np width height
    Main.requested nx ny np = ((nx * ny * np : Nat) : Int) ∧
    sudokus.length = nx * ny * np ∧
    res.flow = Flow.normal ∧ res.regs.sudokuIndex = sudokus.length ∧
    res.events = Main.bookEvents sudokus nx ny np width height ∧
    labelNumbers res.events = (List.range sudokus.length).map (fun idx => idx + 1) ∧
    readLog res.events =
      (List.range sudokus.length).flatMap
        (fun idx => (List.range 81).map (fun pos => (Field.game, idx, pos))) ∧
    (∀ e ∈ res.events, e.readBelow sudokus.length = true) ∧
    gridsPerPage res.events = [0, 0, 0] ++ List.replicate np (nx * ny) ∧
    res.events.countP Event.isAddPage = 3 + np := by
  intro res
  have hreq := requested_of_fits nx ny np hfits
  have hn : sudokus.length = nx * ny * np := by
    rw [hlen, hreq]
    rfl
  have hn2 : np * (nx * ny) = sudokus.length := by
    rw [hn, Nat.mul_comm]
  have hok : ∀ b ∈ sudokus, 81 ≤ b.length := fun b hb => Nat.le_of_eq (h81 b hb).symm
  have hres : res = ⟨Main.bookEvents sudokus nx ny np width height,
      ⟨np * (nx * ny), 3 + np⟩, Flow.normal⟩ :=
    main_createPDF_ok hok nx ny np width height (Nat.le_of_eq hn2)
  have hlab : labelNumbers (Main.bookEvents sudokus nx ny np width height) =
      (List.range sudokus.length).map (fun idx => idx + 1) := by
    unfold labelNumbers
    rw [main_filterMap_bookEvents Event.labelNumber (fun idx => [idx + 1]) sudokus nx ny np
      width height rfl (fun _ _ _ _ _ => rfl) (fun _ _ _ _ _ _ => rfl) (fun _ _ _ _ => rfl)
      (fun g X Y idx => main_labelNumbers_tileEvents sudokus g X Y idx), hn2,
      List.map_eq_flatMap]
  have hread : readLog (Main.bookEvents sudokus nx ny np width height) =
      (List.range sudokus.length).flatMap
        (fun idx => (List.range 81).map (fun pos => (Field.game, idx, pos))) := by
    unfold readLog
    rw [main_filterMap_bookEvents Event.readOf _ sudokus nx ny np
      width height rfl (fun _ _ _ _ _ => rfl) (fun _ _ _ _ _ _ => rfl) (fun _ _ _ _ => rfl)
      (fun g X Y idx => main_readLog_tileEvents sudokus g X Y idx), hn2]
    apply List.flatMap_congr
    intro idx hidx
    rw [List.mem_range] at hidx
    have hb : (Main.boardAt sudokus idx).length = 81 := by
      rw [main_boardAt_of_lt hidx]
      exact h81 _ (List.getElem_mem hidx)
    rw [hb]
    rfl
  have hgrids := main_gridsPerPage_bookEvents sudokus nx ny np width height
  refine ⟨hreq, hn, by rw [hres], by rw [hres, ← hn2], by rw [hres], by rw [hres]; exact hlab,
    by rw [hres]; exact hread, ?_, by rw [hres]; exact hgrids, ?_⟩
  · intro e he
    rw [hres] at he
    cases e with
    | read f idx pos =>
      have hm : (f, idx, pos) ∈ readLog (Main.bookEvents sudokus nx ny np width height) := by
        unfold readLog
        rw [List.mem_filterMap]
        exact ⟨_, he, rfl⟩
      rw [hread] at hm
      obtain ⟨i, hi, hp⟩ := List.mem_flatMap.mp hm
      obtain ⟨p, _, hp2⟩ := List.mem_map.mp hp
      rw [List.mem_range] at hi
      have hidx : i = idx := by
        have := congrArg (fun x => x.2.1) hp2
        exact this
      subst hidx
      simp [Event.readBelow, hi]
    | _ => rfl
  · rw [hres]
    show (Main.bookEvents sudokus nx ny np width height).countP Event.isAddPage = 3 + np
    rw [countP_addPage_eq_length_pagesOf]
    have hl : (pagesOf (Main.bookEvents sudokus nx ny np width height)).length =
        (gridsPerPage (Main.bookEvents sudokus nx ny np width height)).length := by
      unfold gridsPerPage
      rw [List.length_map]
    rw [hl, hgrids]
    simp
    omega

/-- Witness of C18: one page of the sample puzzle twice, side by side. -/
theorem C18_main_reads_every_board_witness :
    (Main.createPDF [sampleGame.game, sampleGame.game] 2 1 1 210 (297 / 2)).flow = Flow.normal ∧
    labelNumbers (Main.createPDF [sampleGame.game, sampleGame.game] 2 1 1 210 (297 / 2)).events =
      [1, 2] :=
  ⟨(C18_main_reads_every_board [sampleGame.game, sampleGame.game] 2 1 1 210 (297 / 2)
      (by norm_num) (by decide) (by decide)).2.2.1,
   (C18_main_reads_every_board [sampleGame.game, sampleGame.game] 2 1 1 210 (297 / 2)
      (by norm_num) (by decide) (by decide)).2.2.2.2.2.1⟩

/-- C19 (code at the failing input): for band 0 (block size 50) volume 1
selects the rows at positions 0 to 49 and volume 2 the rows at positions 51 to
100: the two ranges are disjoint but not adjacent, the row at position 50 is in
no volume. -/
theorem C19_first_block_gap :
    Mix.fetchLimit 0 = 50 ∧ Mix.fetchOffset 1 0 = 0 ∧ Mix.fetchOffset 2 0 = 51 ∧
    Mix.fetchOffset 1 0 + Mix.fetchLimit 0 ≠ Mix.fetchOffset 2 0 ∧
    (∀ volume, ¬ Mix.selects volume 0 50) ∧
    (∀ (i : Nat) (volume : Int), 2 ≤ volume →
      Mix.fetchOffset volume i + Mix.fetchLimit i = Mix.fetchOffset (volume + 1) i) ∧
    (∀ (i : Nat) (volume : Int) (row : Int), 1 ≤ volume →
      ¬ (Mix.selects volume i row ∧ Mix.selects (volume + 1) i row)) := by
  have hb : ∀ i, 1 ≤ Mix.basesize i := by
    intro i
    unfold Mix.basesize
    split <;> decide
  refine ⟨by decide, by decide, by decide, by decide, ?_, ?_, ?_⟩
  · intro volume hs
    unfold Mix.selects Mix.fetchOffset Mix.fetchLimit Mix.multipier at hs
    have h0 : Mix.basesize 0 = 1 := rfl
    rw [h0] at hs
    split_ifs at hs with hv <;> omega
  · intro i volume hv
    unfold Mix.fetchOffset Mix.fetchLimit Mix.multipier
    have h1 : volume > 1 := by omega
    have h2 : volume + 1 > 1 := by omega
    rw [if_pos h1, if_pos h2]
    ring
  · intro i volume row hv ⟨h1, h2⟩
    unfold Mix.selects Mix.fetchOffset Mix.fetchLimit Mix.multipier at h1 h2
    have hbi := hb i
    have h3 : volume + 1 > 1 := by omega
    rw [if_pos h3] at h2
    have e : (volume + 1 - 1) * Mix.basesize i * 50 = volume * Mix.basesize i * 50 := by ring
    rw [e] at h2
    split_ifs at h1 with hv1
    · have e2 : (volume - 1) * Mix.basesize i * 50 + Mix.basesize i * 50 =
          volume * Mix.basesize i * 50 := by ring
      omega
    · have hv2 : volume = 1 := by omega
      subst hv2
      omega

end Drawsudoku
